import Mathlib

/-!
# geojson-aggregator: counting points per area (`main.go`)

A shallow embedding of `reportGenerator`, `totalSum`, `buildBounds`, `buildDefinition`,
`aggregate` and the bounding boxes of `main.go`, and the properties that the design
document states about them.

Modelling conventions.

* Coordinates are `float64` in the source.  Neither `buildDefinition` nor `aggregate`
  computes on a coordinate (they are only copied and handed to `Polygon.Contains`), so the
  embedding is parametric in the coordinate type `α`.
* `Polygon.Contains` belongs to the library `golang-geo`, not to this repository; it is the
  parameter `contains` of every definition that calls it.
* The decoder and the encoder of feature collections belong to the library `go.geojson`;
  they are the parameters `unmarshal` and `marshal` of `reportGenerator`.
* A Go `int` is an `Int` (64-bit platform); the additions on it, `count + 1` and the sum
  of `totalSum`, wrap at 64 bits (`intWrap`).
* A run-time panic (nil dereference, index out of range, write to a nil map) is the result
  `none`.
* `map[string]interface{}` is an association list read with `getProp` and written with
  `setProp`; a nil map is `none` at the place where the map is stored.
* `map[int][][]*geo.Polygon` is the list of its entries.  Go visits the entries of a map in
  an unspecified order that may change from one `range` statement to the next: the order
  is the parameter `sched` of `aggregate`.
* Features are distinct objects (no two slots of a feature slice share a property map), as
  they are when they come from unmarshalling.  Logging is not modelled.
-/

namespace GeojsonAggregator

/-! ## Data model -/

/-- A value stored in a property map (`interface{}`): either a Go `int`, or a value of any
other dynamic type (float64, which is what every JSON number unmarshals to, string, bool,
nil, nested data), kept by its text. -/
inductive Value where
  | int (n : Int)
  | other (text : String)
  deriving DecidableEq

/-- The entries of a non-nil `map[string]interface{}`. -/
abbrev Props := List (String × Value)

/-- Read `m[key]`: the value and whether the key is present. -/
def getProp (m : Props) (key : String) : Option Value :=
  match m with
  | [] => none
  | e :: rest => if e.1 = key then some e.2 else getProp rest key

/-- Write `m[key] = v`. -/
def setProp (m : Props) (key : String) (v : Value) : Props :=
  (key, v) :: m.filter (fun e => decide (e.1 ≠ key))

/-- Two's-complement wrap-around of a 64-bit Go `int`. -/
def intWrap (n : Int) : Int := (n + 2 ^ 63) % 2 ^ 64 - 2 ^ 63

/-- The type `geo.Point`. -/
structure GeoPoint (α : Type) where
  lat : α
  lng : α
  deriving DecidableEq

/-- The type `geo.Polygon`: the points handed to `geo.NewPolygon`. -/
structure GeoPolygon (α : Type) where
  points : List (GeoPoint α)
  deriving DecidableEq

/-- The fields of `geojson.Geometry` that `main.go` reads. -/
structure Geometry (α : Type) where
  Point : List α
  MultiPolygon : List (List (List (List α)))
  deriving DecidableEq

/-- The fields of `geojson.Feature` that `main.go` reads or writes: `Geometry` is a pointer
(`none` when nil), `Properties` a map (`none` when nil). -/
structure Feature (α : Type) where
  Geometry : Option (Geometry α)
  Properties : Option Props
  deriving DecidableEq

/-- The type `geojson.FeatureCollection`: a slice of feature pointers (`none` when nil). -/
structure FeatureCollection (α : Type) where
  Features : List (Option (Feature α))
  deriving DecidableEq

/-- One entry `pid ↦ polygroup` of the map `definition`. -/
abbrev Entry (α : Type) := Int × List (List (GeoPolygon α))

variable {α : Type}

/-! ## Loops that may panic -/

/-- The loop `for _, x := range xs { st = body(st, x) }` where `body` may panic. -/
def rangeLoop {σ β : Type} (body : σ → β → Option σ) (init : σ) (xs : List β) : Option σ :=
  xs.foldl (fun s x => s.bind (fun st => body st x)) (some init)

/-- The loop `for _, x := range xs { acc = append(acc, f(x)) }` from an empty `acc`, where
`f` may panic. -/
def appendLoop {β γ : Type} (f : β → Option γ) (xs : List β) : Option (List γ) :=
  rangeLoop (fun acc x => (f x).map (fun y => acc ++ [y])) [] xs

/-! ## `totalSum` -/

/-- The function `totalSum`. -/
def totalSum (ls : List Int) : Int :=
  ls.foldl (fun sum l => intWrap (sum + l)) 0

/-! ## `buildDefinition` -/

/-- Lines 141-143: `lat := pt[1]; lng := pt[0]; geo.NewPoint(lat, lng)`. -/
def buildPoint (pt : List α) : Option (GeoPoint α) :=
  match pt[1]?, pt[0]? with
  | some lat, some lng => some ⟨lat, lng⟩
  | _, _ => none

/-- Lines 139-146: one ring. -/
def buildPolygon (pg : List (List α)) : Option (GeoPolygon α) :=
  (appendLoop buildPoint pg).map GeoPolygon.mk

/-- Lines 135-150: the parts of one area. -/
def buildGroup (mp : List (List (List (List α)))) : Option (List (List (GeoPolygon α))) :=
  appendLoop (fun mpg => appendLoop buildPolygon mpg) mp

/-- The function `buildDefinition`.  Every key `fid` is written once, so the map is the list
of the entries in the order they are written. -/
def buildDefinition (features : List (Option (Feature α))) : Option (List (Entry α)) :=
  appendLoop
    (fun (e : Nat × Option (Feature α)) =>
      match e.2 with
      | none => none
      | some feature =>
        match feature.Geometry with
        | none => none
        | some g => (buildGroup g.MultiPolygon).map (fun group => ((e.1 : Int), group)))
    features.enum

/-! ## `aggregate` -/

/-- Lines 166-171: the number of rings of one part that contain the point. -/
def containCount (contains : GeoPolygon α → GeoPoint α → Bool)
    (polygons : List (GeoPolygon α)) (point : GeoPoint α) : Nat :=
  polygons.foldl (fun cnt polygon => if contains polygon point then cnt + 1 else cnt) 0

/-- Lines 199-202: write `total` unless the key is present. -/
def setTotal (nfeatures : Int) (m : Props) : Props :=
  match getProp m "total" with
  | some _ => m
  | none => setProp m "total" (Value.int nfeatures)

/-- Lines 165-202 on the property map of the area: the body of the loop over the parts of
one area, for one point.  `nfeatures` is `len(features)`, `polycount` is `len(polygroup)`.
Each `continue` of the source ends the body, and the loop goes on with the next part. -/
def partStep (contains : GeoPolygon α → GeoPoint α → Bool) (nfeatures : Int)
    (point : GeoPoint α) (polycount : Nat) (polygons : List (GeoPolygon α))
    (m : Props) : Props :=
  let sum : List Int :=
    if containCount contains polygons point % 2 = 1 then [] ++ [1] else []
  let total := totalSum sum
  let count : Int :=
    match getProp m "count" with
    | some (Value.int n) => n
    | _ => 0
  let m1 : Props :=
    match getProp m "count" with
    | some (Value.int _) => m
    | _ => setProp m "count" (Value.int 0)
  if total > 0 then
    if total = 1 then
      setProp m1 "count" (Value.int (intWrap (count + 1)))
    else if polycount > 1 then
      setProp m1 "count" (Value.int (intWrap (count + 1)))
    else setTotal nfeatures m1
  else setTotal nfeatures m1

/-- The pointer `collection.Features[pid]`, when `pid` is in range and the pointer is not
nil. -/
def featureAt (c : FeatureCollection α) (pid : Int) : Option (Feature α) :=
  if pid < 0 then none else (c.Features[pid.toNat]?).join

/-- The collection after the property map of feature `pid` has become `m`. -/
def withProps (c : FeatureCollection α) (pid : Int) (f : Feature α) (m : Props) :
    FeatureCollection α :=
  ⟨c.Features.set pid.toNat (some ⟨f.Geometry, some m⟩)⟩

/-- Lines 165-202 on the collection.  `collection.Features[pid]` panics when `pid` is out of
range or the feature is nil.  On a nil property map the type assertion of line 180 fails
and line 183 writes to the nil map, which panics; on a map that is not nil no statement
panics. -/
def visitPart (contains : GeoPolygon α → GeoPoint α → Bool) (nfeatures : Int)
    (point : GeoPoint α) (pid : Int) (polycount : Nat)
    (c : FeatureCollection α) (polygons : List (GeoPolygon α)) :
    Option (FeatureCollection α) :=
  match featureAt c pid with
  | none => none
  | some f =>
    match f.Properties with
    | none => none
    | some m =>
      some (withProps c pid f (partStep contains nfeatures point polycount polygons m))

/-- Lines 163-203: one point against one entry of the definition. -/
def visitArea (contains : GeoPolygon α → GeoPoint α → Bool) (nfeatures : Int)
    (point : GeoPoint α) (c : FeatureCollection α) (entry : Entry α) :
    Option (FeatureCollection α) :=
  rangeLoop (visitPart contains nfeatures point entry.1 entry.2.length) c entry.2

/-- Lines 159-161: the point of a point feature.  It panics on a nil feature, a nil
geometry, or a `Point` slice with fewer than two numbers. -/
def pointOf (pt : Option (Feature α)) : Option (GeoPoint α) :=
  match pt with
  | none => none
  | some f =>
    match f.Geometry with
    | none => none
    | some g =>
      match g.Point[1]?, g.Point[0]? with
      | some lat, some lng => some ⟨lat, lng⟩
      | _, _ => none

/-- Lines 159-204: one point against the entries of the definition, visited in the order
`order`. -/
def visitPoint (contains : GeoPolygon α → GeoPoint α → Bool) (nfeatures : Int)
    (order : List (Entry α)) (c : FeatureCollection α) (pt : Option (Feature α)) :
    Option (FeatureCollection α) :=
  match pointOf pt with
  | none => none
  | some point => rangeLoop (visitArea contains nfeatures point) c order

/-- The function `aggregate`.  It returns the collection as mutated, or `none` when the run
panics.  `sched k definition` is the order in which `range definition` visits the entries
at the point of index `k`. -/
def aggregate (contains : GeoPolygon α → GeoPoint α → Bool)
    (sched : Nat → List (Entry α) → List (Entry α))
    (collection : FeatureCollection α) (features : List (Option (Feature α)))
    (definition : List (Entry α)) : Option (FeatureCollection α) :=
  rangeLoop
    (fun c (e : Nat × Option (Feature α)) =>
      visitPoint contains (features.length : Int) (sched e.1 definition) c e.2)
    collection features.enum

/-- Lines 96-97 of `reportGenerator`: build the definition of the area collection, then
aggregate the points into it. -/
def enrich (contains : GeoPolygon α → GeoPoint α → Bool)
    (sched : Nat → List (Entry α) → List (Entry α))
    (boundaries : FeatureCollection α) (points : List (Option (Feature α))) :
    Option (FeatureCollection α) :=
  (buildDefinition boundaries.Features).bind
    (fun definition => aggregate contains sched boundaries points definition)

/-! ## `reportGenerator` -/

/-- The function `reportGenerator`.  `unmarshal` is `geojson.UnmarshalFeatureCollection`
and `marshal` is `FeatureCollection.MarshalJSON`, both of the library `go.geojson`.  The
result is the pair `([]byte, error)` that the function returns, the error `none` when it
is nil; it is `none` when the run panics before it returns. -/
def reportGenerator {ε β : Type} (unmarshal : List β → Except ε (FeatureCollection α))
    (marshal : FeatureCollection α → Except ε (List β))
    (contains : GeoPolygon α → GeoPoint α → Bool)
    (sched : Nat → List (Entry α) → List (Entry α))
    (bigbuddy lilbuddy : List β) : Option (List β × Option ε) :=
  match unmarshal bigbuddy with
  | Except.error err => some ([], some err)
  | Except.ok boundaries =>
    match unmarshal lilbuddy with
    | Except.error err => some ([], some err)
    | Except.ok points =>
      match enrich contains sched boundaries points.Features with
      | none => none
      | some enriched =>
        match marshal enriched with
        | Except.error err => some ([], some err)
        | Except.ok result => some (result, none)

/-! ## Bounding boxes

The coordinates are numbers of an ordered type `κ` without NaN, in which `math.Inf(1)` is
the top element, `math.Inf(-1)` the bottom element, and `math.Min`, `math.Max` are the
minimum and the maximum of the order. -/

/-- The type `point`. -/
structure point (κ : Type) where
  x : κ
  y : κ
  deriving DecidableEq

/-- The type `bounds`. -/
structure bounds (κ : Type) where
  min : point κ
  max : point κ
  deriving DecidableEq

variable {κ : Type}

/-- The function `newBounds`. -/
def newBounds [LinearOrder κ] [OrderTop κ] [OrderBot κ] : bounds κ :=
  ⟨⟨⊤, ⊤⟩, ⟨⊥, ⊥⟩⟩

/-- The method `extend`, which returns the box it leaves in `b`. -/
def bounds.extend [LinearOrder κ] (b : bounds κ) (p : point κ) : bounds κ :=
  ⟨⟨Min.min b.min.x p.x, Min.min b.min.y p.y⟩, ⟨Max.max b.max.x p.x, Max.max b.max.y p.y⟩⟩

/-- The function `overlaps`. -/
def overlaps [LinearOrder κ] (a b : bounds κ) : Bool :=
  decide (a.min.x ≤ b.max.x) && decide (a.min.y ≤ b.max.y)
    && decide (a.max.x ≥ b.min.x) && decide (a.max.y ≥ b.min.y)

/-- Lines 122-123: `p := point{pt[0], pt[1]}; bounds.extend(p)`. -/
def extendPosition [LinearOrder κ] (b : bounds κ) (pt : List κ) : Option (bounds κ) :=
  match pt[0]?, pt[1]? with
  | some x, some y => some (b.extend ⟨x, y⟩)
  | _, _ => none

/-- Lines 121-124: the positions of one ring. -/
def extendRing [LinearOrder κ] (b : bounds κ) (pg : List (List κ)) : Option (bounds κ) :=
  rangeLoop extendPosition b pg

/-- Lines 120-125: the rings of one part. -/
def extendPart [LinearOrder κ] (b : bounds κ) (mpg : List (List (List κ))) : Option (bounds κ) :=
  rangeLoop extendRing b mpg

/-- Lines 119-126: the parts of one area. -/
def extendArea [LinearOrder κ] (b : bounds κ) (mp : List (List (List (List κ)))) : Option (bounds κ) :=
  rangeLoop extendPart b mp

/-- The function `buildBounds`.  Every key `pid` is written once, so the map is the list
of the entries in the order they are written. -/
def buildBounds [LinearOrder κ] [OrderTop κ] [OrderBot κ] (features : List (Option (Feature κ))) : Option (List (Int × bounds κ)) :=
  appendLoop
    (fun (e : Nat × Option (Feature κ)) =>
      match e.2 with
      | none => none
      | some feature =>
        match feature.Geometry with
        | none => none
        | some g => (extendArea newBounds g.MultiPolygon).map (fun b => ((e.1 : Int), b)))
    features.enum

/-- The box contains the point. -/
def bounds.covers [LinearOrder κ] (b : bounds κ) (p : point κ) : Prop :=
  b.min.x ≤ p.x ∧ p.x ≤ b.max.x ∧ b.min.y ≤ p.y ∧ p.y ≤ b.max.y

/-- The box `b1` is not smaller than the box `b`. -/
def bounds.within [LinearOrder κ] (b b1 : bounds κ) : Prop :=
  b1.min.x ≤ b.min.x ∧ b1.min.y ≤ b.min.y ∧ b.max.x ≤ b1.max.x ∧ b.max.y ≤ b1.max.y

/-- The box contains the vertex that a position `[x, y]` stands for. -/
def bounds.coversPosition [LinearOrder κ] (b : bounds κ) (pt : List κ) : Prop :=
  ∀ x y, pt[0]? = some x → pt[1]? = some y → b.covers ⟨x, y⟩

/-! ## Conditions on the inputs of a run -/

/-- A visiting order of a Go map: every `range` statement visits each entry once. -/
def MapRange (sched : Nat → List (Entry α) → List (Entry α)) : Prop :=
  ∀ k d, List.Perm (sched k d) d

/-- The keys of a Go map are distinct. -/
def DistinctKeys (definition : List (Entry α)) : Prop :=
  (definition.map Prod.fst).Nodup

/-- The property map of feature `pid`, when the feature and its map exist. -/
def propsAt (c : FeatureCollection α) (pid : Int) : Option Props :=
  (featureAt c pid).bind Feature.Properties

/-- Every entry of the definition that has a part names a feature of the collection that
exists and has a property map: the condition under which lines 180-202 do not panic. -/
def AreasPresent (c : FeatureCollection α) (definition : List (Entry α)) : Prop :=
  ∀ e ∈ definition, e.2.isEmpty = false → (propsAt c e.1).isSome = true

/-- Every point feature exists and has a geometry whose `Point` holds two numbers: the
condition under which lines 159-160 do not panic. -/
def PointsPresent (features : List (Option (Feature α))) : Prop :=
  ∀ pt ∈ features, (pointOf pt).isSome = true

/-- An area feature that `buildDefinition` reads without a panic: the feature and its
geometry exist and every position of the multi-polygon holds at least two numbers. -/
def wellFormedArea (feature : Option (Feature α)) : Bool :=
  match feature with
  | none => false
  | some f =>
    match f.Geometry with
    | none => false
    | some g =>
      g.MultiPolygon.all (fun mpg => mpg.all (fun pg => pg.all (fun pt =>
        decide (2 ≤ pt.length))))

/-- Every area feature is well formed. -/
def AreasWellFormed (features : List (Option (Feature α))) : Prop :=
  ∀ feature ∈ features, wellFormedArea feature = true

/-- An area feature that exists and has a property map. -/
def hasProps (feature : Option (Feature α)) : Bool :=
  match feature with
  | none => false
  | some f => f.Properties.isSome

/-- Every area feature has a property map. -/
def AreasHaveProps (features : List (Option (Feature α))) : Prop :=
  ∀ feature ∈ features, hasProps feature = true

/-- A property map as `encoding/json` decodes it: every number is a float64, so no value
is a Go `int`. -/
def jsonDecoded (m : Props) : Bool :=
  m.all (fun e =>
    match e.2 with
    | Value.int _ => false
    | Value.other _ => true)

/-- An area feature whose property map, if it has one, is as decoded from JSON. -/
def jsonArea (feature : Option (Feature α)) : Bool :=
  match feature with
  | none => true
  | some f =>
    match f.Properties with
    | none => true
    | some m => jsonDecoded m

/-- The area features are as `geojson.UnmarshalFeatureCollection` returns them, which is
how `reportGenerator`, the only caller of `aggregate`, obtains them. -/
def AreasFromJSON (features : List (Option (Feature α))) : Prop :=
  ∀ feature ∈ features, jsonArea feature = true

/-! ## Derived descriptions used in the statements -/

/-- The integer that line 180 reads for `count`: the value when it is a Go `int`, else 0. -/
def countOf (m : Props) : Int :=
  match getProp m "count" with
  | some (Value.int n) => n
  | _ => 0

/-- Line 174: the crossing count of the part is odd. -/
def oddCrossing (contains : GeoPolygon α → GeoPoint α → Bool)
    (polygons : List (GeoPolygon α)) (point : GeoPoint α) : Bool :=
  decide (containCount contains polygons point % 2 = 1)

/-- The map after the lazy initialisation of lines 180-184. -/
def initCount (m : Props) : Props :=
  match getProp m "count" with
  | some (Value.int _) => m
  | _ => setProp m "count" (Value.int 0)

/-- One point against every part of an area, on the property map of the area. -/
def areaProps (contains : GeoPolygon α → GeoPoint α → Bool) (nfeatures : Int)
    (point : GeoPoint α) (polygroup : List (List (GeoPolygon α))) (m : Props) : Props :=
  polygroup.foldl
    (fun m1 polygons => partStep contains nfeatures point polygroup.length polygons m1) m

/-- Every point of a list against every part of an area, on the property map of the
area. -/
def runProps (contains : GeoPolygon α → GeoPoint α → Bool) (nfeatures : Int)
    (points : List (GeoPoint α)) (polygroup : List (List (GeoPolygon α))) (m : Props) :
    Props :=
  points.foldl (fun m1 point => areaProps contains nfeatures point polygroup m1) m

/-- The part evaluations of an area over a list of points, in the order `aggregate`
performs them: each point against each part. -/
def evaluations (points : List (GeoPoint α)) (polygroup : List (List (GeoPolygon α))) :
    List (GeoPoint α × List (GeoPolygon α)) :=
  points.flatMap (fun point => polygroup.map (fun polygons => (point, polygons)))

/-- A sequence of part evaluations on the property map of one area. -/
def stepsProps (contains : GeoPolygon α → GeoPoint α → Bool) (nfeatures : Int)
    (polycount : Nat) (steps : List (GeoPoint α × List (GeoPolygon α))) (m : Props) : Props :=
  steps.foldl (fun m1 e => partStep contains nfeatures e.1 polycount e.2 m1) m

/-- The evaluation matched: its crossing count is odd. -/
def isMatch (contains : GeoPolygon α → GeoPoint α → Bool)
    (e : GeoPoint α × List (GeoPolygon α)) : Bool :=
  oddCrossing contains e.2 e.1

/-- The parts the definition stores for the key `pid`; none when the key is absent. -/
def groupOf (definition : List (Entry α)) (pid : Int) : List (List (GeoPolygon α)) :=
  match definition with
  | [] => []
  | e :: rest => if e.1 = pid then e.2 else groupOf rest pid

/-- A feature with its property map, when it has one, replaced by its image under `F`. -/
def mapProps (F : Props → Props) (f : Feature α) : Feature α :=
  ⟨f.Geometry, f.Properties.map F⟩

/-- Whether one part evaluation executes line 201, the write of `total`: control reaches
line 199 (no `continue` was taken) and the key is absent there. -/
def writesTotal (contains : GeoPolygon α → GeoPoint α → Bool)
    (point : GeoPoint α) (polycount : Nat) (polygons : List (GeoPolygon α))
    (m : Props) : Bool :=
  let sum : List Int :=
    if containCount contains polygons point % 2 = 1 then [] ++ [1] else []
  let total := totalSum sum
  let reachesLine199 : Bool :=
    if total > 0 then
      if total = 1 then false
      else if polycount > 1 then false
      else true
    else true
  reachesLine199 && (getProp (initCount m) "total").isNone

/-- The number of writes of `total` in a sequence of part evaluations. -/
def totalWrites (contains : GeoPolygon α → GeoPoint α → Bool) (nfeatures : Int)
    (polycount : Nat) (steps : List (GeoPoint α × List (GeoPolygon α))) (m : Props) : Nat :=
  match steps with
  | [] => 0
  | e :: rest =>
    (if writesTotal contains e.1 polycount e.2 m = true then 1 else 0)
      + totalWrites contains nfeatures polycount rest
          (partStep contains nfeatures e.1 polycount e.2 m)

/-! ## The structure `buildDefinition` preserves, in the words of the design document -/

/-- The coordinate pair `[x, y]` becomes the point with `lng = x` and `lat = y`. -/
def IsPointOf (pt : List α) (p : GeoPoint α) : Prop :=
  pt[0]? = some p.lng ∧ pt[1]? = some p.lat

/-- A ring of coordinate pairs and its polygon: the same number of points, in the same
order. -/
def IsRingOf (pg : List (List α)) (polygon : GeoPolygon α) : Prop :=
  List.Forall₂ IsPointOf pg polygon.points

/-- A part and its polygons: the same number of rings, in the same order. -/
def IsPartOf (mpg : List (List (List α))) (polygons : List (GeoPolygon α)) : Prop :=
  List.Forall₂ IsRingOf mpg polygons

/-- A multi-polygon and its group: the same number of parts, in the same order. -/
def IsGroupOf (mp : List (List (List (List α)))) (group : List (List (GeoPolygon α))) :
    Prop :=
  List.Forall₂ IsPartOf mp group

/-! ## The frame of `aggregate` -/

/-- The value a feature holds under a key: none when the key is absent or the map is nil. -/
def propOf (f : Feature α) (key : String) : Option Value :=
  f.Properties.bind (fun m => getProp m key)

/-- One slot of the feature slice before and after a run: a nil pointer stays nil; a
feature keeps its geometry, stays with or without a property map, and keeps the value of
every key other than `count` and `total`. -/
def SlotFramed (s s1 : Option (Feature α)) : Prop :=
  match s, s1 with
  | none, none => True
  | some f, some f1 =>
    f1.Geometry = f.Geometry
      ∧ f1.Properties.isSome = f.Properties.isSome
      ∧ ∀ key, key ≠ "count" → key ≠ "total" → propOf f1 key = propOf f key
  | _, _ => False

/-- The collection before and after a run: as many features, in the same order, each slot
framed. -/
def Framed (c c1 : FeatureCollection α) : Prop :=
  List.Forall₂ SlotFramed c.Features c1.Features

/-! ## `aggregate` without the else-branch of lines 190-196 -/

/-- Lines 165-176: the slice `sum` that line 178 hands to `totalSum`. -/
def sumOf (contains : GeoPolygon α → GeoPoint α → Bool)
    (polygons : List (GeoPolygon α)) (point : GeoPoint α) : List Int :=
  if containCount contains polygons point % 2 = 1 then [] ++ [1] else []

/-- Whether one part evaluation enters the else-branch of line 190: `total > 0` holds and
`total == 1` does not. -/
def entersElseBranch (contains : GeoPolygon α → GeoPoint α → Bool)
    (polygons : List (GeoPolygon α)) (point : GeoPoint α) : Bool :=
  let total := totalSum (sumOf contains polygons point)
  decide (total > 0) && !decide (total = 1)

/-- The body `partStep` with lines 190-196 deleted: after `if total == 1 { ... }` control
falls through to line 199. -/
def partStepLive (contains : GeoPolygon α → GeoPoint α → Bool) (nfeatures : Int)
    (point : GeoPoint α) (polygons : List (GeoPolygon α)) (m : Props) : Props :=
  let sum : List Int :=
    if containCount contains polygons point % 2 = 1 then [] ++ [1] else []
  let total := totalSum sum
  let count : Int :=
    match getProp m "count" with
    | some (Value.int n) => n
    | _ => 0
  let m1 : Props :=
    match getProp m "count" with
    | some (Value.int _) => m
    | _ => setProp m "count" (Value.int 0)
  if total > 0 then
    if total = 1 then
      setProp m1 "count" (Value.int (intWrap (count + 1)))
    else setTotal nfeatures m1
  else setTotal nfeatures m1

/-- The body `visitPart` with lines 190-196 deleted. -/
def visitPartLive (contains : GeoPolygon α → GeoPoint α → Bool) (nfeatures : Int)
    (point : GeoPoint α) (pid : Int)
    (c : FeatureCollection α) (polygons : List (GeoPolygon α)) :
    Option (FeatureCollection α) :=
  match featureAt c pid with
  | none => none
  | some f =>
    match f.Properties with
    | none => none
    | some m =>
      some (withProps c pid f (partStepLive contains nfeatures point polygons m))

/-- The loop `visitArea` with lines 190-196 deleted. -/
def visitAreaLive (contains : GeoPolygon α → GeoPoint α → Bool) (nfeatures : Int)
    (point : GeoPoint α) (c : FeatureCollection α) (entry : Entry α) :
    Option (FeatureCollection α) :=
  rangeLoop (visitPartLive contains nfeatures point entry.1) c entry.2

/-- The loop `visitPoint` with lines 190-196 deleted. -/
def visitPointLive (contains : GeoPolygon α → GeoPoint α → Bool) (nfeatures : Int)
    (order : List (Entry α)) (c : FeatureCollection α) (pt : Option (Feature α)) :
    Option (FeatureCollection α) :=
  match pointOf pt with
  | none => none
  | some point => rangeLoop (visitAreaLive contains nfeatures point) c order

/-- The function `aggregate` with lines 190-196 deleted. -/
def aggregateLive (contains : GeoPolygon α → GeoPoint α → Bool)
    (sched : Nat → List (Entry α) → List (Entry α))
    (collection : FeatureCollection α) (features : List (Option (Feature α)))
    (definition : List (Entry α)) : Option (FeatureCollection α) :=
  rangeLoop
    (fun c (e : Nat × Option (Feature α)) =>
      visitPointLive contains (features.length : Int) (sched e.1 definition) c e.2)
    collection features.enum

/-! ## Concrete inputs -/

/-- A stand-in for `Polygon.Contains` at concrete inputs with integer coordinates: the point
lies strictly inside the bounding box of the ring.  On a ring that is an axis-parallel
rectangle this is the answer of a point-in-polygon test for every point off the border. -/
def boxContains (polygon : GeoPolygon Int) (point : GeoPoint Int) : Bool :=
  polygon.points.any (fun v => decide (v.lng < point.lng))
    && polygon.points.any (fun v => decide (point.lng < v.lng))
    && polygon.points.any (fun v => decide (v.lat < point.lat))
    && polygon.points.any (fun v => decide (point.lat < v.lat))

/-- The closed ring of the axis-parallel rectangle with corners `(x0, y0)` and `(x1, y1)`,
as GeoJSON positions `[x, y]`. -/
def rectRing (x0 y0 x1 y1 : Int) : List (List Int) :=
  [[x0, y0], [x0, y1], [x1, y1], [x1, y0], [x0, y0]]

/-- The ring `rectRing x0 y0 x1 y1` as `buildDefinition` stores it. -/
def rectPolygon (x0 y0 x1 y1 : Int) : GeoPolygon Int :=
  ⟨[⟨y0, x0⟩, ⟨y1, x0⟩, ⟨y1, x1⟩, ⟨y0, x1⟩, ⟨y0, x0⟩]⟩

/-- An area feature with the given multi-polygon and property map. -/
def areaFeature (parts : List (List (List (List Int)))) (props : Props) :
    Option (Feature Int) :=
  some ⟨some ⟨[], parts⟩, some props⟩

/-- A point feature at `[x, y]`. -/
def pointFeature (x y : Int) : Option (Feature Int) :=
  some ⟨some ⟨[x, y], []⟩, some []⟩

/-- A feature whose geometry is not a point: its `Point` slice is empty. -/
def lineFeature : Option (Feature Int) :=
  some ⟨some ⟨[], []⟩, some []⟩

/-- Go visits the entries in the order they are stored. -/
def storedOrder (_k : Nat) (d : List (Entry Int)) : List (Entry Int) := d

/-- Go visits the entries in the reverse of the order they are stored. -/
def reversedOrder (_k : Nat) (d : List (Entry Int)) : List (Entry Int) := d.reverse

/-- One area of one part, the square ring of the design document, no property. -/
def squareArea : FeatureCollection Int :=
  ⟨[areaFeature [[rectRing 0 0 10 10]] []]⟩

/-- One area of two overlapping square parts, `count` already the integer 0. -/
def overlapArea : FeatureCollection Int :=
  ⟨[areaFeature [[rectRing 0 0 10 10], [rectRing 4 4 14 14]] [("count", Value.int 0)]]⟩

/-- One area of two disjoint square parts, no property. -/
def twoPartArea : FeatureCollection Int :=
  ⟨[areaFeature [[rectRing 0 0 10 10], [rectRing 20 20 30 30]] []]⟩

/-- One area of one part: a square outer ring with a square hole, no property. -/
def holedArea : FeatureCollection Int :=
  ⟨[areaFeature [[rectRing 0 0 10 10, rectRing 4 4 6 6]] []]⟩

/-- The square area with a `total` that came from a JSON document (a float64). -/
def totalledArea : FeatureCollection Int :=
  ⟨[areaFeature [[rectRing 0 0 10 10]] [("total", Value.other "7")]]⟩

/-- The square area with a nil property map. -/
def nilPropsArea : FeatureCollection Int :=
  ⟨[some ⟨some ⟨[], [[rectRing 0 0 10 10]]⟩, none⟩]⟩

/-- The square area with a further property, the float64 `pop`. -/
def namedArea : FeatureCollection Int :=
  ⟨[areaFeature [[rectRing 0 0 10 10]] [("pop", Value.other "12.5")]]⟩

/-- Two areas: the square of one part, and an area with no part. -/
def squareAndEmpty : List (Option (Feature Int)) :=
  [areaFeature [[rectRing 0 0 10 10]] [], areaFeature [] []]

/-- Two areas: the square `[0, 10]²` and the square `[20, 30]²`. -/
def twoAreas : FeatureCollection Int :=
  ⟨[areaFeature [[rectRing 0 0 10 10]] [], areaFeature [[rectRing 20 20 30 30]] []]⟩

/-- The areas of `twoAreas` in the other order. -/
def twoAreasSwapped : FeatureCollection Int :=
  ⟨[areaFeature [[rectRing 20 20 30 30]] [], areaFeature [[rectRing 0 0 10 10]] []]⟩

/-- A stand-in for the decoder at concrete inputs: the byte 1 is the document of the
square area, the byte 2 the document of the points `(5, 5)`, `(15, 15)`, `(5, 5)`, the
byte 3 a document whose one feature is not a point, and anything else is not a feature
collection. -/
def toyUnmarshal (bytes : List Nat) : Except String (FeatureCollection Int) :=
  match bytes with
  | [1] => Except.ok squareArea
  | [2] => Except.ok ⟨[pointFeature 5 5, pointFeature 15 15, pointFeature 5 5]⟩
  | [3] => Except.ok ⟨[lineFeature]⟩
  | _ => Except.error "invalid character"

/-- A stand-in for the encoder at concrete inputs, which never fails: one byte per
feature, the integer under `count` (0 when there is none). -/
def toyMarshal (c : FeatureCollection Int) : Except String (List Nat) :=
  Except.ok (c.Features.map (fun s =>
    match s with
    | none => 0
    | some f => (countOf (f.Properties.getD [])).toNat))

/-- The integers with the two infinities: a stand-in for float64 at concrete inputs. -/
abbrev ExtInt := WithBot (WithTop Int)

/-- An integer as an element of `ExtInt`. -/
def ext (n : Int) : ExtInt := ((n : WithTop Int) : WithBot (WithTop Int))

/-- One area made of the triangle `(0, 0)`, `(0, 10)`, `(10, 10)`, closed. -/
def extTriangle : List (Option (Feature ExtInt)) :=
  [some ⟨some ⟨[], [[[[ext 0, ext 0], [ext 0, ext 10], [ext 10, ext 10], [ext 0, ext 0]]]]⟩,
    some []⟩]

/-! # Lemmas -/

/-! ## Loops -/

theorem rangeLoop_nil {σ β : Type} (body : σ → β → Option σ) (init : σ) :
    rangeLoop body init [] = some init := rfl

theorem foldl_bind_none {σ β : Type} (body : σ → β → Option σ) (xs : List β) :
    xs.foldl (fun s x => s.bind (fun st => body st x)) none = none := by
  induction xs with
  | nil => rfl
  | cons x xs ih => simpa using ih

theorem rangeLoop_cons {σ β : Type} (body : σ → β → Option σ) (init : σ) (x : β)
    (xs : List β) :
    rangeLoop body init (x :: xs) = (body init x).bind (fun st => rangeLoop body st xs) := by
  unfold rangeLoop
  simp only [List.foldl_cons, Option.some_bind]
  cases h : body init x with
  | none => simpa using foldl_bind_none body xs
  | some st => simp

/-! ## Property maps -/

theorem getProp_filter_ne (m : Props) (key k : String) (h : k ≠ key) :
    getProp (m.filter (fun e => decide (e.1 ≠ key))) k = getProp m k := by
  induction m with
  | nil => rfl
  | cons e rest ih =>
    by_cases he : e.1 = key
    · have hk : e.1 ≠ k := by rw [he]; exact fun h2 => h h2.symm
      rw [List.filter_cons_of_neg (by simpa using he)]
      rw [ih]
      simp only [getProp, hk, if_false]
    · rw [List.filter_cons_of_pos (by simpa using he)]
      by_cases hk : e.1 = k
      · simp only [getProp, hk, if_true]
      · simp only [getProp, hk, if_false, ih]

theorem getProp_setProp_same (m : Props) (key : String) (v : Value) :
    getProp (setProp m key v) key = some v := by
  simp [setProp, getProp]

theorem getProp_setProp_ne (m : Props) (key k : String) (v : Value) (h : k ≠ key) :
    getProp (setProp m key v) k = getProp m k := by
  have h2 : key ≠ k := fun e => h e.symm
  simp only [setProp, getProp, h2, if_false]
  exact getProp_filter_ne m key k h

/-! ## 64-bit wrap-around -/

theorem intWrap_eq (n : Int) (h1 : -(2 ^ 63) ≤ n) (h2 : n < 2 ^ 63) : intWrap n = n := by
  unfold intWrap
  omega

theorem intWrap_succ_ne (n : Int) : intWrap (n + 1) ≠ n := by
  unfold intWrap
  omega

theorem intWrap_succ_le (n : Int) (h1 : -(2 ^ 63) ≤ n) (h2 : n < 2 ^ 63) :
    intWrap (n + 1) ≤ n + 1 := by
  unfold intWrap
  omega

/-! ## Crossing count -/

theorem containCount_foldl (contains : GeoPolygon α → GeoPoint α → Bool)
    (polygons : List (GeoPolygon α)) (point : GeoPoint α) (k : Nat) :
    polygons.foldl (fun cnt polygon => if contains polygon point then cnt + 1 else cnt) k
      = k + polygons.countP (fun polygon => contains polygon point) := by
  induction polygons generalizing k with
  | nil => simp
  | cons p ps ih =>
    simp only [List.foldl_cons, List.countP_cons]
    rw [ih]
    by_cases h : contains p point
    · simp [h]; omega
    · simp [h]

theorem containCount_eq_countP (contains : GeoPolygon α → GeoPoint α → Bool)
    (polygons : List (GeoPolygon α)) (point : GeoPoint α) :
    containCount contains polygons point
      = polygons.countP (fun polygon => contains polygon point) := by
  unfold containCount
  rw [containCount_foldl]
  simp

/-! ## One part evaluation -/

theorem totalSum_empty : totalSum [] = 0 := rfl

theorem totalSum_one : totalSum ([] ++ [1]) = 1 := by decide

theorem partStep_odd (contains : GeoPolygon α → GeoPoint α → Bool) (nfeatures : Int)
    (point : GeoPoint α) (polycount : Nat) (polygons : List (GeoPolygon α)) (m : Props)
    (h : oddCrossing contains polygons point = true) :
    partStep contains nfeatures point polycount polygons m
      = setProp (initCount m) "count" (Value.int (intWrap (countOf m + 1))) := by
  have h1 : containCount contains polygons point % 2 = 1 := by simpa [oddCrossing] using h
  simp only [partStep, h1, if_true, totalSum_one]
  rfl

theorem partStep_even (contains : GeoPolygon α → GeoPoint α → Bool) (nfeatures : Int)
    (point : GeoPoint α) (polycount : Nat) (polygons : List (GeoPolygon α)) (m : Props)
    (h : oddCrossing contains polygons point = false) :
    partStep contains nfeatures point polycount polygons m
      = setTotal nfeatures (initCount m) := by
  have h1 : ¬ containCount contains polygons point % 2 = 1 := by simpa [oddCrossing] using h
  simp only [partStep, h1, if_false, totalSum_empty]
  rfl

theorem getProp_initCount_count (m : Props) :
    getProp (initCount m) "count" = some (Value.int (countOf m)) := by
  unfold initCount countOf
  cases h : getProp m "count" with
  | none => simp [getProp_setProp_same]
  | some v =>
    cases v with
    | int n => simp [h]
    | other s => simp [getProp_setProp_same]

theorem getProp_initCount_ne (m : Props) (k : String) (hk : k ≠ "count") :
    getProp (initCount m) k = getProp m k := by
  unfold initCount
  cases h : getProp m "count" with
  | none => simp [getProp_setProp_ne _ _ _ _ hk]
  | some v =>
    cases v with
    | int n => simp
    | other s => simp [getProp_setProp_ne _ _ _ _ hk]

theorem getProp_setTotal_total (nfeatures : Int) (m : Props) :
    getProp (setTotal nfeatures m) "total"
      = some ((getProp m "total").getD (Value.int nfeatures)) := by
  unfold setTotal
  cases h : getProp m "total" with
  | none => simp [getProp_setProp_same]
  | some v => simp [h]

theorem getProp_setTotal_ne (nfeatures : Int) (m : Props) (k : String) (hk : k ≠ "total") :
    getProp (setTotal nfeatures m) k = getProp m k := by
  unfold setTotal
  cases h : getProp m "total" with
  | none => simp [getProp_setProp_ne _ _ _ _ hk]
  | some v => simp

/-- The key `count` after one part evaluation. -/
theorem partStep_count (contains : GeoPolygon α → GeoPoint α → Bool) (nfeatures : Int)
    (point : GeoPoint α) (polycount : Nat) (polygons : List (GeoPolygon α)) (m : Props) :
    getProp (partStep contains nfeatures point polycount polygons m) "count"
      = some (Value.int (if oddCrossing contains polygons point = true
          then intWrap (countOf m + 1) else countOf m)) := by
  cases h : oddCrossing contains polygons point with
  | true => rw [partStep_odd _ _ _ _ _ _ h, getProp_setProp_same]; simp
  | false =>
    rw [partStep_even _ _ _ _ _ _ h, getProp_setTotal_ne _ _ _ (by decide),
      getProp_initCount_count]
    simp

/-- The key `total` after one part evaluation. -/
theorem partStep_total (contains : GeoPolygon α → GeoPoint α → Bool) (nfeatures : Int)
    (point : GeoPoint α) (polycount : Nat) (polygons : List (GeoPolygon α)) (m : Props) :
    getProp (partStep contains nfeatures point polycount polygons m) "total"
      = if oddCrossing contains polygons point = true then getProp m "total"
        else some ((getProp m "total").getD (Value.int nfeatures)) := by
  cases h : oddCrossing contains polygons point with
  | true =>
    rw [partStep_odd _ _ _ _ _ _ h, getProp_setProp_ne _ _ _ _ (by decide),
      getProp_initCount_ne _ _ (by decide)]
    simp
  | false =>
    rw [partStep_even _ _ _ _ _ _ h, getProp_setTotal_total,
      getProp_initCount_ne _ _ (by decide)]
    simp

/-- Every other key is left as it was. -/
theorem partStep_other (contains : GeoPolygon α → GeoPoint α → Bool) (nfeatures : Int)
    (point : GeoPoint α) (polycount : Nat) (polygons : List (GeoPolygon α)) (m : Props)
    (k : String) (h1 : k ≠ "count") (h2 : k ≠ "total") :
    getProp (partStep contains nfeatures point polycount polygons m) k = getProp m k := by
  cases h : oddCrossing contains polygons point with
  | true =>
    rw [partStep_odd _ _ _ _ _ _ h, getProp_setProp_ne _ _ _ _ h1,
      getProp_initCount_ne _ _ h1]
  | false =>
    rw [partStep_even _ _ _ _ _ _ h, getProp_setTotal_ne _ _ _ h2,
      getProp_initCount_ne _ _ h1]

theorem countOf_partStep (contains : GeoPolygon α → GeoPoint α → Bool) (nfeatures : Int)
    (point : GeoPoint α) (polycount : Nat) (polygons : List (GeoPolygon α)) (m : Props) :
    countOf (partStep contains nfeatures point polycount polygons m)
      = if oddCrossing contains polygons point = true
          then intWrap (countOf m + 1) else countOf m := by
  rw [countOf, partStep_count]

/-! ## Reading and writing a feature of the collection -/

theorem featureAt_some_iff (c : FeatureCollection α) (pid : Int) (f : Feature α) :
    featureAt c pid = some f ↔ 0 ≤ pid ∧ c.Features[pid.toNat]? = some (some f) := by
  unfold featureAt
  by_cases h : pid < 0
  · simp [h]
  · have h0 : 0 ≤ pid := by omega
    simp only [h, if_false, h0, true_and]
    cases c.Features[pid.toNat]? with
    | none => simp
    | some o => cases o <;> simp

theorem featureAt_withProps_same (c : FeatureCollection α) (pid : Int) (f f0 : Feature α)
    (m : Props) (h : featureAt c pid = some f0) :
    featureAt (withProps c pid f m) pid = some ⟨f.Geometry, some m⟩ := by
  obtain ⟨h0, h1⟩ := (featureAt_some_iff c pid f0).1 h
  have hlt : pid.toNat < c.Features.length := by
    by_contra hc
    rw [List.getElem?_eq_none (by omega)] at h1
    cases h1
  rw [featureAt_some_iff]
  refine ⟨h0, ?_⟩
  simp [withProps, List.getElem?_set, hlt]

theorem featureAt_withProps_ne (c : FeatureCollection α) (pid j : Int) (f : Feature α)
    (m : Props) (hp : 0 ≤ pid) (hj : j ≠ pid) :
    featureAt (withProps c pid f m) j = featureAt c j := by
  unfold featureAt
  by_cases h : j < 0
  · simp [h]
  · have hne : pid.toNat ≠ j.toNat := by omega
    simp [h, withProps, List.getElem?_set, hne]

theorem withProps_withProps (c : FeatureCollection α) (pid : Int) (f f1 : Feature α)
    (m m1 : Props) :
    withProps (withProps c pid f m) pid f1 m1 = withProps c pid f1 m1 := by
  simp [withProps]

theorem withProps_self (c : FeatureCollection α) (pid : Int) (f : Feature α) (m : Props)
    (hf : featureAt c pid = some f) (hm : f.Properties = some m) :
    withProps c pid f m = c := by
  obtain ⟨_, h1⟩ := (featureAt_some_iff c pid f).1 hf
  have hf2 : (⟨f.Geometry, some m⟩ : Feature α) = f := by
    cases f; simp_all
  cases c with
  | mk fs =>
    simp only [withProps, hf2]
    congr 1
    apply List.ext_getElem?
    intro i
    by_cases hi : pid.toNat = i
    · subst hi
      simp only [] at h1
      rw [List.getElem?_set]
      simp only [if_true]
      split
      · exact h1.symm
      · rename_i hlt
        rw [List.getElem?_eq_none (by omega)] at h1
        cases h1
    · rw [List.getElem?_set]
      simp [hi]

theorem withProps_length (c : FeatureCollection α) (pid : Int) (f : Feature α) (m : Props) :
    (withProps c pid f m).Features.length = c.Features.length := by
  simp [withProps]

theorem withProps_comm (c : FeatureCollection α) (p q : Int) (f g : Feature α)
    (m n : Props) (hp : 0 ≤ p) (hq : 0 ≤ q) (h : p ≠ q) :
    withProps (withProps c p f m) q g n = withProps (withProps c q g n) p f m := by
  have hne : p.toNat ≠ q.toNat := by omega
  simp only [withProps]
  exact congrArg FeatureCollection.mk (List.set_comm _ _ _ hne)

/-! ## One point against one area -/

theorem visitPart_eq (contains : GeoPolygon α → GeoPoint α → Bool) (nfeatures : Int)
    (point : GeoPoint α) (pid : Int) (polycount : Nat) (c : FeatureCollection α)
    (polygons : List (GeoPolygon α)) (f : Feature α) (m : Props)
    (hf : featureAt c pid = some f) (hm : f.Properties = some m) :
    visitPart contains nfeatures point pid polycount c polygons
      = some (withProps c pid f (partStep contains nfeatures point polycount polygons m)) := by
  simp [visitPart, hf, hm]

theorem rangeLoop_visitPart (contains : GeoPolygon α → GeoPoint α → Bool) (nfeatures : Int)
    (point : GeoPoint α) (pid : Int) (polycount : Nat) (ps : List (List (GeoPolygon α)))
    (c : FeatureCollection α) (f : Feature α) (m : Props)
    (hf : featureAt c pid = some f) (hm : f.Properties = some m) :
    rangeLoop (visitPart contains nfeatures point pid polycount) c ps
      = some (withProps c pid f
          (ps.foldl (fun m1 polygons =>
            partStep contains nfeatures point polycount polygons m1) m)) := by
  induction ps generalizing c f m with
  | nil => simp [rangeLoop_nil, withProps_self c pid f m hf hm]
  | cons p ps ih =>
    rw [rangeLoop_cons, visitPart_eq contains nfeatures point pid polycount c p f m hf hm]
    simp only [Option.some_bind, List.foldl_cons]
    rw [ih _ ⟨f.Geometry, some _⟩ _ (featureAt_withProps_same c pid f f _ hf) rfl,
      withProps_withProps]
    rfl

theorem visitArea_eq (contains : GeoPolygon α → GeoPoint α → Bool) (nfeatures : Int)
    (point : GeoPoint α) (c : FeatureCollection α) (entry : Entry α) :
    visitArea contains nfeatures point c entry
      = if entry.2.isEmpty = true then some c
        else match featureAt c entry.1 with
          | none => none
          | some f =>
            match f.Properties with
            | none => none
            | some m => some (withProps c entry.1 f
                (areaProps contains nfeatures point entry.2 m)) := by
  unfold visitArea
  by_cases hnil : entry.2 = []
  · simp [hnil, rangeLoop_nil]
  · have hemp : ¬ entry.2.isEmpty = true := by simpa using hnil
    simp only [hemp, if_false]
    cases hf : featureAt c entry.1 with
    | none =>
      obtain ⟨p, ps, hps⟩ := List.exists_cons_of_ne_nil hnil
      rw [hps, rangeLoop_cons]
      simp [visitPart, hf]
    | some f =>
      cases hm : f.Properties with
      | none =>
        obtain ⟨p, ps, hps⟩ := List.exists_cons_of_ne_nil hnil
        rw [hps, rangeLoop_cons]
        simp [visitPart, hf, hm]
      | some m =>
        simp only []
        rw [rangeLoop_visitPart contains nfeatures point entry.1 entry.2.length entry.2
          c f m hf hm]
        simp [hm, areaProps]

theorem areaProps_eq_stepsProps (contains : GeoPolygon α → GeoPoint α → Bool)
    (nfeatures : Int) (point : GeoPoint α) (polygroup : List (List (GeoPolygon α)))
    (m : Props) :
    areaProps contains nfeatures point polygroup m
      = stepsProps contains nfeatures polygroup.length
          (polygroup.map (fun polygons => (point, polygons))) m := by
  simp [areaProps, stepsProps, List.foldl_map]

theorem stepsProps_append (contains : GeoPolygon α → GeoPoint α → Bool) (nfeatures : Int)
    (polycount : Nat) (s1 s2 : List (GeoPoint α × List (GeoPolygon α))) (m : Props) :
    stepsProps contains nfeatures polycount (s1 ++ s2) m
      = stepsProps contains nfeatures polycount s2
          (stepsProps contains nfeatures polycount s1 m) := by
  simp [stepsProps, List.foldl_append]

theorem runProps_eq_stepsProps (contains : GeoPolygon α → GeoPoint α → Bool)
    (nfeatures : Int) (points : List (GeoPoint α)) (polygroup : List (List (GeoPolygon α)))
    (m : Props) :
    runProps contains nfeatures points polygroup m
      = stepsProps contains nfeatures polygroup.length (evaluations points polygroup) m := by
  induction points generalizing m with
  | nil => rfl
  | cons p ps ih =>
    have h1 : runProps contains nfeatures (p :: ps) polygroup m
        = runProps contains nfeatures ps polygroup
            (areaProps contains nfeatures p polygroup m) := rfl
    rw [h1, ih, areaProps_eq_stepsProps]
    simp only [evaluations, List.flatMap_cons]
    rw [stepsProps_append]

/-- The key `count` after a sequence of evaluations, when no increment overflows. -/
theorem countOf_stepsProps (contains : GeoPolygon α → GeoPoint α → Bool) (nfeatures : Int)
    (polycount : Nat) (steps : List (GeoPoint α × List (GeoPolygon α))) (m : Props)
    (hlo : -(2 ^ 63) ≤ countOf m) (hhi : countOf m + steps.length < 2 ^ 63) :
    countOf (stepsProps contains nfeatures polycount steps m)
      = countOf m + steps.countP (isMatch contains) := by
  induction steps generalizing m with
  | nil => simp [stepsProps]
  | cons e es ih =>
    have h1 : stepsProps contains nfeatures polycount (e :: es) m
        = stepsProps contains nfeatures polycount es
            (partStep contains nfeatures e.1 polycount e.2 m) := rfl
    have hc := countOf_partStep contains nfeatures e.1 polycount e.2 m
    simp only [List.length_cons, Nat.cast_add, Nat.cast_one] at hhi
    by_cases ho : oddCrossing contains e.2 e.1 = true
    · rw [if_pos ho, intWrap_eq _ (by omega) (by omega)] at hc
      rw [h1, ih _ (by omega) (by omega), hc, List.countP_cons_of_pos _ _ (by simpa [isMatch] using ho)]
      push_cast
      omega
    · rw [if_neg ho] at hc
      rw [h1, ih _ (by omega) (by omega), hc, List.countP_cons_of_neg _ _ (by simpa [isMatch] using ho)]

/-- The key `total`, once present, keeps its value through any evaluations. -/
theorem total_stepsProps_some (contains : GeoPolygon α → GeoPoint α → Bool) (nfeatures : Int)
    (polycount : Nat) (steps : List (GeoPoint α × List (GeoPolygon α))) (m : Props)
    (v : Value) (h : getProp m "total" = some v) :
    getProp (stepsProps contains nfeatures polycount steps m) "total" = some v := by
  induction steps generalizing m with
  | nil => simpa [stepsProps] using h
  | cons e es ih =>
    have h1 : stepsProps contains nfeatures polycount (e :: es) m
        = stepsProps contains nfeatures polycount es
            (partStep contains nfeatures e.1 polycount e.2 m) := rfl
    rw [h1]
    apply ih
    rw [partStep_total, h]
    by_cases ho : oddCrossing contains e.2 e.1 = true <;> simp [ho]

/-- The key `total`, when absent at the start, is written by the first evaluation that
does not match. -/
theorem total_stepsProps_none (contains : GeoPolygon α → GeoPoint α → Bool) (nfeatures : Int)
    (polycount : Nat) (steps : List (GeoPoint α × List (GeoPolygon α))) (m : Props)
    (h : getProp m "total" = none) :
    getProp (stepsProps contains nfeatures polycount steps m) "total"
      = if steps.all (isMatch contains) = true then none
        else some (Value.int nfeatures) := by
  induction steps generalizing m with
  | nil => simpa [stepsProps] using h
  | cons e es ih =>
    have h1 : stepsProps contains nfeatures polycount (e :: es) m
        = stepsProps contains nfeatures polycount es
            (partStep contains nfeatures e.1 polycount e.2 m) := rfl
    have ht := partStep_total contains nfeatures e.1 polycount e.2 m
    rw [h1]
    by_cases ho : oddCrossing contains e.2 e.1 = true
    · rw [if_pos ho, h] at ht
      rw [ih _ ht]
      simp only [List.all_cons, isMatch, ho, Bool.true_and]
    · rw [if_neg ho, h] at ht
      rw [total_stepsProps_some _ _ _ _ _ _ ht]
      simp [isMatch, ho]

/-- Keys other than `count` and `total` keep their value through any evaluations. -/
theorem other_stepsProps (contains : GeoPolygon α → GeoPoint α → Bool) (nfeatures : Int)
    (polycount : Nat) (steps : List (GeoPoint α × List (GeoPolygon α))) (m : Props)
    (k : String) (h1 : k ≠ "count") (h2 : k ≠ "total") :
    getProp (stepsProps contains nfeatures polycount steps m) k = getProp m k := by
  induction steps generalizing m with
  | nil => rfl
  | cons e es ih =>
    have h3 : stepsProps contains nfeatures polycount (e :: es) m
        = stepsProps contains nfeatures polycount es
            (partStep contains nfeatures e.1 polycount e.2 m) := rfl
    rw [h3, ih, partStep_other _ _ _ _ _ _ _ h1 h2]

theorem propsAt_withProps_same (c : FeatureCollection α) (pid : Int) (f : Feature α)
    (m : Props) (h : featureAt c pid = some f) :
    propsAt (withProps c pid f m) pid = some m := by
  simp [propsAt, featureAt_withProps_same c pid f f m h]

/-! ## One point against every area -/

theorem groupOf_of_not_mem (d : List (Entry α)) (pid : Int)
    (h : pid ∉ d.map Prod.fst) : groupOf d pid = [] := by
  induction d with
  | nil => rfl
  | cons e rest ih =>
    simp only [List.map_cons, List.mem_cons, not_or] at h
    have h1 : ¬ e.1 = pid := fun h2 => h.1 h2.symm
    simp only [groupOf, h1, if_false]
    exact ih h.2

theorem groupOf_of_mem (d : List (Entry α)) (e : Entry α) (hd : DistinctKeys d)
    (h : e ∈ d) : groupOf d e.1 = e.2 := by
  induction d with
  | nil => cases h
  | cons x rest ih =>
    unfold DistinctKeys at hd
    simp only [List.map_cons, List.nodup_cons] at hd
    rcases List.mem_cons.1 h with h1 | h1
    · subst h1
      simp [groupOf]
    · have hne : ¬ x.1 = e.1 := by
        intro h2
        apply hd.1
        rw [h2]
        exact List.mem_map_of_mem Prod.fst h1
      simp only [groupOf, hne, if_false]
      exact ih hd.2 h1

theorem groupOf_perm (d o : List (Entry α)) (hd : DistinctKeys d) (hp : List.Perm o d)
    (pid : Int) : groupOf o pid = groupOf d pid := by
  have ho : DistinctKeys o := by
    unfold DistinctKeys at *
    exact ((hp.map Prod.fst).nodup_iff).2 hd
  by_cases h : pid ∈ d.map Prod.fst
  · obtain ⟨e, he, hk⟩ := List.mem_map.1 h
    rw [← hk, groupOf_of_mem d e hd he, groupOf_of_mem o e ho (hp.mem_iff.2 he)]
  · have h2 : pid ∉ o.map Prod.fst := fun h3 => h ((hp.map Prod.fst).mem_iff.1 h3)
    rw [groupOf_of_not_mem d pid h, groupOf_of_not_mem o pid h2]

theorem mapProps_areaProps_nil (contains : GeoPolygon α → GeoPoint α → Bool)
    (nfeatures : Int) (point : GeoPoint α) (f : Feature α) :
    mapProps (areaProps contains nfeatures point []) f = f := by
  cases f with
  | mk g p => cases p <;> rfl

theorem propsAt_isSome_iff (c : FeatureCollection α) (pid : Int) :
    (propsAt c pid).isSome = true ↔ ∃ f m, featureAt c pid = some f ∧ f.Properties = some m := by
  unfold propsAt
  cases h : featureAt c pid with
  | none => simp
  | some f =>
    cases hm : f.Properties with
    | none => simp [hm]
    | some m => simp [hm]

/-- One point against the entries `o`: every feature named by an entry has its property
map advanced by the evaluations of its parts, and nothing else changes. -/
theorem rangeLoop_visitArea (contains : GeoPolygon α → GeoPoint α → Bool) (nfeatures : Int)
    (point : GeoPoint α) (o : List (Entry α)) (c : FeatureCollection α)
    (ho : DistinctKeys o) (hc : AreasPresent c o) :
    ∃ c1, rangeLoop (visitArea contains nfeatures point) c o = some c1
      ∧ c1.Features.length = c.Features.length
      ∧ ∀ j, featureAt c1 j
          = (featureAt c j).map
              (mapProps (areaProps contains nfeatures point (groupOf o j))) := by
  induction o generalizing c with
  | nil =>
    refine ⟨c, rfl, rfl, fun j => ?_⟩
    cases h : featureAt c j with
    | none => rfl
    | some f => simp [groupOf, mapProps_areaProps_nil]
  | cons e rest ih =>
    have hd := ho
    unfold DistinctKeys at hd
    simp only [List.map_cons, List.nodup_cons] at hd
    have hrest : DistinctKeys rest := hd.2
    have hg : groupOf rest e.1 = [] := groupOf_of_not_mem rest e.1 hd.1
    rw [rangeLoop_cons, visitArea_eq]
    by_cases hemp : e.2.isEmpty = true
    · have he2 : e.2 = [] := by simpa using hemp
      simp only [hemp, if_true, Option.some_bind]
      obtain ⟨c1, h1, h2, h3⟩ := ih c hrest
        (fun x hx hxe => hc x (List.mem_cons_of_mem _ hx) hxe)
      refine ⟨c1, h1, h2, fun j => ?_⟩
      rw [h3 j]
      by_cases hj : e.1 = j
      · subst hj
        simp [groupOf, hg, he2]
      · simp [groupOf, hj]
    · have hemp2 : e.2.isEmpty = false := by simpa using hemp
      obtain ⟨f, m, hf, hm⟩ := (propsAt_isSome_iff c e.1).1
        (hc e (List.mem_cons_self _ _) hemp2)
      have h0 : 0 ≤ e.1 := ((featureAt_some_iff c e.1 f).1 hf).1
      simp only [hemp, if_false, hf, hm, Option.some_bind]
      have hc1 : AreasPresent
          (withProps c e.1 f (areaProps contains nfeatures point e.2 m)) rest := by
        intro x hx hxe
        have hne : x.1 ≠ e.1 := by
          intro h2
          apply hd.1
          rw [← h2]
          exact List.mem_map_of_mem Prod.fst hx
        have := hc x (List.mem_cons_of_mem _ hx) hxe
        simpa [propsAt, featureAt_withProps_ne c e.1 x.1 f _ h0 hne] using this
      obtain ⟨c1, h1, h2, h3⟩ := ih _ hrest hc1
      refine ⟨c1, h1, by rw [h2, withProps_length], fun j => ?_⟩
      rw [h3 j]
      by_cases hj : e.1 = j
      · subst hj
        rw [featureAt_withProps_same c e.1 f f _ hf, hg, hf]
        simp [groupOf, mapProps, hm, areaProps]
      · have hj2 : j ≠ e.1 := fun h => hj h.symm
        rw [featureAt_withProps_ne c e.1 j f _ h0 hj2]
        simp [groupOf, hj]

/-! ## The whole run -/

theorem mapProps_mapProps (F G : Props → Props) (f : Feature α) :
    mapProps G (mapProps F f) = mapProps (fun m => G (F m)) f := by
  cases f with
  | mk g p => cases p <;> rfl

theorem areasPresent_of_map (c c1 : FeatureCollection α) (d : List (Entry α))
    (F : Int → Props → Props)
    (h : ∀ j, featureAt c1 j = (featureAt c j).map (mapProps (F j)))
    (hc : AreasPresent c d) : AreasPresent c1 d := by
  intro e he hemp
  obtain ⟨f, m, hf, hm⟩ := (propsAt_isSome_iff c e.1).1 (hc e he hemp)
  rw [propsAt_isSome_iff]
  exact ⟨_, F e.1 m, by rw [h e.1, hf]; rfl, by simp [mapProps, hm]⟩

theorem areasPresent_perm (c : FeatureCollection α) (d o : List (Entry α))
    (hp : List.Perm o d) (hc : AreasPresent c d) : AreasPresent c o :=
  fun e he hemp => hc e (hp.mem_iff.1 he) hemp

/-- The loop over the points, for any numbering of the points. -/
theorem rangeLoop_visitPoint (contains : GeoPolygon α → GeoPoint α → Bool) (nfeatures : Int)
    (sched : Nat → List (Entry α) → List (Entry α)) (d : List (Entry α))
    (pts : List (Nat × Option (Feature α))) (c : FeatureCollection α)
    (hs : MapRange sched) (hd : DistinctKeys d) (hc : AreasPresent c d)
    (hp : ∀ e ∈ pts, (pointOf e.2).isSome = true) :
    ∃ c1, rangeLoop (fun c0 (e : Nat × Option (Feature α)) =>
          visitPoint contains nfeatures (sched e.1 d) c0 e.2) c pts = some c1
      ∧ c1.Features.length = c.Features.length
      ∧ ∀ j, featureAt c1 j
          = (featureAt c j).map
              (mapProps (runProps contains nfeatures
                (pts.filterMap (fun e => pointOf e.2)) (groupOf d j))) := by
  induction pts generalizing c with
  | nil =>
    refine ⟨c, rfl, rfl, fun j => ?_⟩
    cases h : featureAt c j with
    | none => rfl
    | some f =>
      cases f with
      | mk g p => cases p <;> rfl
  | cons e rest ih =>
    obtain ⟨point, hpt⟩ := Option.isSome_iff_exists.1 (hp e (List.mem_cons_self _ _))
    have hperm := hs e.1 d
    have ho : DistinctKeys (sched e.1 d) := by
      unfold DistinctKeys at *
      exact ((hperm.map Prod.fst).nodup_iff).2 hd
    obtain ⟨c1, h1, h2, h3⟩ := rangeLoop_visitArea contains nfeatures point (sched e.1 d) c ho
      (areasPresent_perm c d _ hperm hc)
    have h3b : ∀ j, featureAt c1 j
        = (featureAt c j).map
            (mapProps (areaProps contains nfeatures point (groupOf d j))) := by
      intro j
      rw [h3 j, groupOf_perm d _ hd hperm j]
    have hc1 : AreasPresent c1 d :=
      areasPresent_of_map c c1 d
        (fun j => areaProps contains nfeatures point (groupOf d j)) h3b hc
    obtain ⟨c2, k1, k2, k3⟩ := ih c1 hc1 (fun x hx => hp x (List.mem_cons_of_mem _ hx))
    refine ⟨c2, ?_, by rw [k2, h2], fun j => ?_⟩
    · rw [rangeLoop_cons]
      simp only [visitPoint, hpt, h1, Option.some_bind]
      exact k1
    · rw [k3 j, h3b j]
      simp only [List.filterMap_cons, hpt]
      cases featureAt c j with
      | none => rfl
      | some f =>
        simp only [Option.map_some', mapProps_mapProps]
        rfl

theorem filterMap_enum_snd {β γ : Type} (g : β → Option γ) (xs : List β) :
    xs.enum.filterMap (fun e => g e.2) = xs.filterMap g := by
  have h : xs.enum.map Prod.snd = xs := List.enum_map_snd xs
  conv_rhs => rw [← h]
  rw [List.filterMap_map]
  rfl

/-- The result of `aggregate` when nothing panics: every feature keeps its place and its
geometry, and its property map is advanced by the evaluations of the parts stored under
its index, point after point. -/
theorem aggregate_spec (contains : GeoPolygon α → GeoPoint α → Bool)
    (sched : Nat → List (Entry α) → List (Entry α)) (c : FeatureCollection α)
    (features : List (Option (Feature α))) (d : List (Entry α))
    (hs : MapRange sched) (hd : DistinctKeys d) (hc : AreasPresent c d)
    (hp : PointsPresent features) :
    ∃ c1, aggregate contains sched c features d = some c1
      ∧ c1.Features.length = c.Features.length
      ∧ ∀ j, featureAt c1 j
          = (featureAt c j).map
              (mapProps (runProps contains features.length
                (features.filterMap pointOf) (groupOf d j))) := by
  have hp2 : ∀ e ∈ features.enum, (pointOf e.2).isSome = true := by
    intro e he
    apply hp
    have : e.2 ∈ features.enum.map Prod.snd := List.mem_map_of_mem Prod.snd he
    rwa [List.enum_map_snd] at this
  obtain ⟨c1, h1, h2, h3⟩ := rangeLoop_visitPoint contains features.length sched d
    features.enum c hs hd hc hp2
  rw [filterMap_enum_snd] at h3
  exact ⟨c1, h1, h2, h3⟩

/-- The property map of an area after the run. -/
theorem aggregate_propsAt (contains : GeoPolygon α → GeoPoint α → Bool)
    (sched : Nat → List (Entry α) → List (Entry α)) (c : FeatureCollection α)
    (features : List (Option (Feature α))) (d : List (Entry α))
    (hs : MapRange sched) (hd : DistinctKeys d) (hc : AreasPresent c d)
    (hp : PointsPresent features) (pid : Int) (m : Props) (hm : propsAt c pid = some m) :
    ∃ c1, aggregate contains sched c features d = some c1
      ∧ propsAt c1 pid
          = some (stepsProps contains features.length (groupOf d pid).length
              (evaluations (features.filterMap pointOf) (groupOf d pid)) m) := by
  obtain ⟨c1, h1, _, h3⟩ := aggregate_spec contains sched c features d hs hd hc hp
  refine ⟨c1, h1, ?_⟩
  unfold propsAt at hm ⊢
  rw [h3 pid]
  cases hf : featureAt c pid with
  | none => rw [hf] at hm; cases hm
  | some f =>
    rw [hf] at hm
    simp only [Option.some_bind] at hm
    simp [mapProps, hm, runProps_eq_stepsProps]

/-! ## Evaluations that miss, and writes of `total` -/

theorem mem_evaluations (points : List (GeoPoint α)) (polygroup : List (List (GeoPolygon α)))
    (e : GeoPoint α × List (GeoPolygon α)) :
    e ∈ evaluations points polygroup ↔ e.1 ∈ points ∧ e.2 ∈ polygroup := by
  unfold evaluations
  simp only [List.mem_flatMap, List.mem_map]
  constructor
  · rintro ⟨p, hp, g, hg, rfl⟩
    exact ⟨hp, hg⟩
  · rintro ⟨h1, h2⟩
    exact ⟨e.1, h1, e.2, h2, rfl⟩

theorem exists_miss_iff (contains : GeoPolygon α → GeoPoint α → Bool)
    (points : List (GeoPoint α)) (polygroup : List (List (GeoPolygon α))) :
    ¬ (evaluations points polygroup).all (isMatch contains) = true
      ↔ ∃ point ∈ points, ∃ polygons ∈ polygroup,
          oddCrossing contains polygons point = false := by
  rw [List.all_eq_true]
  constructor
  · intro h
    by_contra hne
    apply h
    intro e he
    obtain ⟨h1, h2⟩ := (mem_evaluations points polygroup e).1 he
    by_contra hm
    exact hne ⟨e.1, h1, e.2, h2, by simpa [isMatch] using hm⟩
  · rintro ⟨p, hp, g, hg, ho⟩ h
    have := h (p, g) ((mem_evaluations points polygroup (p, g)).2 ⟨hp, hg⟩)
    simp [isMatch, ho] at this

theorem mapRange_storedOrder : MapRange storedOrder :=
  fun _ d => List.Perm.refl d

theorem oddCrossing_singleton (contains : GeoPolygon α → GeoPoint α → Bool)
    (ring : GeoPolygon α) (point : GeoPoint α) :
    oddCrossing contains [ring] point = contains ring point := by
  cases h : contains ring point <;> simp [oddCrossing, containCount, h]

theorem writesTotal_iff (contains : GeoPolygon α → GeoPoint α → Bool)
    (point : GeoPoint α) (polycount : Nat) (polygons : List (GeoPolygon α)) (m : Props) :
    writesTotal contains point polycount polygons m = true
      ↔ oddCrossing contains polygons point = false ∧ getProp m "total" = none := by
  have hk : getProp (initCount m) "total" = getProp m "total" :=
    getProp_initCount_ne m "total" (by decide)
  by_cases h1 : containCount contains polygons point % 2 = 1
  · have ho : oddCrossing contains polygons point = true := by simpa [oddCrossing] using h1
    have hs : totalSum ([1] : List Int) = 1 := by decide
    simp [writesTotal, h1, hs, ho]
  · have ho : oddCrossing contains polygons point = false := by simpa [oddCrossing] using h1
    simp [writesTotal, h1, totalSum_empty, ho, hk]

theorem totalWrites_of_present (contains : GeoPolygon α → GeoPoint α → Bool)
    (nfeatures : Int) (polycount : Nat) (steps : List (GeoPoint α × List (GeoPolygon α)))
    (m : Props) (v : Value) (h : getProp m "total" = some v) :
    totalWrites contains nfeatures polycount steps m = 0 := by
  induction steps generalizing m with
  | nil => rfl
  | cons e rest ih =>
    have hw : ¬ writesTotal contains e.1 polycount e.2 m = true := by
      rw [writesTotal_iff, h]
      simp
    have hn : getProp (partStep contains nfeatures e.1 polycount e.2 m) "total" = some v := by
      rw [partStep_total, h]
      by_cases ho : oddCrossing contains e.2 e.1 = true <;> simp [ho]
    simp [totalWrites, hw, ih _ hn]

theorem totalWrites_le_one (contains : GeoPolygon α → GeoPoint α → Bool)
    (nfeatures : Int) (polycount : Nat) (steps : List (GeoPoint α × List (GeoPolygon α)))
    (m : Props) : totalWrites contains nfeatures polycount steps m ≤ 1 := by
  induction steps generalizing m with
  | nil => simp [totalWrites]
  | cons e rest ih =>
    by_cases hw : writesTotal contains e.1 polycount e.2 m = true
    · obtain ⟨ho, hn⟩ := (writesTotal_iff contains e.1 polycount e.2 m).1 hw
      have hn2 : getProp (partStep contains nfeatures e.1 polycount e.2 m) "total"
          = some (Value.int nfeatures) := by
        rw [partStep_total, hn, ho]
        simp
      simp only [totalWrites, hw, if_true,
        totalWrites_of_present contains nfeatures polycount rest _ _ hn2]
      omega
    · have := ih (partStep contains nfeatures e.1 polycount e.2 m)
      simp only [totalWrites, hw]
      simpa using this

/-! ## `buildDefinition` -/

theorem rangeLoop_append_iff {β γ : Type} (f : β → Option γ) (xs : List β)
    (acc zs : List γ) :
    rangeLoop (fun a x => (f x).map (fun y => a ++ [y])) acc xs = some zs
      ↔ ∃ ys, zs = acc ++ ys ∧ List.Forall₂ (fun x y => f x = some y) xs ys := by
  induction xs generalizing acc with
  | nil =>
    rw [rangeLoop_nil]
    constructor
    · intro h
      exact ⟨[], by simpa using (Option.some.inj h).symm, List.Forall₂.nil⟩
    · rintro ⟨ys, h1, h2⟩
      cases h2
      simp [h1]
  | cons x xs ih =>
    rw [rangeLoop_cons]
    cases hx : f x with
    | none =>
      constructor
      · intro h
        cases h
      · rintro ⟨ys, _, h2⟩
        cases h2 with
        | cons h3 _ => rw [hx] at h3; cases h3
    | some y =>
      show rangeLoop (fun a x => (f x).map (fun y => a ++ [y])) (acc ++ [y]) xs = some zs ↔ _
      rw [ih]
      constructor
      · rintro ⟨ys, h1, h2⟩
        exact ⟨y :: ys, by simpa using h1, List.Forall₂.cons hx h2⟩
      · rintro ⟨ys, h1, h2⟩
        cases h2 with
        | cons h3 h4 =>
          rw [hx] at h3
          cases h3
          exact ⟨_, by simpa using h1, h4⟩

theorem appendLoop_eq_some_iff {β γ : Type} (f : β → Option γ) (xs : List β) (ys : List γ) :
    appendLoop f xs = some ys ↔ List.Forall₂ (fun x y => f x = some y) xs ys := by
  unfold appendLoop
  rw [rangeLoop_append_iff]
  simp

theorem appendLoop_isSome {β γ : Type} (f : β → Option γ) (xs : List β)
    (h : ∀ x ∈ xs, (f x).isSome = true) : ∃ ys, appendLoop f xs = some ys := by
  have key : ∃ ys, List.Forall₂ (fun x y => f x = some y) xs ys := by
    induction xs with
    | nil => exact ⟨[], List.Forall₂.nil⟩
    | cons x xs ih =>
      obtain ⟨y, hy⟩ := Option.isSome_iff_exists.1 (h x (List.mem_cons_self _ _))
      obtain ⟨ys, hys⟩ := ih (fun z hz => h z (List.mem_cons_of_mem _ hz))
      exact ⟨y :: ys, List.Forall₂.cons hy hys⟩
  obtain ⟨ys, hys⟩ := key
  exact ⟨ys, (appendLoop_eq_some_iff f xs ys).2 hys⟩

theorem forall₂_getElem? {β γ : Type} (R : β → γ → Prop) (xs : List β) (ys : List γ)
    (h : List.Forall₂ R xs ys) (i : Nat) (x : β) (hx : xs[i]? = some x) :
    ∃ y, ys[i]? = some y ∧ R x y := by
  induction h generalizing i with
  | nil => simp at hx
  | cons hr _ ih =>
    cases i with
    | zero =>
      simp only [List.getElem?_cons_zero, Option.some.injEq] at hx
      subst hx
      exact ⟨_, by simp, hr⟩
    | succ k =>
      simp only [List.getElem?_cons_succ] at hx ⊢
      exact ih k hx

theorem forall₂_map_eq {β γ δ : Type} (g : γ → δ) (k : β → δ) (xs : List β) (ys : List γ)
    (h : List.Forall₂ (fun x y => g y = k x) xs ys) : ys.map g = xs.map k := by
  induction h with
  | nil => rfl
  | cons hr _ ih => simp [hr, ih]

theorem buildPoint_eq_some_iff (pt : List α) (p : GeoPoint α) :
    buildPoint pt = some p ↔ IsPointOf pt p := by
  unfold buildPoint IsPointOf
  cases p with
  | mk lat lng =>
    cases h1 : pt[1]? with
    | none => simp
    | some a =>
      cases h0 : pt[0]? with
      | none => simp
      | some b =>
        simp only [Option.some.injEq, GeoPoint.mk.injEq]
        constructor
        · rintro ⟨rfl, rfl⟩
          exact ⟨rfl, rfl⟩
        · rintro ⟨rfl, rfl⟩
          exact ⟨rfl, rfl⟩

theorem buildPoint_isSome (pt : List α) (h : 2 ≤ pt.length) :
    (buildPoint pt).isSome = true := by
  unfold buildPoint
  match pt, h with
  | a :: b :: rest, _ => simp

theorem buildPolygon_eq_some_iff (pg : List (List α)) (polygon : GeoPolygon α) :
    buildPolygon pg = some polygon ↔ IsRingOf pg polygon := by
  unfold buildPolygon IsRingOf
  cases polygon with
  | mk points =>
    simp only [Option.map_eq_some', GeoPolygon.mk.injEq, exists_eq_right]
    rw [appendLoop_eq_some_iff]
    constructor
    · exact List.Forall₂.imp (fun a b hab => (buildPoint_eq_some_iff a b).1 hab)
    · exact List.Forall₂.imp (fun a b hab => (buildPoint_eq_some_iff a b).2 hab)

theorem buildPolygon_isSome (pg : List (List α))
    (h : pg.all (fun pt => decide (2 ≤ pt.length)) = true) :
    (buildPolygon pg).isSome = true := by
  rw [List.all_eq_true] at h
  obtain ⟨ys, hys⟩ := appendLoop_isSome buildPoint pg
    (fun pt hpt => buildPoint_isSome pt (by simpa using h pt hpt))
  simp [buildPolygon, hys]

theorem buildGroup_eq_some_iff (mp : List (List (List (List α))))
    (group : List (List (GeoPolygon α))) :
    buildGroup mp = some group ↔ IsGroupOf mp group := by
  unfold buildGroup IsGroupOf IsPartOf
  rw [appendLoop_eq_some_iff]
  constructor
  · refine List.Forall₂.imp (fun a b hab => ?_)
    exact ((appendLoop_eq_some_iff buildPolygon a b).1 hab).imp
      (fun x y hxy => (buildPolygon_eq_some_iff x y).1 hxy)
  · refine List.Forall₂.imp (fun a b hab => ?_)
    exact (appendLoop_eq_some_iff buildPolygon a b).2
      (hab.imp (fun x y hxy => (buildPolygon_eq_some_iff x y).2 hxy))

theorem buildGroup_isSome (mp : List (List (List (List α))))
    (h : mp.all (fun mpg => mpg.all (fun pg => pg.all (fun pt =>
      decide (2 ≤ pt.length)))) = true) :
    (buildGroup mp).isSome = true := by
  rw [List.all_eq_true] at h
  obtain ⟨ys, hys⟩ := appendLoop_isSome (fun mpg => appendLoop buildPolygon mpg) mp
    (fun mpg hmpg => by
      have h1 := h mpg hmpg
      rw [List.all_eq_true] at h1
      obtain ⟨zs, hzs⟩ := appendLoop_isSome buildPolygon mpg
        (fun pg hpg => buildPolygon_isSome pg (h1 pg hpg))
      simp [hzs])
  simp [buildGroup, hys]

/-- The entry that `buildDefinition` writes for the feature at index `i`. -/
theorem buildDefinition_eq_some_iff (features : List (Option (Feature α)))
    (d : List (Entry α)) :
    buildDefinition features = some d
      ↔ List.Forall₂
          (fun (e : Nat × Option (Feature α)) (entry : Entry α) =>
            ∃ f g, e.2 = some f ∧ f.Geometry = some g
              ∧ buildGroup g.MultiPolygon = some entry.2 ∧ entry.1 = (e.1 : Int))
          features.enum d := by
  unfold buildDefinition
  rw [appendLoop_eq_some_iff]
  have hiff : ∀ (e : Nat × Option (Feature α)) (entry : Entry α),
      (match e.2 with
        | none => none
        | some feature =>
          match feature.Geometry with
          | none => none
          | some g => (buildGroup g.MultiPolygon).map (fun group => ((e.1 : Int), group)))
        = some entry
      ↔ ∃ f g, e.2 = some f ∧ f.Geometry = some g
          ∧ buildGroup g.MultiPolygon = some entry.2 ∧ entry.1 = (e.1 : Int) := by
    intro e entry
    constructor
    · intro h
      cases h2 : e.2 with
      | none => rw [h2] at h; cases h
      | some f =>
        rw [h2] at h
        cases hg : f.Geometry with
        | none => simp [hg] at h
        | some g =>
          cases hb : buildGroup g.MultiPolygon with
          | none => simp [hg, hb] at h
          | some group =>
            simp only [hg, hb, Option.map_some', Option.some.injEq] at h
            subst h
            exact ⟨f, g, rfl, hg, hb, rfl⟩
    · rintro ⟨f, g, h2, hg, hb, hk⟩
      rw [h2]
      simp only [hg, hb, Option.map_some', Option.some.injEq]
      cases entry with
      | mk k grp =>
        simp only at hk
        rw [hk]
  constructor
  · exact List.Forall₂.imp (fun e entry h => (hiff e entry).1 h)
  · exact List.Forall₂.imp (fun e entry h => (hiff e entry).2 h)

theorem buildDefinition_isSome (features : List (Option (Feature α)))
    (h : AreasWellFormed features) : ∃ d, buildDefinition features = some d := by
  unfold buildDefinition
  apply appendLoop_isSome
  intro e he
  have hmem : e.2 ∈ features := by
    have : e.2 ∈ features.enum.map Prod.snd := List.mem_map_of_mem Prod.snd he
    rwa [List.enum_map_snd] at this
  have hw := h e.2 hmem
  unfold wellFormedArea at hw
  cases h2 : e.2 with
  | none => rw [h2] at hw; cases hw
  | some f =>
    rw [h2] at hw
    cases hg : f.Geometry with
    | none => simp [hg] at hw
    | some g =>
      simp only [hg] at hw
      obtain ⟨grp, hgrp⟩ := Option.isSome_iff_exists.1 (buildGroup_isSome g.MultiPolygon hw)
      simp [hg, hgrp]

theorem buildDefinition_entry (features : List (Option (Feature α))) (d : List (Entry α))
    (hb : buildDefinition features = some d) (i : Nat) (f : Feature α)
    (hf : features[i]? = some (some f)) :
    ∃ g group, f.Geometry = some g ∧ buildGroup g.MultiPolygon = some group
      ∧ d[i]? = some ((i : Int), group) := by
  have h1 := (buildDefinition_eq_some_iff features d).1 hb
  have h2 : features.enum[i]? = some (i, some f) := by
    rw [List.getElem?_enum, hf]
    rfl
  obtain ⟨entry, h3, f2, g, h4, h5, h6, h7⟩ := forall₂_getElem? _ _ _ h1 i _ h2
  simp only [Option.some.injEq] at h4
  subst h4
  refine ⟨g, entry.2, h5, h6, ?_⟩
  rw [h3]
  cases entry with
  | mk k grp =>
    simp only at h7
    rw [h7]

theorem buildDefinition_keys (features : List (Option (Feature α))) (d : List (Entry α))
    (hb : buildDefinition features = some d) :
    d.map Prod.fst = (List.range features.length).map Int.ofNat := by
  have h1 := (buildDefinition_eq_some_iff features d).1 hb
  have h2 : List.Forall₂
      (fun (e : Nat × Option (Feature α)) (entry : Entry α) => Prod.fst entry = (e.1 : Int))
      features.enum d :=
    h1.imp (fun e entry h => by
      obtain ⟨_, _, _, _, _, h7⟩ := h
      exact h7)
  rw [forall₂_map_eq Prod.fst (fun (e : Nat × Option (Feature α)) => (e.1 : Int)) _ _ h2,
    ← List.enum_map_fst features, List.map_map]
  rfl

theorem buildDefinition_distinctKeys (features : List (Option (Feature α)))
    (d : List (Entry α)) (hb : buildDefinition features = some d) : DistinctKeys d := by
  unfold DistinctKeys
  rw [buildDefinition_keys features d hb]
  exact (List.nodup_range _).map (fun a b h => Int.ofNat.inj h)

theorem buildDefinition_length (features : List (Option (Feature α)))
    (d : List (Entry α)) (hb : buildDefinition features = some d) :
    d.length = features.length := by
  have h1 := ((buildDefinition_eq_some_iff features d).1 hb).length_eq
  rw [← h1, List.enum_length]

theorem wellFormed_getElem? (features : List (Option (Feature α)))
    (h : AreasWellFormed features) (i : Nat) (hi : i < features.length) :
    ∃ f, features[i]? = some (some f) := by
  have hmem : features[i] ∈ features := List.getElem_mem hi
  have hw := h _ hmem
  cases hf : features[i] with
  | none => rw [hf] at hw; simp [wellFormedArea] at hw
  | some f => exact ⟨f, by rw [List.getElem?_eq_getElem hi, hf]⟩

/-! ## Independence of the visiting order -/

theorem visitArea_of_empty (contains : GeoPolygon α → GeoPoint α → Bool) (nfeatures : Int)
    (point : GeoPoint α) (c : FeatureCollection α) (entry : Entry α)
    (h : entry.2.isEmpty = true) : visitArea contains nfeatures point c entry = some c := by
  rw [visitArea_eq, if_pos h]

theorem visitArea_of_nonempty (contains : GeoPolygon α → GeoPoint α → Bool)
    (nfeatures : Int) (point : GeoPoint α) (c : FeatureCollection α) (entry : Entry α)
    (h : ¬ entry.2.isEmpty = true) :
    visitArea contains nfeatures point c entry
      = (featureAt c entry.1).bind (fun f => f.Properties.map (fun m =>
          withProps c entry.1 f (areaProps contains nfeatures point entry.2 m))) := by
  rw [visitArea_eq, if_neg h]
  cases featureAt c entry.1 with
  | none => rfl
  | some f =>
    cases hm : f.Properties with
    | none => simp [hm]
    | some m => simp [hm]

theorem visitArea_comm (contains : GeoPolygon α → GeoPoint α → Bool) (nfeatures : Int)
    (point : GeoPoint α) (e1 e2 : Entry α) (hne : e1.1 ≠ e2.1) (c : FeatureCollection α) :
    (visitArea contains nfeatures point c e1).bind
        (fun c1 => visitArea contains nfeatures point c1 e2)
      = (visitArea contains nfeatures point c e2).bind
          (fun c1 => visitArea contains nfeatures point c1 e1) := by
  by_cases h1 : e1.2.isEmpty = true
  · simp only [visitArea_of_empty contains nfeatures point _ e1 h1, Option.some_bind]
    cases visitArea contains nfeatures point c e2 <;> rfl
  by_cases h2 : e2.2.isEmpty = true
  · simp only [visitArea_of_empty contains nfeatures point _ e2 h2, Option.some_bind]
    cases visitArea contains nfeatures point c e1 <;> rfl
  simp only [visitArea_of_nonempty contains nfeatures point _ e1 h1,
    visitArea_of_nonempty contains nfeatures point _ e2 h2]
  have hne2 : e2.1 ≠ e1.1 := fun h => hne h.symm
  cases hf1 : featureAt c e1.1 with
  | none =>
    cases hf2 : featureAt c e2.1 with
    | none => rfl
    | some f2 =>
      have h0 : 0 ≤ e2.1 := ((featureAt_some_iff c e2.1 f2).1 hf2).1
      cases hm2 : f2.Properties with
      | none => simp [hm2]
      | some m2 =>
        simp [hm2, featureAt_withProps_ne c e2.1 e1.1 f2 _ h0 hne, hf1]
  | some f1 =>
    have h01 : 0 ≤ e1.1 := ((featureAt_some_iff c e1.1 f1).1 hf1).1
    cases hm1 : f1.Properties with
    | none =>
      cases hf2 : featureAt c e2.1 with
      | none => simp [hm1]
      | some f2 =>
        have h0 : 0 ≤ e2.1 := ((featureAt_some_iff c e2.1 f2).1 hf2).1
        cases hm2 : f2.Properties with
        | none => simp [hm1, hm2]
        | some m2 =>
          simp [hm1, hm2, featureAt_withProps_ne c e2.1 e1.1 f2 _ h0 hne, hf1]
    | some m1 =>
      cases hf2 : featureAt c e2.1 with
      | none =>
        simp [hm1, featureAt_withProps_ne c e1.1 e2.1 f1 _ h01 hne2, hf2]
      | some f2 =>
        have h0 : 0 ≤ e2.1 := ((featureAt_some_iff c e2.1 f2).1 hf2).1
        cases hm2 : f2.Properties with
        | none =>
          simp [hm1, hm2, featureAt_withProps_ne c e1.1 e2.1 f1 _ h01 hne2, hf2]
        | some m2 =>
          simp only [Option.map_some', Option.some_bind,
            featureAt_withProps_ne c e1.1 e2.1 f1 _ h01 hne2,
            featureAt_withProps_ne c e2.1 e1.1 f2 _ h0 hne, hf1, hf2, hm1, hm2]
          rw [withProps_comm c e1.1 e2.1 f1 f2 _ _ h01 h0 hne]

theorem entry_eq_of_key_eq (d : List (Entry α)) (hd : DistinctKeys d) (x y : Entry α)
    (hx : x ∈ d) (hy : y ∈ d) (h : x.1 = y.1) : x = y := by
  have h1 := groupOf_of_mem d x hd hx
  have h2 := groupOf_of_mem d y hd hy
  rw [h] at h1
  exact Prod.ext h (h1.symm.trans h2)

/-- Visiting the entries of a map in another order gives the same result, panics
included. -/
theorem rangeLoop_visitArea_perm (contains : GeoPolygon α → GeoPoint α → Bool)
    (nfeatures : Int) (point : GeoPoint α) (o1 o2 : List (Entry α))
    (hd : DistinctKeys o1) (hp : List.Perm o1 o2) (c : FeatureCollection α) :
    rangeLoop (visitArea contains nfeatures point) c o1
      = rangeLoop (visitArea contains nfeatures point) c o2 := by
  unfold rangeLoop
  apply List.Perm.foldl_eq' hp
  intro x hx y hy z
  cases z with
  | none => rfl
  | some c0 =>
    by_cases hxy : x.1 = y.1
    · rw [entry_eq_of_key_eq o1 hd x y hx hy hxy]
    · exact visitArea_comm contains nfeatures point x y hxy c0

theorem aggregate_sched (contains : GeoPolygon α → GeoPoint α → Bool)
    (sched1 sched2 : Nat → List (Entry α) → List (Entry α))
    (hs1 : MapRange sched1) (hs2 : MapRange sched2)
    (c : FeatureCollection α) (features : List (Option (Feature α))) (d : List (Entry α))
    (hd : DistinctKeys d) :
    aggregate contains sched1 c features d = aggregate contains sched2 c features d := by
  unfold aggregate
  have hbody : (fun c0 (e : Nat × Option (Feature α)) =>
        visitPoint contains (features.length : Int) (sched1 e.1 d) c0 e.2)
      = (fun c0 (e : Nat × Option (Feature α)) =>
        visitPoint contains (features.length : Int) (sched2 e.1 d) c0 e.2) := by
    funext c0 e
    unfold visitPoint
    cases pointOf e.2 with
    | none => rfl
    | some point =>
      have hp : List.Perm (sched1 e.1 d) (sched2 e.1 d) :=
        (hs1 e.1 d).trans (hs2 e.1 d).symm
      have hd1 : DistinctKeys (sched1 e.1 d) := by
        unfold DistinctKeys at *
        exact (((hs1 e.1 d).map Prod.fst).nodup_iff).2 hd
      exact rangeLoop_visitArea_perm contains _ point _ _ hd1 hp c0
  rw [hbody]

/-! ## Building the definition, then aggregating -/

theorem areasPresent_buildDefinition (c : FeatureCollection α) (d : List (Entry α))
    (hb : buildDefinition c.Features = some d) (hwf : AreasWellFormed c.Features)
    (hprops : AreasHaveProps c.Features) : AreasPresent c d := by
  intro e he _
  obtain ⟨i, hi, hei⟩ := List.getElem_of_mem he
  have hlen := buildDefinition_length c.Features d hb
  obtain ⟨f, hf⟩ := wellFormed_getElem? c.Features hwf i (by omega)
  obtain ⟨g, group, _, _, hdi⟩ := buildDefinition_entry c.Features d hb i f hf
  rw [List.getElem?_eq_getElem hi, hei] at hdi
  have hk : e.1 = (i : Int) := by
    rw [Option.some.inj hdi]
  have hmem : some f ∈ c.Features := List.getElem?_mem hf
  have hpf := hprops _ hmem
  obtain ⟨m, hm⟩ := Option.isSome_iff_exists.1 (by simpa [hasProps] using hpf)
  rw [propsAt_isSome_iff]
  refine ⟨f, m, ?_, hm⟩
  rw [featureAt_some_iff, hk]
  exact ⟨by omega, by simpa using hf⟩

/-- The result of lines 96-97 when nothing panics: each area feature has its property map
advanced by the evaluations of its own parts. -/
theorem enrich_spec (contains : GeoPolygon α → GeoPoint α → Bool)
    (sched : Nat → List (Entry α) → List (Entry α)) (c : FeatureCollection α)
    (features : List (Option (Feature α))) (hs : MapRange sched)
    (hwf : AreasWellFormed c.Features) (hprops : AreasHaveProps c.Features)
    (hp : PointsPresent features) :
    ∃ r, enrich contains sched c features = some r
      ∧ r.Features.length = c.Features.length
      ∧ ∀ j f, featureAt c j = some f →
          ∃ g group, f.Geometry = some g ∧ buildGroup g.MultiPolygon = some group
            ∧ featureAt r j = some (mapProps (runProps contains features.length
                (features.filterMap pointOf) group) f) := by
  obtain ⟨d, hb⟩ := buildDefinition_isSome c.Features hwf
  have hd := buildDefinition_distinctKeys c.Features d hb
  obtain ⟨r, h1, h2, h3⟩ := aggregate_spec contains sched c features d hs hd
    (areasPresent_buildDefinition c d hb hwf hprops) hp
  refine ⟨r, by simp [enrich, hb, h1], h2, fun j f hf => ?_⟩
  obtain ⟨h0, hj⟩ := (featureAt_some_iff c j f).1 hf
  obtain ⟨g, group, hg, hgrp, hdj⟩ := buildDefinition_entry c.Features d hb j.toNat f hj
  have hjj : ((j.toNat : Nat) : Int) = j := Int.toNat_of_nonneg h0
  rw [hjj] at hdj
  have hgo : groupOf d j = group :=
    groupOf_of_mem d (j, group) hd (List.getElem?_mem hdj)
  exact ⟨g, group, hg, hgrp, by rw [h3 j, hf, hgo]; rfl⟩

theorem mapRange_reversedOrder : MapRange reversedOrder :=
  fun _ d => List.reverse_perm d

/-! ## The else-branch of lines 190-196 -/

theorem sumOf_cases (contains : GeoPolygon α → GeoPoint α → Bool)
    (polygons : List (GeoPolygon α)) (point : GeoPoint α) :
    sumOf contains polygons point = [] ∨ sumOf contains polygons point = [1] := by
  unfold sumOf
  by_cases h : containCount contains polygons point % 2 = 1
  · right; simp [h]
  · left; simp [h]

theorem partStepLive_eq (contains : GeoPolygon α → GeoPoint α → Bool) (nfeatures : Int)
    (point : GeoPoint α) (polycount : Nat) (polygons : List (GeoPolygon α)) (m : Props) :
    partStepLive contains nfeatures point polygons m
      = partStep contains nfeatures point polycount polygons m := by
  by_cases h : containCount contains polygons point % 2 = 1
  · simp only [partStepLive, partStep, h, if_true, totalSum_one]
  · simp only [partStepLive, partStep, h, if_false, totalSum_empty]
    rfl

theorem visitPartLive_eq (contains : GeoPolygon α → GeoPoint α → Bool) (nfeatures : Int)
    (point : GeoPoint α) (pid : Int) (polycount : Nat) :
    visitPartLive contains nfeatures point pid
      = visitPart contains nfeatures point pid polycount := by
  funext c polygons
  unfold visitPartLive visitPart
  simp only [partStepLive_eq contains nfeatures point polycount]

theorem visitAreaLive_eq (contains : GeoPolygon α → GeoPoint α → Bool) (nfeatures : Int)
    (point : GeoPoint α) :
    visitAreaLive contains nfeatures point = visitArea contains nfeatures point := by
  funext c entry
  unfold visitAreaLive visitArea
  rw [visitPartLive_eq contains nfeatures point entry.1 entry.2.length]

theorem aggregateLive_eq (contains : GeoPolygon α → GeoPoint α → Bool)
    (sched : Nat → List (Entry α) → List (Entry α)) (c : FeatureCollection α)
    (features : List (Option (Feature α))) (d : List (Entry α)) :
    aggregateLive contains sched c features d = aggregate contains sched c features d := by
  unfold aggregateLive aggregate visitPointLive visitPoint
  simp only [visitAreaLive_eq]

/-! ## The value of `count` -/

theorem intWrap_intWrap_add (c : Int) (k : Nat) :
    intWrap (intWrap (c + 1) + k) = intWrap (c + (k + 1 : Nat)) := by
  unfold intWrap
  push_cast
  omega

/-- The integer read for `count` after a sequence of evaluations, in 64-bit arithmetic. -/
theorem countOf_stepsProps_wrap (contains : GeoPolygon α → GeoPoint α → Bool)
    (nfeatures : Int) (polycount : Nat) (steps : List (GeoPoint α × List (GeoPolygon α)))
    (m : Props) :
    countOf (stepsProps contains nfeatures polycount steps m)
      = if steps.countP (isMatch contains) = 0 then countOf m
        else intWrap (countOf m + steps.countP (isMatch contains)) := by
  induction steps generalizing m with
  | nil => simp [stepsProps]
  | cons e es ih =>
    have h1 : stepsProps contains nfeatures polycount (e :: es) m
        = stepsProps contains nfeatures polycount es
            (partStep contains nfeatures e.1 polycount e.2 m) := rfl
    have hc := countOf_partStep contains nfeatures e.1 polycount e.2 m
    rw [h1, ih, hc]
    cases ho : oddCrossing contains e.2 e.1 with
    | true =>
      have hm : isMatch contains e = true := by simpa [isMatch] using ho
      rw [List.countP_cons_of_pos _ _ hm]
      simp only [if_true, Nat.add_one_ne_zero, if_false]
      by_cases hk : es.countP (isMatch contains) = 0
      · simp [hk]
      · simp only [hk, if_false]
        exact intWrap_intWrap_add _ _
    | false =>
      have hm : ¬ isMatch contains e = true := by simp [isMatch, ho]
      rw [List.countP_cons_of_neg _ _ hm]
      simp

/-- After at least one evaluation `count` holds a Go `int`. -/
theorem getProp_count_stepsProps (contains : GeoPolygon α → GeoPoint α → Bool)
    (nfeatures : Int) (polycount : Nat) (steps : List (GeoPoint α × List (GeoPolygon α)))
    (m : Props) (h : steps ≠ []) :
    getProp (stepsProps contains nfeatures polycount steps m) "count"
      = some (Value.int (countOf (stepsProps contains nfeatures polycount steps m))) := by
  induction steps generalizing m with
  | nil => exact absurd rfl h
  | cons e es ih =>
    have h1 : stepsProps contains nfeatures polycount (e :: es) m
        = stepsProps contains nfeatures polycount es
            (partStep contains nfeatures e.1 polycount e.2 m) := rfl
    rw [h1]
    by_cases hes : es = []
    · subst hes
      simp only [stepsProps, List.foldl_nil]
      rw [countOf_partStep, partStep_count]
    · exact ih _ hes

theorem evaluations_ne_nil (points : List (GeoPoint α))
    (polygroup : List (List (GeoPolygon α))) (hp : points ≠ []) (hg : polygroup ≠ []) :
    evaluations points polygroup ≠ [] := by
  obtain ⟨p, ps, rfl⟩ := List.exists_cons_of_ne_nil hp
  obtain ⟨g, gs, rfl⟩ := List.exists_cons_of_ne_nil hg
  simp [evaluations]

theorem points_ne_nil (features : List (Option (Feature α))) (hp : PointsPresent features)
    (h : features ≠ []) : features.filterMap pointOf ≠ [] := by
  obtain ⟨pt, rest, rfl⟩ := List.exists_cons_of_ne_nil h
  obtain ⟨p, hpt⟩ := Option.isSome_iff_exists.1 (hp pt (List.mem_cons_self _ _))
  simp [List.filterMap_cons, hpt]

theorem runProps_nil_group (contains : GeoPolygon α → GeoPoint α → Bool) (nfeatures : Int)
    (points : List (GeoPoint α)) (m : Props) :
    runProps contains nfeatures points [] m = m := by
  induction points generalizing m with
  | nil => rfl
  | cons p ps ih =>
    have h1 : runProps contains nfeatures (p :: ps) [] m
        = runProps contains nfeatures ps [] (areaProps contains nfeatures p [] m) := rfl
    rw [h1, ih]
    rfl

theorem mapProps_runProps_nil (contains : GeoPolygon α → GeoPoint α → Bool)
    (nfeatures : Int) (points : List (GeoPoint α)) (f : Feature α) :
    mapProps (runProps contains nfeatures points []) f = f := by
  cases f with
  | mk g p =>
    cases p with
    | none => rfl
    | some m => simp [mapProps, runProps_nil_group]

/-! ## The frame of a run -/

theorem rangeLoop_rel {σ β : Type} (R : σ → σ → Prop) (hrefl : ∀ s, R s s)
    (htrans : ∀ a b c, R a b → R b c → R a c) (body : σ → β → Option σ)
    (hstep : ∀ s x s1, body s x = some s1 → R s s1) (xs : List β) (init r : σ)
    (h : rangeLoop body init xs = some r) : R init r := by
  induction xs generalizing init with
  | nil =>
    rw [rangeLoop_nil] at h
    cases h
    exact hrefl _
  | cons x xs ih =>
    rw [rangeLoop_cons] at h
    cases hb : body init x with
    | none => rw [hb] at h; cases h
    | some s1 =>
      rw [hb] at h
      exact htrans _ _ _ (hstep init x s1 hb) (ih s1 h)

theorem slotFramed_refl (s : Option (Feature α)) : SlotFramed s s := by
  cases s with
  | none => trivial
  | some f => exact ⟨rfl, rfl, fun _ _ _ => rfl⟩

theorem slotFramed_trans (a b c : Option (Feature α)) (h1 : SlotFramed a b)
    (h2 : SlotFramed b c) : SlotFramed a c := by
  cases a with
  | none =>
    cases b with
    | none => exact h2
    | some _ => exact absurd h1 (by simp [SlotFramed])
  | some fa =>
    cases b with
    | none => exact absurd h1 (by simp [SlotFramed])
    | some fb =>
      cases c with
      | none => exact absurd h2 (by simp [SlotFramed])
      | some fc =>
        obtain ⟨g1, p1, k1⟩ := h1
        obtain ⟨g2, p2, k2⟩ := h2
        exact ⟨g2.trans g1, p2.trans p1, fun key hc ht => (k2 key hc ht).trans (k1 key hc ht)⟩

theorem forall₂_trans_of {β : Type} (R : β → β → Prop)
    (htrans : ∀ a b c, R a b → R b c → R a c) (xs ys zs : List β)
    (h1 : List.Forall₂ R xs ys) (h2 : List.Forall₂ R ys zs) : List.Forall₂ R xs zs := by
  induction h1 generalizing zs with
  | nil => cases h2; exact List.Forall₂.nil
  | cons hr _ ih =>
    cases h2 with
    | cons hr2 ht2 => exact List.Forall₂.cons (htrans _ _ _ hr hr2) (ih _ ht2)

theorem forall₂_refl_of {β : Type} (R : β → β → Prop) (hrefl : ∀ a, R a a)
    (xs : List β) : List.Forall₂ R xs xs := by
  induction xs with
  | nil => exact List.Forall₂.nil
  | cons x xs ih => exact List.Forall₂.cons (hrefl x) ih

theorem forall₂_set {β : Type} (R : β → β → Prop) (hrefl : ∀ a, R a a) (xs : List β)
    (i : Nat) (a x : β) (ha : xs[i]? = some a) (hr : R a x) :
    List.Forall₂ R xs (xs.set i x) := by
  induction xs generalizing i with
  | nil => simp at ha
  | cons y ys ih =>
    cases i with
    | zero =>
      simp only [List.getElem?_cons_zero, Option.some.injEq] at ha
      subst ha
      exact List.Forall₂.cons hr (forall₂_refl_of R hrefl ys)
    | succ k =>
      simp only [List.getElem?_cons_succ] at ha
      exact List.Forall₂.cons (hrefl y) (ih k ha)

theorem framed_refl (c : FeatureCollection α) : Framed c c :=
  forall₂_refl_of SlotFramed slotFramed_refl c.Features

theorem framed_trans (a b c : FeatureCollection α) (h1 : Framed a b) (h2 : Framed b c) :
    Framed a c :=
  forall₂_trans_of SlotFramed slotFramed_trans _ _ _ h1 h2

theorem visitPart_framed (contains : GeoPolygon α → GeoPoint α → Bool) (nfeatures : Int)
    (point : GeoPoint α) (pid : Int) (polycount : Nat) (c : FeatureCollection α)
    (polygons : List (GeoPolygon α)) (c1 : FeatureCollection α)
    (h : visitPart contains nfeatures point pid polycount c polygons = some c1) :
    Framed c c1 := by
  unfold visitPart at h
  cases hf : featureAt c pid with
  | none => rw [hf] at h; cases h
  | some f =>
    rw [hf] at h
    cases hm : f.Properties with
    | none => simp [hm] at h
    | some m =>
      simp only [hm, Option.some.injEq] at h
      subst h
      obtain ⟨_, hget⟩ := (featureAt_some_iff c pid f).1 hf
      apply forall₂_set SlotFramed slotFramed_refl c.Features pid.toNat (some f) _ hget
      refine ⟨rfl, by simp [hm], fun key hc ht => ?_⟩
      simp only [propOf, hm, Option.some_bind]
      exact partStep_other contains nfeatures point polycount polygons m key hc ht

theorem visitArea_framed (contains : GeoPolygon α → GeoPoint α → Bool) (nfeatures : Int)
    (point : GeoPoint α) (c : FeatureCollection α) (entry : Entry α)
    (c1 : FeatureCollection α) (h : visitArea contains nfeatures point c entry = some c1) :
    Framed c c1 :=
  rangeLoop_rel Framed framed_refl framed_trans _
    (fun s x s1 hs =>
      visitPart_framed contains nfeatures point entry.1 entry.2.length s x s1 hs)
    entry.2 c c1 h

theorem visitPoint_framed (contains : GeoPolygon α → GeoPoint α → Bool) (nfeatures : Int)
    (order : List (Entry α)) (c : FeatureCollection α) (pt : Option (Feature α))
    (c1 : FeatureCollection α) (h : visitPoint contains nfeatures order c pt = some c1) :
    Framed c c1 := by
  unfold visitPoint at h
  cases hp : pointOf pt with
  | none => rw [hp] at h; cases h
  | some point =>
    rw [hp] at h
    exact rangeLoop_rel Framed framed_refl framed_trans _
      (fun s x s1 hs => visitArea_framed contains nfeatures point s x s1 hs) order c c1 h

theorem aggregate_framed (contains : GeoPolygon α → GeoPoint α → Bool)
    (sched : Nat → List (Entry α) → List (Entry α)) (c : FeatureCollection α)
    (features : List (Option (Feature α))) (d : List (Entry α)) (c1 : FeatureCollection α)
    (h : aggregate contains sched c features d = some c1) : Framed c c1 :=
  rangeLoop_rel Framed framed_refl framed_trans _
    (fun s x s1 hs => visitPoint_framed contains _ _ s x.2 s1 hs) features.enum c c1 h

theorem framed_featureAt (c c1 : FeatureCollection α) (h : Framed c c1) (pid : Int)
    (f : Feature α) (hf : featureAt c pid = some f) :
    ∃ f1, featureAt c1 pid = some f1 ∧ f1.Geometry = f.Geometry
      ∧ f1.Properties.isSome = f.Properties.isSome
      ∧ ∀ key, key ≠ "count" → key ≠ "total" → propOf f1 key = propOf f key := by
  obtain ⟨h0, hget⟩ := (featureAt_some_iff c pid f).1 hf
  obtain ⟨s1, hs1, hr⟩ := forall₂_getElem? SlotFramed _ _ h pid.toNat (some f) hget
  cases s1 with
  | none => exact absurd hr (by simp [SlotFramed])
  | some f1 =>
    refine ⟨f1, ?_, hr⟩
    rw [featureAt_some_iff]
    exact ⟨h0, hs1⟩

/-! ## When the functions panic -/

theorem forall₂_exists_of_mem {β γ : Type} (R : β → γ → Prop) (xs : List β) (ys : List γ)
    (h : List.Forall₂ R xs ys) (x : β) (hx : x ∈ xs) : ∃ y, R x y := by
  obtain ⟨i, hi⟩ := List.mem_iff_getElem?.1 hx
  obtain ⟨y, _, hr⟩ := forall₂_getElem? R xs ys h i x hi
  exact ⟨y, hr⟩

theorem appendLoop_some_mem {β γ : Type} (f : β → Option γ) (xs : List β) (ys : List γ)
    (h : appendLoop f xs = some ys) (x : β) (hx : x ∈ xs) : (f x).isSome = true := by
  obtain ⟨y, hy⟩ := forall₂_exists_of_mem _ xs ys ((appendLoop_eq_some_iff f xs ys).1 h) x hx
  rw [hy]
  rfl

theorem buildPoint_length (pt : List α) (h : (buildPoint pt).isSome = true) :
    2 ≤ pt.length := by
  unfold buildPoint at h
  match pt, h with
  | [], h => simp at h
  | [_], h => simp at h
  | _ :: _ :: _, _ => simp

theorem buildPolygon_all (pg : List (List α)) (h : (buildPolygon pg).isSome = true) :
    pg.all (fun pt => decide (2 ≤ pt.length)) = true := by
  rw [List.all_eq_true]
  intro pt hpt
  unfold buildPolygon at h
  cases ha : appendLoop buildPoint pg with
  | none => simp [ha] at h
  | some ys =>
    simpa using buildPoint_length pt (appendLoop_some_mem buildPoint pg ys ha pt hpt)

theorem buildGroup_all (mp : List (List (List (List α))))
    (h : (buildGroup mp).isSome = true) :
    mp.all (fun mpg => mpg.all (fun pg => pg.all (fun pt =>
      decide (2 ≤ pt.length)))) = true := by
  rw [List.all_eq_true]
  intro mpg hmpg
  rw [List.all_eq_true]
  intro pg hpg
  obtain ⟨group, hgroup⟩ := Option.isSome_iff_exists.1 h
  unfold buildGroup at hgroup
  have h1 := appendLoop_some_mem _ mp group hgroup mpg hmpg
  obtain ⟨polygons, hpolygons⟩ := Option.isSome_iff_exists.1 h1
  exact buildPolygon_all pg (appendLoop_some_mem buildPolygon mpg polygons hpolygons pg hpg)

theorem mem_enum_of_mem {β : Type} (xs : List β) (x : β) (hx : x ∈ xs) :
    ∃ i, (i, x) ∈ xs.enum := by
  obtain ⟨i, hi⟩ := List.mem_iff_getElem?.1 hx
  exact ⟨i, List.mk_mem_enum_iff_getElem?.2 hi⟩

theorem buildDefinition_wellFormed (features : List (Option (Feature α)))
    (d : List (Entry α)) (hb : buildDefinition features = some d) :
    AreasWellFormed features := by
  intro feature hmem
  obtain ⟨i, hi⟩ := mem_enum_of_mem features feature hmem
  obtain ⟨entry, f, g, h1, h2, h3, _⟩ :=
    forall₂_exists_of_mem _ _ _ ((buildDefinition_eq_some_iff features d).1 hb) _ hi
  simp only at h1
  subst h1
  simp only [wellFormedArea, h2]
  exact buildGroup_all g.MultiPolygon (by rw [h3]; rfl)

/-- The function `buildDefinition` returns exactly on well-formed area features. -/
theorem buildDefinition_isSome_iff (features : List (Option (Feature α))) :
    (buildDefinition features).isSome = true ↔ AreasWellFormed features := by
  constructor
  · intro h
    obtain ⟨d, hd⟩ := Option.isSome_iff_exists.1 h
    exact buildDefinition_wellFormed features d hd
  · intro h
    obtain ⟨d, hd⟩ := buildDefinition_isSome features h
    rw [hd]
    rfl

theorem rangeLoop_none_of_mem {σ β : Type} (body : σ → β → Option σ) (xs : List β)
    (x : β) (hx : x ∈ xs) (hbad : ∀ s, body s x = none) (init : σ) :
    rangeLoop body init xs = none := by
  induction xs generalizing init with
  | nil => cases hx
  | cons y ys ih =>
    rw [rangeLoop_cons]
    rcases List.mem_cons.1 hx with h | h
    · subst h
      rw [hbad]
      rfl
    · cases body init y with
      | none => rfl
      | some s => exact ih h s

theorem visitArea_none (contains : GeoPolygon α → GeoPoint α → Bool) (nfeatures : Int)
    (point : GeoPoint α) (c : FeatureCollection α) (entry : Entry α)
    (hparts : entry.2.isEmpty = false) (hprops : (propsAt c entry.1).isSome = false) :
    visitArea contains nfeatures point c entry = none := by
  rw [visitArea_of_nonempty contains nfeatures point c entry (by simp [hparts])]
  unfold propsAt at hprops
  cases hf : featureAt c entry.1 with
  | none => rfl
  | some f =>
    rw [hf] at hprops
    cases hm : f.Properties with
    | none => simp [hm]
    | some m => simp [hm] at hprops

theorem rangeLoop_visitArea_none (contains : GeoPolygon α → GeoPoint α → Bool)
    (nfeatures : Int) (point : GeoPoint α) (o : List (Entry α)) (c : FeatureCollection α)
    (ho : DistinctKeys o) (entry : Entry α) (hmem : entry ∈ o)
    (hparts : entry.2.isEmpty = false) (hprops : (propsAt c entry.1).isSome = false) :
    rangeLoop (visitArea contains nfeatures point) c o = none := by
  obtain ⟨l1, l2, rfl⟩ := List.append_of_mem hmem
  rw [rangeLoop_visitArea_perm contains nfeatures point _ (entry :: (l1 ++ l2)) ho
    List.perm_middle c, rangeLoop_cons,
    visitArea_none contains nfeatures point c entry hparts hprops]
  rfl

/-- The function `aggregate` returns exactly when every point can be read and, unless
there is no point, every entry with a part names a feature with a property map. -/
theorem aggregate_isSome_iff (contains : GeoPolygon α → GeoPoint α → Bool)
    (sched : Nat → List (Entry α) → List (Entry α)) (c : FeatureCollection α)
    (features : List (Option (Feature α))) (d : List (Entry α))
    (hs : MapRange sched) (hd : DistinctKeys d) :
    (aggregate contains sched c features d).isSome = true
      ↔ PointsPresent features ∧ (features = [] ∨ AreasPresent c d) := by
  constructor
  · intro h
    have hp : PointsPresent features := by
      intro pt hpt
      by_contra hbad
      have hnone : pointOf pt = none := by
        cases hq : pointOf pt with
        | none => rfl
        | some q => rw [hq] at hbad; exact absurd rfl hbad
      obtain ⟨i, hi⟩ := mem_enum_of_mem features pt hpt
      have : aggregate contains sched c features d = none :=
        rangeLoop_none_of_mem _ features.enum (i, pt) hi
          (fun s => by simp [visitPoint, hnone]) c
      rw [this] at h
      cases h
    refine ⟨hp, ?_⟩
    by_contra hcon
    simp only [not_or] at hcon
    obtain ⟨hne, hna⟩ := hcon
    obtain ⟨pt, rest, rfl⟩ := List.exists_cons_of_ne_nil hne
    obtain ⟨point, hpoint⟩ := Option.isSome_iff_exists.1 (hp pt (List.mem_cons_self _ _))
    unfold AreasPresent at hna
    simp only [not_forall] at hna
    obtain ⟨entry, hmem, hparts, hprops⟩ := hna
    have hperm := hs 0 d
    have ho : DistinctKeys (sched 0 d) := by
      unfold DistinctKeys at *
      exact ((hperm.map Prod.fst).nodup_iff).2 hd
    have hloop := rangeLoop_visitArea_none contains ((pt :: rest).length : Int) point
      (sched 0 d) c ho entry (hperm.mem_iff.2 hmem) hparts (by simpa using hprops)
    have : aggregate contains sched c (pt :: rest) d = none := by
      unfold aggregate
      rw [List.enum_cons, rangeLoop_cons]
      simp only [visitPoint, hpoint, hloop]
      rfl
    rw [this] at h
    cases h
  · rintro ⟨hp, hor⟩
    rcases hor with h | h
    · subst h
      rfl
    · obtain ⟨c1, h1, _⟩ := aggregate_spec contains sched c features d hs hd h hp
      rw [h1]
      rfl

/-! ## Independence of the order of the points -/

theorem all_perm {β : Type} (p : β → Bool) (xs ys : List β) (h : List.Perm xs ys) :
    xs.all p = ys.all p := by
  rw [Bool.eq_iff_iff, List.all_eq_true, List.all_eq_true]
  exact ⟨fun hx y hy => hx y (h.mem_iff.2 hy), fun hy x hx => hy x (h.mem_iff.1 hx)⟩

theorem countOf_stepsProps_perm (contains : GeoPolygon α → GeoPoint α → Bool)
    (nfeatures : Int) (polycount : Nat) (s1 s2 : List (GeoPoint α × List (GeoPolygon α)))
    (h : List.Perm s1 s2) (m : Props) :
    countOf (stepsProps contains nfeatures polycount s1 m)
      = countOf (stepsProps contains nfeatures polycount s2 m) := by
  rw [countOf_stepsProps_wrap, countOf_stepsProps_wrap, h.countP_eq]

/-- A property map after a sequence of evaluations holds under every key a value that
does not depend on the order of the evaluations. -/
theorem getProp_stepsProps_perm (contains : GeoPolygon α → GeoPoint α → Bool)
    (nfeatures : Int) (polycount : Nat) (s1 s2 : List (GeoPoint α × List (GeoPolygon α)))
    (h : List.Perm s1 s2) (m : Props) (key : String) :
    getProp (stepsProps contains nfeatures polycount s1 m) key
      = getProp (stepsProps contains nfeatures polycount s2 m) key := by
  by_cases hc : key = "count"
  · subst hc
    by_cases h1 : s1 = []
    · subst h1
      rw [List.nil_perm.1 h]
    · have h2 : s2 ≠ [] := by
        intro h2
        subst h2
        exact h1 (List.perm_nil.1 h)
      rw [getProp_count_stepsProps _ _ _ _ _ h1, getProp_count_stepsProps _ _ _ _ _ h2,
        countOf_stepsProps_perm contains nfeatures polycount s1 s2 h m]
  · by_cases ht : key = "total"
    · subst ht
      cases hm : getProp m "total" with
      | none =>
        rw [total_stepsProps_none _ _ _ _ _ hm, total_stepsProps_none _ _ _ _ _ hm,
          all_perm (isMatch contains) s1 s2 h]
      | some v =>
        rw [total_stepsProps_some _ _ _ _ _ v hm, total_stepsProps_some _ _ _ _ _ v hm]
    · rw [other_stepsProps _ _ _ _ _ _ hc ht, other_stepsProps _ _ _ _ _ _ hc ht]

theorem evaluations_perm (p1 p2 : List (GeoPoint α)) (h : List.Perm p1 p2)
    (polygroup : List (List (GeoPolygon α))) :
    List.Perm (evaluations p1 polygroup) (evaluations p2 polygroup) :=
  h.flatMap_right _

theorem pointsPresent_perm (f1 f2 : List (Option (Feature α))) (h : List.Perm f2 f1)
    (hp : PointsPresent f1) : PointsPresent f2 :=
  fun pt hpt => hp pt (h.mem_iff.1 hpt)

theorem propsAt_of_map (c r : FeatureCollection α) (F : Props → Props) (pid : Int)
    (h : featureAt r pid = (featureAt c pid).map (mapProps F)) :
    propsAt r pid = (propsAt c pid).map F := by
  unfold propsAt
  rw [h]
  cases featureAt c pid with
  | none => rfl
  | some f => rfl

/-! ## Bounding boxes -/

theorem within_refl [LinearOrder κ] (b : bounds κ) : b.within b :=
  ⟨le_refl _, le_refl _, le_refl _, le_refl _⟩

theorem within_trans [LinearOrder κ] (a b c : bounds κ) (h1 : a.within b) (h2 : b.within c) :
    a.within c :=
  ⟨le_trans h2.1 h1.1, le_trans h2.2.1 h1.2.1, le_trans h1.2.2.1 h2.2.2.1,
    le_trans h1.2.2.2 h2.2.2.2⟩

theorem covers_of_within [LinearOrder κ] (b b1 : bounds κ) (p : point κ) (h : b.covers p)
    (hw : b.within b1) : b1.covers p :=
  ⟨le_trans hw.1 h.1, le_trans h.2.1 hw.2.2.1, le_trans hw.2.1 h.2.2.1,
    le_trans h.2.2.2 hw.2.2.2⟩

theorem within_extend [LinearOrder κ] (b : bounds κ) (p : point κ) : b.within (b.extend p) :=
  ⟨min_le_left _ _, min_le_left _ _, le_max_left _ _, le_max_left _ _⟩

theorem covers_extend [LinearOrder κ] (b : bounds κ) (p : point κ) : (b.extend p).covers p :=
  ⟨min_le_right _ _, le_max_right _ _, min_le_right _ _, le_max_right _ _⟩

theorem foldl_extend_within [LinearOrder κ] (ps : List (point κ)) (b : bounds κ) :
    b.within (ps.foldl bounds.extend b) := by
  induction ps generalizing b with
  | nil => exact within_refl b
  | cons p ps ih => exact within_trans _ _ _ (within_extend b p) (ih (b.extend p))

theorem foldl_extend_covers [LinearOrder κ] (ps : List (point κ)) (b : bounds κ) (p : point κ)
    (hp : p ∈ ps) : (ps.foldl bounds.extend b).covers p := by
  induction ps generalizing b with
  | nil => cases hp
  | cons q qs ih =>
    rcases List.mem_cons.1 hp with h | h
    · subst h
      exact covers_of_within _ _ _ (covers_extend b p) (foldl_extend_within qs _)
    · exact ih (b.extend q) h

/-- A loop whose steps only enlarge the state, each step covering its own item, ends in
a state that covers every item. -/
theorem rangeLoop_cover {σ β : Type} (le : σ → σ → Prop) (cov : σ → β → Prop)
    (hrefl : ∀ s, le s s) (htrans : ∀ a b c, le a b → le b c → le a c)
    (hmono : ∀ s s1 x, cov s x → le s s1 → cov s1 x)
    (body : σ → β → Option σ)
    (hstep : ∀ s x s1, body s x = some s1 → le s s1 ∧ cov s1 x)
    (xs : List β) (init r : σ) (h : rangeLoop body init xs = some r) :
    le init r ∧ ∀ x ∈ xs, cov r x := by
  induction xs generalizing init with
  | nil =>
    rw [rangeLoop_nil] at h
    cases h
    exact ⟨hrefl _, fun x hx => by cases hx⟩
  | cons y ys ih =>
    rw [rangeLoop_cons] at h
    cases hb : body init y with
    | none => rw [hb] at h; cases h
    | some s1 =>
      rw [hb] at h
      obtain ⟨h1, h2⟩ := hstep init y s1 hb
      obtain ⟨h3, h4⟩ := ih s1 h
      refine ⟨htrans _ _ _ h1 h3, fun x hx => ?_⟩
      rcases List.mem_cons.1 hx with hxy | hxy
      · subst hxy
        exact hmono _ _ _ h2 h3
      · exact h4 x hxy

theorem extendPosition_spec [LinearOrder κ] (b : bounds κ) (pt : List κ) (b1 : bounds κ)
    (h : extendPosition b pt = some b1) : b.within b1 ∧ b1.coversPosition pt := by
  unfold extendPosition at h
  cases h0 : pt[0]? with
  | none => simp [h0] at h
  | some x =>
    cases h1 : pt[1]? with
    | none => simp [h0, h1] at h
    | some y =>
      simp only [h0, h1, Option.some.injEq] at h
      subst h
      refine ⟨within_extend b _, fun x2 y2 hx hy => ?_⟩
      rw [h0] at hx
      rw [h1] at hy
      cases hx
      cases hy
      exact covers_extend b _

theorem coversPosition_mono [LinearOrder κ] (b b1 : bounds κ) (pt : List κ) (h : b.coversPosition pt)
    (hw : b.within b1) : b1.coversPosition pt :=
  fun x y hx hy => covers_of_within b b1 _ (h x y hx hy) hw

theorem extendRing_spec [LinearOrder κ] (b : bounds κ) (pg : List (List κ)) (b1 : bounds κ)
    (h : extendRing b pg = some b1) :
    b.within b1 ∧ ∀ pt ∈ pg, b1.coversPosition pt :=
  rangeLoop_cover bounds.within bounds.coversPosition within_refl within_trans
    coversPosition_mono extendPosition extendPosition_spec pg b b1 h

theorem extendPart_spec [LinearOrder κ] (b : bounds κ) (mpg : List (List (List κ))) (b1 : bounds κ)
    (h : extendPart b mpg = some b1) :
    b.within b1 ∧ ∀ pg ∈ mpg, ∀ pt ∈ pg, b1.coversPosition pt :=
  rangeLoop_cover bounds.within (fun s pg => ∀ pt ∈ pg, bounds.coversPosition s pt)
    within_refl within_trans
    (fun s s1 _ hc hw pt hpt => coversPosition_mono s s1 pt (hc pt hpt) hw)
    extendRing extendRing_spec mpg b b1 h

theorem extendArea_spec [LinearOrder κ] (b : bounds κ) (mp : List (List (List (List κ)))) (b1 : bounds κ)
    (h : extendArea b mp = some b1) :
    b.within b1 ∧ ∀ mpg ∈ mp, ∀ pg ∈ mpg, ∀ pt ∈ pg, b1.coversPosition pt :=
  rangeLoop_cover bounds.within
    (fun s mpg => ∀ pg ∈ mpg, ∀ pt ∈ pg, bounds.coversPosition s pt)
    within_refl within_trans
    (fun s s1 _ hc hw pg hpg pt hpt => coversPosition_mono s s1 pt (hc pg hpg pt hpt) hw)
    extendPart extendPart_spec mp b b1 h

theorem rangeLoop_isSome {σ β : Type} (body : σ → β → Option σ) (xs : List β)
    (h : ∀ s, ∀ x ∈ xs, (body s x).isSome = true) (init : σ) :
    (rangeLoop body init xs).isSome = true := by
  induction xs generalizing init with
  | nil => rfl
  | cons y ys ih =>
    rw [rangeLoop_cons]
    obtain ⟨s1, hs1⟩ := Option.isSome_iff_exists.1 (h init y (List.mem_cons_self _ _))
    rw [hs1]
    exact ih (fun s x hx => h s x (List.mem_cons_of_mem _ hx)) s1

theorem extendPosition_isSome [LinearOrder κ] (b : bounds κ) (pt : List κ) (h : 2 ≤ pt.length) :
    (extendPosition b pt).isSome = true := by
  unfold extendPosition
  match pt, h with
  | _ :: _ :: _, _ => simp

theorem extendArea_isSome [LinearOrder κ] (b : bounds κ) (mp : List (List (List (List κ))))
    (h : mp.all (fun mpg => mpg.all (fun pg => pg.all (fun pt =>
      decide (2 ≤ pt.length)))) = true) :
    (extendArea b mp).isSome = true := by
  rw [List.all_eq_true] at h
  refine rangeLoop_isSome _ mp (fun s mpg hmpg => ?_) b
  have h1 := h mpg hmpg
  rw [List.all_eq_true] at h1
  refine rangeLoop_isSome _ mpg (fun s2 pg hpg => ?_) s
  have h2 := h1 pg hpg
  rw [List.all_eq_true] at h2
  exact rangeLoop_isSome _ pg
    (fun s3 pt hpt => extendPosition_isSome s3 pt (by simpa using h2 pt hpt)) s2

theorem buildBounds_isSome [LinearOrder κ] [OrderTop κ] [OrderBot κ] (features : List (Option (Feature κ)))
    (h : AreasWellFormed features) : (buildBounds features).isSome = true := by
  have : ∃ bs, buildBounds features = some bs := by
    unfold buildBounds
    apply appendLoop_isSome
    intro e he
    have hmem : e.2 ∈ features := by
      have : e.2 ∈ features.enum.map Prod.snd := List.mem_map_of_mem Prod.snd he
      rwa [List.enum_map_snd] at this
    have hw := h e.2 hmem
    unfold wellFormedArea at hw
    cases h2 : e.2 with
    | none => rw [h2] at hw; cases hw
    | some f =>
      rw [h2] at hw
      cases hg : f.Geometry with
      | none => simp [hg] at hw
      | some g =>
        simp only [hg] at hw
        obtain ⟨b, hb⟩ := Option.isSome_iff_exists.1
          (extendArea_isSome newBounds g.MultiPolygon hw)
        simp [hg, hb]
  obtain ⟨bs, hbs⟩ := this
  rw [hbs]
  rfl

theorem buildBounds_entry [LinearOrder κ] [OrderTop κ] [OrderBot κ] (features : List (Option (Feature κ)))
    (bs : List (Int × bounds κ)) (hb : buildBounds features = some bs) (i : Nat)
    (f : Feature κ) (g : Geometry κ) (hf : features[i]? = some (some f))
    (hg : f.Geometry = some g) :
    ∃ b, bs[i]? = some ((i : Int), b)
      ∧ ∀ mpg ∈ g.MultiPolygon, ∀ pg ∈ mpg, ∀ pt ∈ pg, b.coversPosition pt := by
  unfold buildBounds at hb
  have h1 := (appendLoop_eq_some_iff _ _ _).1 hb
  have h2 : features.enum[i]? = some (i, some f) := by
    rw [List.getElem?_enum, hf]
    rfl
  obtain ⟨entry, h3, h4⟩ := forall₂_getElem? _ _ _ h1 i _ h2
  simp only [hg] at h4
  cases ha : extendArea newBounds g.MultiPolygon with
  | none => simp [ha] at h4
  | some b =>
    simp only [ha, Option.map_some', Option.some.injEq] at h4
    subst h4
    exact ⟨b, h3, (extendArea_spec newBounds g.MultiPolygon b ha).2⟩

theorem buildBounds_length [LinearOrder κ] [OrderTop κ] [OrderBot κ] (features : List (Option (Feature κ)))
    (bs : List (Int × bounds κ)) (hb : buildBounds features = some bs) :
    bs.length = features.length := by
  unfold buildBounds at hb
  have h1 := ((appendLoop_eq_some_iff _ _ _).1 hb).length_eq
  rw [← h1, List.enum_length]

theorem overlaps_comm [LinearOrder κ] (a b : bounds κ) : overlaps a b = overlaps b a := by
  unfold overlaps
  rw [Bool.eq_iff_iff]
  simp only [Bool.and_eq_true, decide_eq_true_eq, ge_iff_le]
  constructor
  · rintro ⟨⟨⟨h1, h2⟩, h3⟩, h4⟩
    exact ⟨⟨⟨h3, h4⟩, h1⟩, h2⟩
  · rintro ⟨⟨⟨h1, h2⟩, h3⟩, h4⟩
    exact ⟨⟨⟨h3, h4⟩, h1⟩, h2⟩

/-! ## Property maps decoded from JSON -/

theorem getProp_mem (m : Props) (key : String) (v : Value) (h : getProp m key = some v) :
    (key, v) ∈ m := by
  induction m with
  | nil => cases h
  | cons e rest ih =>
    unfold getProp at h
    by_cases he : e.1 = key
    · simp only [he, if_true, Option.some.injEq] at h
      have : e = (key, v) := Prod.ext he h
      rw [this]
      exact List.mem_cons_self _ _
    · simp only [he, if_false] at h
      exact List.mem_cons_of_mem _ (ih h)

theorem countOf_jsonDecoded (m : Props) (h : jsonDecoded m = true) : countOf m = 0 := by
  unfold countOf
  cases hg : getProp m "count" with
  | none => rfl
  | some v =>
    cases v with
    | other s => rfl
    | int n =>
      have hmem := getProp_mem m "count" (Value.int n) hg
      unfold jsonDecoded at h
      rw [List.all_eq_true] at h
      have := h _ hmem
      simp at this

theorem jsonDecoded_propsAt (c : FeatureCollection α) (h : AreasFromJSON c.Features)
    (pid : Int) (m : Props) (hm : propsAt c pid = some m) : jsonDecoded m = true := by
  obtain ⟨f, m2, hf, hm2⟩ := (propsAt_isSome_iff c pid).1 (by rw [hm]; rfl)
  have e : m2 = m := by
    unfold propsAt at hm
    rw [hf] at hm
    simp only [Option.some_bind] at hm
    rw [hm2] at hm
    exact Option.some.inj hm
  subst e
  obtain ⟨_, hget⟩ := (featureAt_some_iff c pid f).1 hf
  have := h _ (List.getElem?_mem hget)
  simpa [jsonArea, hm2] using this

theorem evaluations_length (points : List (GeoPoint α))
    (polygroup : List (List (GeoPolygon α))) :
    (evaluations points polygroup).length = points.length * polygroup.length := by
  induction points with
  | nil => simp [evaluations]
  | cons p ps ih =>
    have h : evaluations (p :: ps) polygroup
        = polygroup.map (fun polygons => (p, polygons)) ++ evaluations ps polygroup := by
      simp [evaluations]
    rw [h, List.length_append, List.length_map, ih, List.length_cons]
    ring

theorem exists_entry_of_groupOf (d : List (Entry α)) (pid : Int)
    (h : groupOf d pid ≠ []) : ∃ e ∈ d, e.2 = groupOf d pid := by
  induction d with
  | nil => exact absurd rfl h
  | cons x rest ih =>
    by_cases hx : x.1 = pid
    · exact ⟨x, List.mem_cons_self _ _, by simp [groupOf, hx]⟩
    · have hg : groupOf (x :: rest) pid = groupOf rest pid := by simp [groupOf, hx]
      rw [hg] at h ⊢
      obtain ⟨e, he, hee⟩ := ih h
      exact ⟨e, List.mem_cons_of_mem _ he, hee⟩

/-! # The claims -/

/-- C1, as stated, fails: the area `overlapArea` has two parts that both contain the point
`(5, 5)`; its `count` is the integer 0 before the run and 2 after the single point, an
increase of 2.  The same area without any property also ends with `count` = 2. -/
theorem count_twice_for_overlapping_parts :
    (propsAt overlapArea 0).map countOf = some 0
      ∧ ((enrich boxContains storedOrder overlapArea [pointFeature 5 5]).bind
          (fun c => propsAt c 0)).map countOf = some 2
      ∧ (enrich boxContains storedOrder
            ⟨[areaFeature [[rectRing 0 0 10 10], [rectRing 4 4 14 14]] []]⟩
            [pointFeature 5 5]).bind (fun c => propsAt c 0)
          = some [("count", Value.int 2)] := by
  decide

/-- C1, amended: processing one point against one area adds to `count` the number of parts
of the area whose crossing count for the point is odd, which is at most the number of
parts of the area (so at most 1 for an area of one part), provided no increment overflows
the 64-bit integer. -/
theorem visitArea_count (contains : GeoPolygon α → GeoPoint α → Bool) (nfeatures : Int)
    (point : GeoPoint α) (c : FeatureCollection α) (pid : Int)
    (polygroup : List (List (GeoPolygon α))) (f : Feature α) (m : Props)
    (hf : featureAt c pid = some f) (hm : f.Properties = some m)
    (hlo : -(2 ^ 63) ≤ countOf m) (hhi : countOf m + polygroup.length < 2 ^ 63) :
    ∃ c1 m1, visitArea contains nfeatures point c (pid, polygroup) = some c1
      ∧ propsAt c1 pid = some m1
      ∧ countOf m1
          = countOf m + polygroup.countP (fun polygons => oddCrossing contains polygons point)
      ∧ countOf m1 ≤ countOf m + polygroup.length := by
  have hv := visitArea_eq contains nfeatures point c (pid, polygroup)
  have hcount : countOf (areaProps contains nfeatures point polygroup m)
      = countOf m + polygroup.countP (fun polygons => oddCrossing contains polygons point) := by
    rw [areaProps_eq_stepsProps, countOf_stepsProps _ _ _ _ _ hlo (by simpa using hhi),
      List.countP_map]
    rfl
  have hle : polygroup.countP (fun polygons => oddCrossing contains polygons point)
      ≤ polygroup.length := List.countP_le_length _
  by_cases hnil : polygroup = []
  · subst hnil
    refine ⟨c, m, ?_, ?_, ?_, ?_⟩
    · simpa using hv
    · simp [propsAt, hf, hm]
    · simp
    · simp
  · have hemp : ¬ polygroup.isEmpty = true := by simpa using hnil
    simp only [hemp, if_false, hf, hm] at hv
    refine ⟨_, _, hv, propsAt_withProps_same c pid f _ hf, hcount, ?_⟩
    rw [hcount]
    have : (polygroup.countP (fun polygons => oddCrossing contains polygons point) : Int)
        ≤ polygroup.length := by exact_mod_cast hle
    omega

/-- C1, amended, at the area of two overlapping parts and the point `(5, 5)`. -/
theorem visitArea_count_witness :
    (featureAt overlapArea 0
        = some ⟨some ⟨[], [[rectRing 0 0 10 10], [rectRing 4 4 14 14]]⟩,
            some [("count", Value.int 0)]⟩
      ∧ -(2 ^ 63) ≤ countOf [("count", Value.int 0)]
      ∧ countOf [("count", Value.int 0)]
          + ([[rectPolygon 0 0 10 10], [rectPolygon 4 4 14 14]] : List (List (GeoPolygon Int))).length
          < 2 ^ 63)
      ∧ ∃ c1 m1, visitArea boxContains 1 ⟨5, 5⟩ overlapArea
            (0, [[rectPolygon 0 0 10 10], [rectPolygon 4 4 14 14]]) = some c1
        ∧ propsAt c1 0 = some m1
        ∧ countOf m1
            = countOf [("count", Value.int 0)]
              + ([[rectPolygon 0 0 10 10], [rectPolygon 4 4 14 14]] :
                  List (List (GeoPolygon Int))).countP
                  (fun polygons => oddCrossing boxContains polygons ⟨5, 5⟩)
        ∧ countOf m1
            ≤ countOf [("count", Value.int 0)]
              + ([[rectPolygon 0 0 10 10], [rectPolygon 4 4 14 14]] :
                  List (List (GeoPolygon Int))).length :=
  ⟨⟨by decide, by decide, by decide⟩,
    visitArea_count boxContains 1 ⟨5, 5⟩ overlapArea 0
      [[rectPolygon 0 0 10 10], [rectPolygon 4 4 14 14]]
      ⟨some ⟨[], [[rectRing 0 0 10 10], [rectRing 4 4 14 14]]⟩, some [("count", Value.int 0)]⟩
      [("count", Value.int 0)] (by decide) rfl (by decide) (by decide)⟩

/-- C2, as stated, fails: the area `twoPartArea` has no `total`, the point `(5, 5)` matches
its first part and not its second, and after the point `total` is present (with the value
`len(features)` = 1): the second part was evaluated. -/
theorem total_written_after_first_match :
    (propsAt twoPartArea 0).bind (fun m => getProp m "total") = none
      ∧ oddCrossing boxContains [rectPolygon 0 0 10 10] ⟨5, 5⟩ = true
      ∧ oddCrossing boxContains [rectPolygon 20 20 30 30] ⟨5, 5⟩ = false
      ∧ (enrich boxContains storedOrder twoPartArea [pointFeature 5 5]).bind
          (fun c => propsAt c 0)
        = some [("total", Value.int 1), ("count", Value.int 1)] := by
  decide

/-- C2, amended: a part that matches only skips the write of `total` for that part, and the
loop goes on with the next part of the same area.  If `total` was unset before the point,
then after the point it is unset exactly when every part of the area matched the point,
and otherwise it is `len(features)`. -/
theorem visitArea_total (contains : GeoPolygon α → GeoPoint α → Bool) (nfeatures : Int)
    (point : GeoPoint α) (c : FeatureCollection α) (pid : Int)
    (polygroup : List (List (GeoPolygon α))) (f : Feature α) (m : Props)
    (hf : featureAt c pid = some f) (hm : f.Properties = some m)
    (ht : getProp m "total" = none) :
    ∃ c1 m1, visitArea contains nfeatures point c (pid, polygroup) = some c1
      ∧ propsAt c1 pid = some m1
      ∧ getProp m1 "total"
          = if polygroup.all (fun polygons => oddCrossing contains polygons point) = true
            then none else some (Value.int nfeatures) := by
  have hv := visitArea_eq contains nfeatures point c (pid, polygroup)
  have htot : getProp (areaProps contains nfeatures point polygroup m) "total"
      = if polygroup.all (fun polygons => oddCrossing contains polygons point) = true
        then none else some (Value.int nfeatures) := by
    rw [areaProps_eq_stepsProps, total_stepsProps_none _ _ _ _ _ ht]
    simp [List.all_map, isMatch, Function.comp_def]
  by_cases hnil : polygroup = []
  · subst hnil
    refine ⟨c, m, ?_, ?_, ?_⟩
    · simpa using hv
    · simp [propsAt, hf, hm]
    · simpa using ht
  · have hemp : ¬ polygroup.isEmpty = true := by simpa using hnil
    simp only [hemp, if_false, hf, hm] at hv
    exact ⟨_, _, hv, propsAt_withProps_same c pid f _ hf, htot⟩

/-- C2, amended, at the area of two disjoint parts and the point `(5, 5)`. -/
theorem visitArea_total_witness :
    (featureAt twoPartArea 0
        = some ⟨some ⟨[], [[rectRing 0 0 10 10], [rectRing 20 20 30 30]]⟩, some []⟩
      ∧ getProp [] "total" = none)
      ∧ ∃ c1 m1, visitArea boxContains 1 ⟨5, 5⟩ twoPartArea
            (0, [[rectPolygon 0 0 10 10], [rectPolygon 20 20 30 30]]) = some c1
        ∧ propsAt c1 0 = some m1
        ∧ getProp m1 "total"
            = if ([[rectPolygon 0 0 10 10], [rectPolygon 20 20 30 30]] :
                  List (List (GeoPolygon Int))).all
                  (fun polygons => oddCrossing boxContains polygons ⟨5, 5⟩) = true
              then none else some (Value.int 1) :=
  ⟨⟨by decide, by decide⟩,
    visitArea_total boxContains 1 ⟨5, 5⟩ twoPartArea 0
      [[rectPolygon 0 0 10 10], [rectPolygon 20 20 30 30]]
      ⟨some ⟨[], [[rectRing 0 0 10 10], [rectRing 20 20 30 30]]⟩, some []⟩
      [] (by decide) rfl (by decide)⟩

/-- C3: the even/odd hole rule.  One evaluation of a part adds 1 to the `count` of the area
exactly when the number of rings of the part that contain the point is odd, and leaves
`count` as it was exactly when that number is even.  For a part of an outer ring and a
hole ring: a point contained by both rings does not increment `count`, a point contained
by the outer ring only increments it by 1. -/
theorem visitPart_even_odd (contains : GeoPolygon α → GeoPoint α → Bool) (nfeatures : Int)
    (point : GeoPoint α) (pid : Int) (polycount : Nat) (c : FeatureCollection α)
    (polygons : List (GeoPolygon α)) (f : Feature α) (m : Props)
    (hf : featureAt c pid = some f) (hm : f.Properties = some m)
    (hlo : -(2 ^ 63) ≤ countOf m) (hhi : countOf m + 1 < 2 ^ 63) :
    ∃ c1 m1, visitPart contains nfeatures point pid polycount c polygons = some c1
      ∧ propsAt c1 pid = some m1
      ∧ (countOf m1 = countOf m + 1
          ↔ polygons.countP (fun ring => contains ring point) % 2 = 1)
      ∧ (countOf m1 = countOf m
          ↔ polygons.countP (fun ring => contains ring point) % 2 = 0)
      ∧ (∀ outer hole, polygons = [outer, hole] → contains outer point = true →
          contains hole point = true → countOf m1 = countOf m)
      ∧ (∀ outer hole, polygons = [outer, hole] → contains outer point = true →
          contains hole point = false → countOf m1 = countOf m + 1) := by
  have hc := countOf_partStep contains nfeatures point polycount polygons m
  have hodd : oddCrossing contains polygons point = true
      ↔ polygons.countP (fun ring => contains ring point) % 2 = 1 := by
    simp [oddCrossing, containCount_eq_countP]
  refine ⟨_, _, visitPart_eq contains nfeatures point pid polycount c polygons f m hf hm,
    propsAt_withProps_same c pid f _ hf, ?_, ?_, ?_, ?_⟩
  · rw [hc, ← hodd]
    cases ho : oddCrossing contains polygons point with
    | true =>
      simp only [if_true, iff_true]
      exact intWrap_eq _ (by omega) (by omega)
    | false =>
      simp only [Bool.false_eq_true, if_false, iff_false]
      omega
  · rw [hc]
    cases ho : oddCrossing contains polygons point with
    | true =>
      have h1 := hodd.1 ho
      simp only [if_true]
      constructor
      · intro h
        exact absurd h (intWrap_succ_ne _)
      · intro h
        omega
    | false =>
      have h1 : ¬ polygons.countP (fun ring => contains ring point) % 2 = 1 := by
        intro h
        rw [hodd.2 h] at ho
        cases ho
      simp only [Bool.false_eq_true, if_false, true_iff]
      omega
  · intro outer hole hp ho hh
    have hev : oddCrossing contains polygons point = false := by
      subst hp
      simp [oddCrossing, containCount, ho, hh]
    rw [hc, hev]
    simp
  · intro outer hole hp ho hh
    have hod : oddCrossing contains polygons point = true := by
      subst hp
      simp [oddCrossing, containCount, ho, hh]
    rw [hc, hod]
    simp only [if_true]
    exact intWrap_eq _ (by omega) (by omega)

/-- C3 at the part with a hole of `holedArea` and the point `(2, 2)`, which the outer ring
contains and the hole does not. -/
theorem visitPart_even_odd_witness :
    (featureAt holedArea 0
        = some ⟨some ⟨[], [[rectRing 0 0 10 10, rectRing 4 4 6 6]]⟩, some []⟩
      ∧ -(2 ^ 63) ≤ countOf [] ∧ countOf [] + 1 < 2 ^ 63)
      ∧ ∃ c1 m1, visitPart boxContains 1 ⟨2, 2⟩ 0 1 holedArea
            [rectPolygon 0 0 10 10, rectPolygon 4 4 6 6] = some c1
        ∧ propsAt c1 0 = some m1
        ∧ (countOf m1 = countOf [] + 1
            ↔ [rectPolygon 0 0 10 10, rectPolygon 4 4 6 6].countP
                (fun ring => boxContains ring ⟨2, 2⟩) % 2 = 1)
        ∧ (countOf m1 = countOf []
            ↔ [rectPolygon 0 0 10 10, rectPolygon 4 4 6 6].countP
                (fun ring => boxContains ring ⟨2, 2⟩) % 2 = 0)
        ∧ (∀ outer hole, [rectPolygon 0 0 10 10, rectPolygon 4 4 6 6] = [outer, hole] →
            boxContains outer ⟨2, 2⟩ = true → boxContains hole ⟨2, 2⟩ = true →
            countOf m1 = countOf [])
        ∧ (∀ outer hole, [rectPolygon 0 0 10 10, rectPolygon 4 4 6 6] = [outer, hole] →
            boxContains outer ⟨2, 2⟩ = true → boxContains hole ⟨2, 2⟩ = false →
            countOf m1 = countOf [] + 1) :=
  ⟨⟨by decide, by decide, by decide⟩,
    visitPart_even_odd boxContains 1 ⟨2, 2⟩ 0 1 holedArea
      [rectPolygon 0 0 10 10, rectPolygon 4 4 6 6]
      ⟨some ⟨[], [[rectRing 0 0 10 10, rectRing 4 4 6 6]]⟩, some []⟩ []
      (by decide) rfl (by decide) (by decide)⟩

/-- C4: for an area without a `total` key before the run, `total` is present after the run
exactly when some point and some part of the area gave an even crossing count, and its
value is then `len(features)`, the number of all input points. -/
theorem total_present_iff (contains : GeoPolygon α → GeoPoint α → Bool)
    (sched : Nat → List (Entry α) → List (Entry α)) (c : FeatureCollection α)
    (features : List (Option (Feature α))) (d : List (Entry α))
    (hs : MapRange sched) (hd : DistinctKeys d) (hc : AreasPresent c d)
    (hp : PointsPresent features) (pid : Int) (m : Props)
    (hm : propsAt c pid = some m) (ht : getProp m "total" = none) :
    ∃ c1 m1, aggregate contains sched c features d = some c1
      ∧ propsAt c1 pid = some m1
      ∧ ((getProp m1 "total").isSome = true
          ↔ ∃ point ∈ features.filterMap pointOf, ∃ polygons ∈ groupOf d pid,
              oddCrossing contains polygons point = false)
      ∧ (∀ v, getProp m1 "total" = some v → v = Value.int features.length) := by
  obtain ⟨c1, h1, h2⟩ := aggregate_propsAt contains sched c features d hs hd hc hp pid m hm
  have h3 := total_stepsProps_none contains features.length (groupOf d pid).length
    (evaluations (features.filterMap pointOf) (groupOf d pid)) m ht
  have h4 := exists_miss_iff contains (features.filterMap pointOf) (groupOf d pid)
  refine ⟨c1, _, h1, h2, ?_, ?_⟩
  · rw [h3, ← h4]
    by_cases hall : (evaluations (features.filterMap pointOf) (groupOf d pid)).all
        (isMatch contains) = true
    · simp [hall]
    · simp [hall]
  · intro v hv
    rw [h3] at hv
    by_cases hall : (evaluations (features.filterMap pointOf) (groupOf d pid)).all
        (isMatch contains) = true
    · rw [if_pos hall] at hv
      cases hv
    · rw [if_neg hall] at hv
      exact (Option.some.inj hv).symm

/-- C4 at the area of two disjoint parts and the point `(5, 5)`. -/
theorem total_present_iff_witness :
    (MapRange storedOrder
      ∧ DistinctKeys [((0 : Int), [[rectPolygon 0 0 10 10], [rectPolygon 20 20 30 30]])]
      ∧ AreasPresent twoPartArea
          [((0 : Int), [[rectPolygon 0 0 10 10], [rectPolygon 20 20 30 30]])]
      ∧ PointsPresent [pointFeature 5 5]
      ∧ propsAt twoPartArea 0 = some []
      ∧ getProp [] "total" = none)
      ∧ ∃ c1 m1, aggregate boxContains storedOrder twoPartArea [pointFeature 5 5]
            [((0 : Int), [[rectPolygon 0 0 10 10], [rectPolygon 20 20 30 30]])] = some c1
        ∧ propsAt c1 0 = some m1
        ∧ ((getProp m1 "total").isSome = true
            ↔ ∃ point ∈ [pointFeature 5 5].filterMap pointOf,
                ∃ polygons ∈ groupOf
                  [((0 : Int), [[rectPolygon 0 0 10 10], [rectPolygon 20 20 30 30]])] 0,
                oddCrossing boxContains polygons point = false)
        ∧ (∀ v, getProp m1 "total" = some v
            → v = Value.int ([pointFeature 5 5] : List (Option (Feature Int))).length) :=
  ⟨⟨mapRange_storedOrder, by unfold DistinctKeys; decide, by unfold AreasPresent; decide,
      by unfold PointsPresent; decide, by decide, by decide⟩,
    total_present_iff boxContains storedOrder twoPartArea [pointFeature 5 5]
      [((0 : Int), [[rectPolygon 0 0 10 10], [rectPolygon 20 20 30 30]])]
      mapRange_storedOrder (by unfold DistinctKeys; decide) (by unfold AreasPresent; decide)
      (by unfold PointsPresent; decide) 0 [] (by decide) (by decide)⟩

/-- C5: once the `total` of an area is set, no later step changes it.  An area that enters
the run with `total` = `v` leaves it with `total` = `v`; through any sequence of part
evaluations a `total` that is present keeps its value; any sequence of part evaluations
writes `total` at most once; and a write to `count` leaves `total` as it was. -/
theorem total_never_overwritten (contains : GeoPolygon α → GeoPoint α → Bool)
    (sched : Nat → List (Entry α) → List (Entry α)) (c : FeatureCollection α)
    (features : List (Option (Feature α))) (d : List (Entry α))
    (hs : MapRange sched) (hd : DistinctKeys d) (hc : AreasPresent c d)
    (hp : PointsPresent features) (pid : Int) (m : Props) (v : Value)
    (hm : propsAt c pid = some m) (ht : getProp m "total" = some v) :
    (∃ c1 m1, aggregate contains sched c features d = some c1
        ∧ propsAt c1 pid = some m1 ∧ getProp m1 "total" = some v)
      ∧ (∀ nfeatures polycount steps m0 v0, getProp m0 "total" = some v0 →
          getProp (stepsProps contains nfeatures polycount steps m0) "total" = some v0)
      ∧ (∀ nfeatures polycount steps m0,
          totalWrites contains nfeatures polycount steps m0 ≤ 1)
      ∧ (∀ m0 v0, getProp (setProp m0 "count" v0) "total" = getProp m0 "total") := by
  obtain ⟨c1, h1, h2⟩ := aggregate_propsAt contains sched c features d hs hd hc hp pid m hm
  refine ⟨⟨c1, _, h1, h2, total_stepsProps_some contains _ _ _ m v ht⟩, ?_, ?_, ?_⟩
  · intro nfeatures polycount steps m0 v0 h0
    exact total_stepsProps_some contains nfeatures polycount steps m0 v0 h0
  · intro nfeatures polycount steps m0
    exact totalWrites_le_one contains nfeatures polycount steps m0
  · intro m0 v0
    exact getProp_setProp_ne m0 "count" "total" v0 (by decide)

/-- C5 at the square area that enters the run with a `total`, and the point `(15, 15)`
outside it. -/
theorem total_never_overwritten_witness :
    (MapRange storedOrder
      ∧ DistinctKeys [((0 : Int), [[rectPolygon 0 0 10 10]])]
      ∧ AreasPresent totalledArea [((0 : Int), [[rectPolygon 0 0 10 10]])]
      ∧ PointsPresent [pointFeature 15 15]
      ∧ propsAt totalledArea 0 = some [("total", Value.other "7")]
      ∧ getProp [("total", Value.other "7")] "total" = some (Value.other "7"))
      ∧ (∃ c1 m1, aggregate boxContains storedOrder totalledArea [pointFeature 15 15]
              [((0 : Int), [[rectPolygon 0 0 10 10]])] = some c1
          ∧ propsAt c1 0 = some m1 ∧ getProp m1 "total" = some (Value.other "7"))
        ∧ (∀ nfeatures polycount steps m0 v0, getProp m0 "total" = some v0 →
            getProp (stepsProps boxContains nfeatures polycount steps m0) "total" = some v0)
        ∧ (∀ nfeatures polycount steps m0,
            totalWrites boxContains nfeatures polycount steps m0 ≤ 1)
        ∧ (∀ m0 v0, getProp (setProp m0 "count" v0) "total" = getProp m0 "total") :=
  ⟨⟨mapRange_storedOrder, by unfold DistinctKeys; decide, by unfold AreasPresent; decide,
      by unfold PointsPresent; decide, by decide, by decide⟩,
    total_never_overwritten boxContains storedOrder totalledArea [pointFeature 15 15]
      [((0 : Int), [[rectPolygon 0 0 10 10]])]
      mapRange_storedOrder (by unfold DistinctKeys; decide) (by unfold AreasPresent; decide)
      (by unfold PointsPresent; decide) 0 [("total", Value.other "7")] (Value.other "7")
      (by decide) (by decide)⟩

/-- C6, as stated, fails: on the square area with no property and the points `(15, 15)`,
outside, then `(5, 5)`, inside, the run writes `total` (= 2) and also increments `count`
(to 1). -/
theorem total_and_count_both_written :
    propsAt squareArea 0 = some []
      ∧ (enrich boxContains storedOrder squareArea
            [pointFeature 15 15, pointFeature 5 5]).bind (fun c => propsAt c 0)
          = some [("count", Value.int 1), ("total", Value.int 2)] := by
  decide

/-- C6, amended: the run writes `total` for an area (absent before, present after) only if
some point and some part of the area gave an even crossing count; matches of other
evaluations, which increment `count`, do not prevent the write. -/
theorem total_written_only_on_miss (contains : GeoPolygon α → GeoPoint α → Bool)
    (sched : Nat → List (Entry α) → List (Entry α)) (c : FeatureCollection α)
    (features : List (Option (Feature α))) (d : List (Entry α))
    (hs : MapRange sched) (hd : DistinctKeys d) (hc : AreasPresent c d)
    (hp : PointsPresent features) (pid : Int) (m : Props)
    (hm : propsAt c pid = some m) (ht : getProp m "total" = none) :
    ∃ c1 m1, aggregate contains sched c features d = some c1
      ∧ propsAt c1 pid = some m1
      ∧ (getProp m1 "total" ≠ none →
          ∃ point ∈ features.filterMap pointOf, ∃ polygons ∈ groupOf d pid,
            oddCrossing contains polygons point = false) := by
  obtain ⟨c1, h1, h2⟩ := aggregate_propsAt contains sched c features d hs hd hc hp pid m hm
  refine ⟨c1, _, h1, h2, fun hne => ?_⟩
  apply (exists_miss_iff contains (features.filterMap pointOf) (groupOf d pid)).1
  intro hall
  apply hne
  rw [total_stepsProps_none contains features.length (groupOf d pid).length
    (evaluations (features.filterMap pointOf) (groupOf d pid)) m ht, if_pos hall]

/-- C6, amended, at the square area and the points `(15, 15)`, `(5, 5)`. -/
theorem total_written_only_on_miss_witness :
    (MapRange storedOrder
      ∧ DistinctKeys [((0 : Int), [[rectPolygon 0 0 10 10]])]
      ∧ AreasPresent squareArea [((0 : Int), [[rectPolygon 0 0 10 10]])]
      ∧ PointsPresent [pointFeature 15 15, pointFeature 5 5]
      ∧ propsAt squareArea 0 = some []
      ∧ getProp [] "total" = none)
      ∧ ∃ c1 m1, aggregate boxContains storedOrder squareArea
            [pointFeature 15 15, pointFeature 5 5]
            [((0 : Int), [[rectPolygon 0 0 10 10]])] = some c1
        ∧ propsAt c1 0 = some m1
        ∧ (getProp m1 "total" ≠ none →
            ∃ point ∈ [pointFeature 15 15, pointFeature 5 5].filterMap pointOf,
              ∃ polygons ∈ groupOf [((0 : Int), [[rectPolygon 0 0 10 10]])] 0,
              oddCrossing boxContains polygons point = false) :=
  ⟨⟨mapRange_storedOrder, by unfold DistinctKeys; decide, by unfold AreasPresent; decide,
      by unfold PointsPresent; decide, by decide, by decide⟩,
    total_written_only_on_miss boxContains storedOrder squareArea
      [pointFeature 15 15, pointFeature 5 5] [((0 : Int), [[rectPolygon 0 0 10 10]])]
      mapRange_storedOrder (by unfold DistinctKeys; decide) (by unfold AreasPresent; decide)
      (by unfold PointsPresent; decide) 0 [] (by decide) (by decide)⟩

/-- C7: the scenario of the design document.  One area of one part made of the ring
`[[0,0],[0,10],[10,10],[10,0],[0,0]]` with no property, and the points `(5, 5)`,
`(15, 15)`, `(5, 5)` in that order, where the ring contains `(5, 5)` and not `(15, 15)`:
the run ends with `count` = 2 and `total` = 3. -/
theorem square_scenario (contains : GeoPolygon Int → GeoPoint Int → Bool)
    (sched : Nat → List (Entry Int) → List (Entry Int)) (hs : MapRange sched)
    (hin : contains (rectPolygon 0 0 10 10) ⟨5, 5⟩ = true)
    (hout : contains (rectPolygon 0 0 10 10) ⟨15, 15⟩ = false) :
    ∃ c1 m1, enrich contains sched squareArea
          [pointFeature 5 5, pointFeature 15 15, pointFeature 5 5] = some c1
      ∧ propsAt c1 0 = some m1
      ∧ getProp m1 "count" = some (Value.int 2)
      ∧ getProp m1 "total" = some (Value.int 3) := by
  have hb : buildDefinition squareArea.Features
      = some [((0 : Int), [[rectPolygon 0 0 10 10]])] := by decide
  obtain ⟨c1, h1, h2⟩ := aggregate_propsAt contains sched squareArea
    [pointFeature 5 5, pointFeature 15 15, pointFeature 5 5]
    [((0 : Int), [[rectPolygon 0 0 10 10]])] hs (by unfold DistinctKeys; decide)
    (by unfold AreasPresent; decide) (by unfold PointsPresent; decide) 0 [] (by decide)
  have hpts : ([pointFeature 5 5, pointFeature 15 15, pointFeature 5 5] :
      List (Option (Feature Int))).filterMap pointOf = [⟨5, 5⟩, ⟨15, 15⟩, ⟨5, 5⟩] := by
    decide
  have ho1 : oddCrossing contains [rectPolygon 0 0 10 10] ⟨5, 5⟩ = true := by
    rw [oddCrossing_singleton, hin]
  have ho2 : oddCrossing contains [rectPolygon 0 0 10 10] ⟨15, 15⟩ = false := by
    rw [oddCrossing_singleton, hout]
  have hsteps : stepsProps contains
      (([pointFeature 5 5, pointFeature 15 15, pointFeature 5 5] :
        List (Option (Feature Int))).length : Int)
      (groupOf [((0 : Int), [[rectPolygon 0 0 10 10]])] 0).length
      (evaluations [⟨5, 5⟩, ⟨15, 15⟩, ⟨5, 5⟩]
        (groupOf [((0 : Int), [[rectPolygon 0 0 10 10]])] 0)) []
      = [("count", Value.int 2), ("total", Value.int 3)] := by
    have hg : groupOf [((0 : Int), [[rectPolygon 0 0 10 10]])] 0
        = [[rectPolygon 0 0 10 10]] := by decide
    rw [hg]
    simp only [evaluations, List.flatMap_cons, List.flatMap_nil, List.map_cons, List.map_nil,
      List.append_nil, List.singleton_append, stepsProps, List.foldl_cons, List.foldl_nil]
    rw [partStep_odd contains _ _ _ _ _ ho1, partStep_even contains _ _ _ _ _ ho2,
      partStep_odd contains _ _ _ _ _ ho1]
    decide
  rw [hpts, hsteps] at h2
  refine ⟨c1, _, ?_, h2, by decide, by decide⟩
  simp only [enrich, hb, Option.some_bind]
  exact h1

/-- C7 with `boxContains` for the containment test and the entries visited as stored. -/
theorem square_scenario_witness :
    (MapRange storedOrder
      ∧ boxContains (rectPolygon 0 0 10 10) ⟨5, 5⟩ = true
      ∧ boxContains (rectPolygon 0 0 10 10) ⟨15, 15⟩ = false)
      ∧ ∃ c1 m1, enrich boxContains storedOrder squareArea
            [pointFeature 5 5, pointFeature 15 15, pointFeature 5 5] = some c1
        ∧ propsAt c1 0 = some m1
        ∧ getProp m1 "count" = some (Value.int 2)
        ∧ getProp m1 "total" = some (Value.int 3) :=
  ⟨⟨mapRange_storedOrder, by decide, by decide⟩,
    square_scenario boxContains storedOrder mapRange_storedOrder (by decide) (by decide)⟩

/-- C8, as stated, fails: with zero points the square area, which has no property, ends
without a `count` key (not with `count` = 0): the run changes nothing. -/
theorem no_count_without_points :
    (enrich boxContains storedOrder squareArea []).bind (fun c => propsAt c 0) = some []
      ∧ ((enrich boxContains storedOrder squareArea []).bind (fun c => propsAt c 0)).bind
          (fun m => getProp m "count") = none := by
  decide

/-- C8, amended: run with zero points, `aggregate` returns the collection unchanged, so
every area keeps the `count` and the `total` it had: both stay unset if they were unset. -/
theorem aggregate_no_points (contains : GeoPolygon α → GeoPoint α → Bool)
    (sched : Nat → List (Entry α) → List (Entry α)) (c : FeatureCollection α)
    (d : List (Entry α)) :
    aggregate contains sched c [] d = some c
      ∧ ∀ pid, (aggregate contains sched c [] d).bind (fun c1 => propsAt c1 pid)
          = propsAt c pid := by
  have h : aggregate contains sched c [] d = some c := rfl
  refine ⟨h, fun pid => ?_⟩
  rw [h]
  rfl

/-- C9: the result does not depend on the order in which the areas are visited.  For any
two visiting orders of the entries of the definition (which may differ from point to
point) `aggregate` returns the same collection; and for two area collections that hold the
same features in different orders, a feature ends with the same properties, `count` and
`total` included, whatever its position. -/
theorem area_order_independent (contains : GeoPolygon α → GeoPoint α → Bool)
    (sched1 sched2 : Nat → List (Entry α) → List (Entry α))
    (hs1 : MapRange sched1) (hs2 : MapRange sched2)
    (c1 c2 : FeatureCollection α) (features : List (Option (Feature α)))
    (hperm : List.Perm c2.Features c1.Features)
    (hwf : AreasWellFormed c1.Features) (hprops : AreasHaveProps c1.Features)
    (hp : PointsPresent features) :
    (∀ c d, DistinctKeys d →
        aggregate contains sched1 c features d = aggregate contains sched2 c features d)
      ∧ ∃ r1 r2, enrich contains sched1 c1 features = some r1
          ∧ enrich contains sched2 c2 features = some r2
          ∧ ∀ i j f, featureAt c1 i = some f → featureAt c2 j = some f →
              featureAt r1 i = featureAt r2 j := by
  refine ⟨fun c d hd => aggregate_sched contains sched1 sched2 hs1 hs2 c features d hd, ?_⟩
  have hwf2 : AreasWellFormed c2.Features := fun x hx => hwf x (hperm.mem_iff.1 hx)
  have hprops2 : AreasHaveProps c2.Features := fun x hx => hprops x (hperm.mem_iff.1 hx)
  obtain ⟨r1, h1, _, k1⟩ := enrich_spec contains sched1 c1 features hs1 hwf hprops hp
  obtain ⟨r2, h2, _, k2⟩ := enrich_spec contains sched2 c2 features hs2 hwf2 hprops2 hp
  refine ⟨r1, r2, h1, h2, fun i j f hi hj => ?_⟩
  obtain ⟨g, group, hg, hgrp, hr1⟩ := k1 i f hi
  obtain ⟨g2, group2, hg2, hgrp2, hr2⟩ := k2 j f hj
  rw [hg] at hg2
  cases hg2
  rw [hgrp] at hgrp2
  cases hgrp2
  rw [hr1, hr2]

/-- C9 at two areas stored in both orders, the entries visited as stored and in reverse. -/
theorem area_order_independent_witness :
    (MapRange storedOrder ∧ MapRange reversedOrder
      ∧ List.Perm twoAreasSwapped.Features twoAreas.Features
      ∧ AreasWellFormed twoAreas.Features ∧ AreasHaveProps twoAreas.Features
      ∧ PointsPresent [pointFeature 5 5, pointFeature 25 25, pointFeature 50 50])
      ∧ (∀ c d, DistinctKeys d →
          aggregate boxContains storedOrder c
              [pointFeature 5 5, pointFeature 25 25, pointFeature 50 50] d
            = aggregate boxContains reversedOrder c
              [pointFeature 5 5, pointFeature 25 25, pointFeature 50 50] d)
        ∧ ∃ r1 r2, enrich boxContains storedOrder twoAreas
              [pointFeature 5 5, pointFeature 25 25, pointFeature 50 50] = some r1
            ∧ enrich boxContains reversedOrder twoAreasSwapped
              [pointFeature 5 5, pointFeature 25 25, pointFeature 50 50] = some r2
            ∧ ∀ i j f, featureAt twoAreas i = some f → featureAt twoAreasSwapped j = some f →
                featureAt r1 i = featureAt r2 j :=
  ⟨⟨mapRange_storedOrder, mapRange_reversedOrder, List.Perm.swap _ _ _,
      by unfold AreasWellFormed; decide, by unfold AreasHaveProps; decide,
      by unfold PointsPresent; decide⟩,
    area_order_independent boxContains storedOrder reversedOrder mapRange_storedOrder
      mapRange_reversedOrder twoAreas twoAreasSwapped
      [pointFeature 5 5, pointFeature 25 25, pointFeature 50 50] (List.Perm.swap _ _ _)
      (by unfold AreasWellFormed; decide) (by unfold AreasHaveProps; decide)
      (by unfold PointsPresent; decide)⟩

/-- C10: on area features that it can read, `buildDefinition` returns a map with exactly
one entry per area, keyed by the indices `0 .. n-1` in order.  The entry of index `i`
holds, for the multi-polygon of feature `i`, the same number of parts in the same order,
each part the same number of rings in the same order, each ring the same number of points
in the same order, `[x, y]` becoming the point with `lng = x` and `lat = y`
(`IsGroupOf`); an area with zero parts maps to the empty list.  The result is a function
of the input alone. -/
theorem buildDefinition_structure (features : List (Option (Feature α)))
    (hwf : AreasWellFormed features) :
    ∃ d, buildDefinition features = some d
      ∧ d.length = features.length
      ∧ d.map Prod.fst = (List.range features.length).map Int.ofNat
      ∧ (∀ i, i < features.length →
          ∃ f g group, features[i]? = some (some f) ∧ f.Geometry = some g
            ∧ d[i]? = some ((i : Int), group)
            ∧ IsGroupOf g.MultiPolygon group
            ∧ (g.MultiPolygon = [] → group = []))
      ∧ (∀ d2, buildDefinition features = some d2 → d2 = d) := by
  obtain ⟨d, hb⟩ := buildDefinition_isSome features hwf
  refine ⟨d, hb, buildDefinition_length features d hb, buildDefinition_keys features d hb,
    ?_, ?_⟩
  · intro i hi
    obtain ⟨f, hf⟩ := wellFormed_getElem? features hwf i hi
    obtain ⟨g, group, hg, hgrp, hd⟩ := buildDefinition_entry features d hb i f hf
    have hrel := (buildGroup_eq_some_iff g.MultiPolygon group).1 hgrp
    refine ⟨f, g, group, hf, hg, hd, hrel, ?_⟩
    intro hnil
    unfold IsGroupOf at hrel
    rw [hnil] at hrel
    cases hrel
    rfl
  · intro d2 h2
    rw [hb] at h2
    exact (Option.some.inj h2).symm

/-- C10 at the square area followed by an area with no part. -/
theorem buildDefinition_structure_witness :
    AreasWellFormed squareAndEmpty
      ∧ ∃ d, buildDefinition squareAndEmpty = some d
        ∧ d.length = squareAndEmpty.length
        ∧ d.map Prod.fst = (List.range squareAndEmpty.length).map Int.ofNat
        ∧ (∀ i, i < squareAndEmpty.length →
            ∃ f g group, squareAndEmpty[i]? = some (some f) ∧ f.Geometry = some g
              ∧ d[i]? = some ((i : Int), group)
              ∧ IsGroupOf g.MultiPolygon group
              ∧ (g.MultiPolygon = [] → group = []))
        ∧ (∀ d2, buildDefinition squareAndEmpty = some d2 → d2 = d) :=
  ⟨by unfold AreasWellFormed; decide,
    buildDefinition_structure squareAndEmpty (by unfold AreasWellFormed; decide)⟩

/-- C11: the frame of `aggregate`.  Whatever collection a run returns, it holds as many
features in the same order, each with the geometry it had, with or without a property
map as before, and with the value it had under every key other than `count` and `total`;
and a run whose inputs can be read returns a collection.  The definition and the point
features are arguments that the function only reads: they are not part of what it
returns. -/
theorem aggregate_frame (contains : GeoPolygon α → GeoPoint α → Bool)
    (sched : Nat → List (Entry α) → List (Entry α)) (c : FeatureCollection α)
    (features : List (Option (Feature α))) (d : List (Entry α)) :
    (∀ c1, aggregate contains sched c features d = some c1 →
        Framed c c1
          ∧ c1.Features.length = c.Features.length
          ∧ ∀ pid f, featureAt c pid = some f →
              ∃ f1, featureAt c1 pid = some f1 ∧ f1.Geometry = f.Geometry
                ∧ f1.Properties.isSome = f.Properties.isSome
                ∧ ∀ key, key ≠ "count" → key ≠ "total" → propOf f1 key = propOf f key)
      ∧ (MapRange sched → DistinctKeys d → AreasPresent c d → PointsPresent features →
          ∃ c1, aggregate contains sched c features d = some c1) := by
  refine ⟨fun c1 h => ?_, fun hs hd hc hp => ?_⟩
  · have hfr := aggregate_framed contains sched c features d c1 h
    exact ⟨hfr, (List.Forall₂.length_eq hfr).symm,
      fun pid f hf => framed_featureAt c c1 hfr pid f hf⟩
  · obtain ⟨c1, h1, _⟩ := aggregate_spec contains sched c features d hs hd hc hp
    exact ⟨c1, h1⟩

/-- C11 at the square area that carries the property `pop`, and the point `(5, 5)`. -/
theorem aggregate_frame_witness :
    aggregate boxContains storedOrder namedArea [pointFeature 5 5]
        [((0 : Int), [[rectPolygon 0 0 10 10]])]
      = some ⟨[areaFeature [[rectRing 0 0 10 10]]
          [("count", Value.int 1), ("pop", Value.other "12.5")]]⟩
      ∧ Framed namedArea
          ⟨[areaFeature [[rectRing 0 0 10 10]]
            [("count", Value.int 1), ("pop", Value.other "12.5")]]⟩ :=
  ⟨by decide,
    ((aggregate_frame boxContains storedOrder namedArea [pointFeature 5 5]
      [((0 : Int), [[rectPolygon 0 0 10 10]])]).1 _ (by decide)).1⟩

/-- C12, as stated, fails: on the square area, whose definition is built without a panic,
a point feature whose geometry holds no `Point` makes the run panic at line 159, and on
the square area with a nil property map the point `(5, 5)` makes it panic at line 183. -/
theorem aggregate_panics :
    (buildDefinition squareArea.Features).isSome = true
      ∧ enrich boxContains storedOrder squareArea [lineFeature] = none
      ∧ (buildDefinition nilPropsArea.Features).isSome = true
      ∧ enrich boxContains storedOrder nilPropsArea [pointFeature 5 5] = none := by
  decide

/-- C12, amended: with `definition = buildDefinition(collection.Features)`, every key of
the definition is in range of `collection.Features` and names a feature that is not nil;
the run completes exactly when every point feature holds two coordinates and, unless
there is no point, every area with a part has a property map that is not nil; in
particular it completes when every point holds two coordinates and every area has a
property map. -/
theorem aggregate_completes_iff (contains : GeoPolygon α → GeoPoint α → Bool)
    (sched : Nat → List (Entry α) → List (Entry α)) (c : FeatureCollection α)
    (features : List (Option (Feature α))) (d : List (Entry α))
    (hs : MapRange sched) (hb : buildDefinition c.Features = some d) :
    (∀ e ∈ d, 0 ≤ e.1 ∧ e.1 < c.Features.length ∧ (featureAt c e.1).isSome = true)
      ∧ ((aggregate contains sched c features d).isSome = true
          ↔ PointsPresent features ∧ (features = [] ∨ AreasPresent c d))
      ∧ (PointsPresent features → AreasHaveProps c.Features →
          (aggregate contains sched c features d).isSome = true) := by
  have hd := buildDefinition_distinctKeys c.Features d hb
  have hwf := buildDefinition_wellFormed c.Features d hb
  have hiff := aggregate_isSome_iff contains sched c features d hs hd
  refine ⟨fun e he => ?_, hiff, fun hp hprops => ?_⟩
  · obtain ⟨i, hi, hei⟩ := List.getElem_of_mem he
    have hlen := buildDefinition_length c.Features d hb
    obtain ⟨f, hf⟩ := wellFormed_getElem? c.Features hwf i (by omega)
    obtain ⟨g, group, _, _, hdi⟩ := buildDefinition_entry c.Features d hb i f hf
    rw [List.getElem?_eq_getElem hi, hei] at hdi
    have hk : e.1 = (i : Int) := by
      rw [Option.some.inj hdi]
    have hfa : featureAt c e.1 = some f := by
      rw [featureAt_some_iff, hk]
      exact ⟨by omega, by simpa using hf⟩
    refine ⟨by omega, by omega, ?_⟩
    rw [hfa]
    rfl
  · exact hiff.2 ⟨hp, Or.inr (areasPresent_buildDefinition c d hb hwf hprops)⟩

/-- C12, amended, at the square area and the point `(5, 5)`. -/
theorem aggregate_completes_iff_witness :
    (MapRange storedOrder
      ∧ buildDefinition squareArea.Features = some [((0 : Int), [[rectPolygon 0 0 10 10]])])
      ∧ (∀ e ∈ [((0 : Int), [[rectPolygon 0 0 10 10]])],
          0 ≤ e.1 ∧ e.1 < squareArea.Features.length
            ∧ (featureAt squareArea e.1).isSome = true)
        ∧ ((aggregate boxContains storedOrder squareArea [pointFeature 5 5]
              [((0 : Int), [[rectPolygon 0 0 10 10]])]).isSome = true
            ↔ PointsPresent [pointFeature 5 5]
              ∧ ([pointFeature 5 5] = []
                ∨ AreasPresent squareArea [((0 : Int), [[rectPolygon 0 0 10 10]])]))
        ∧ (PointsPresent [pointFeature 5 5] → AreasHaveProps squareArea.Features →
            (aggregate boxContains storedOrder squareArea [pointFeature 5 5]
              [((0 : Int), [[rectPolygon 0 0 10 10]])]).isSome = true) :=
  ⟨⟨mapRange_storedOrder, by decide⟩,
    aggregate_completes_iff boxContains storedOrder squareArea [pointFeature 5 5]
      [((0 : Int), [[rectPolygon 0 0 10 10]])] mapRange_storedOrder (by decide)⟩

/-- C13, as stated, fails: a coordinate entry with one number makes `buildDefinition`
panic (index out of range at line 141), and so does a feature without geometry (nil
dereference at line 136); no empty structure is produced. -/
theorem buildDefinition_panics :
    buildDefinition ([areaFeature [[[[1]]]] []] : List (Option (Feature Int))) = none
      ∧ buildDefinition ([some ⟨none, some []⟩] : List (Option (Feature Int))) = none := by
  decide

/-- C13, amended: `buildDefinition` returns exactly when every feature and its geometry
are present and every coordinate entry holds at least two numbers.  Empty ring data
produces empty structures: an area with zero parts gives the empty list of parts, a part
with zero rings the empty part, a ring with zero coordinates the polygon of no point. -/
theorem buildDefinition_completes_iff (features : List (Option (Feature α)))
    (props : Option Props) :
    ((buildDefinition features).isSome = true ↔ AreasWellFormed features)
      ∧ buildDefinition [some (⟨some ⟨[], []⟩, props⟩ : Feature α)] = some [(0, [])]
      ∧ buildDefinition [some (⟨some ⟨[], [[]]⟩, props⟩ : Feature α)] = some [(0, [[]])]
      ∧ buildDefinition [some (⟨some ⟨[], [[[]]]⟩, props⟩ : Feature α)]
          = some [(0, [[⟨[]⟩]])] :=
  ⟨buildDefinition_isSome_iff features, rfl, rfl, rfl⟩

/-- C14, as stated, fails: the documents 1 (the square area) and 3 (one feature that is
not a point) both decode, the encoder never fails, and yet `reportGenerator` returns
nothing, neither a serialization nor an error: the aggregation panics at line 159. -/
theorem reportGenerator_panics :
    (∃ boundaries points, toyUnmarshal [1] = Except.ok boundaries
        ∧ toyUnmarshal [3] = Except.ok points)
      ∧ (∀ c, ∃ out, toyMarshal c = Except.ok out)
      ∧ reportGenerator toyUnmarshal toyMarshal boxContains storedOrder [1] [3] = none :=
  ⟨⟨squareArea, ⟨[lineFeature]⟩, rfl, rfl⟩, fun _ => ⟨_, rfl⟩, by decide⟩

/-- C14, amended: the results of `reportGenerator`.  When unmarshaling the area bytes
fails it returns that error with an empty byte slice, whatever the point bytes and
without running `aggregate` (the result is the same for every containment test and
visiting order); when unmarshaling the point bytes fails, likewise.  When both succeed
and `buildDefinition` and `aggregate` complete, it returns the marshaling error with an
empty slice if marshaling the collection that `aggregate` returned fails, and the
serialization of that collection with a nil error otherwise.  An error is returned in
these three cases only, a serialization in the last case only, and nothing is returned
exactly when both documents decode and `buildDefinition` or `aggregate` panics. -/
theorem reportGenerator_errors {ε β : Type}
    (unmarshal : List β → Except ε (FeatureCollection α))
    (marshal : FeatureCollection α → Except ε (List β))
    (contains : GeoPolygon α → GeoPoint α → Bool)
    (sched : Nat → List (Entry α) → List (Entry α)) (bigbuddy lilbuddy : List β) :
    (∀ err, unmarshal bigbuddy = Except.error err →
        ∀ contains2 sched2 lilbuddy2,
          reportGenerator unmarshal marshal contains2 sched2 bigbuddy lilbuddy2
            = some ([], some err))
      ∧ (∀ boundaries err, unmarshal bigbuddy = Except.ok boundaries →
          unmarshal lilbuddy = Except.error err →
          ∀ contains2 sched2,
            reportGenerator unmarshal marshal contains2 sched2 bigbuddy lilbuddy
              = some ([], some err))
      ∧ (∀ boundaries points definition enriched,
          unmarshal bigbuddy = Except.ok boundaries →
          unmarshal lilbuddy = Except.ok points →
          buildDefinition boundaries.Features = some definition →
          aggregate contains sched boundaries points.Features definition = some enriched →
          (∀ err, marshal enriched = Except.error err →
              reportGenerator unmarshal marshal contains sched bigbuddy lilbuddy
                = some ([], some err))
            ∧ (∀ result, marshal enriched = Except.ok result →
                reportGenerator unmarshal marshal contains sched bigbuddy lilbuddy
                  = some (result, none)))
      ∧ (∀ out err,
          reportGenerator unmarshal marshal contains sched bigbuddy lilbuddy
            = some (out, some err) →
          out = []
            ∧ (unmarshal bigbuddy = Except.error err
              ∨ (∃ boundaries, unmarshal bigbuddy = Except.ok boundaries
                  ∧ unmarshal lilbuddy = Except.error err)
              ∨ (∃ boundaries points definition enriched,
                  unmarshal bigbuddy = Except.ok boundaries
                  ∧ unmarshal lilbuddy = Except.ok points
                  ∧ buildDefinition boundaries.Features = some definition
                  ∧ aggregate contains sched boundaries points.Features definition
                      = some enriched
                  ∧ marshal enriched = Except.error err)))
      ∧ (∀ out,
          reportGenerator unmarshal marshal contains sched bigbuddy lilbuddy
            = some (out, none) →
          ∃ boundaries points definition enriched,
            unmarshal bigbuddy = Except.ok boundaries
              ∧ unmarshal lilbuddy = Except.ok points
              ∧ buildDefinition boundaries.Features = some definition
              ∧ aggregate contains sched boundaries points.Features definition
                  = some enriched
              ∧ marshal enriched = Except.ok out)
      ∧ (reportGenerator unmarshal marshal contains sched bigbuddy lilbuddy = none
          ↔ ∃ boundaries points, unmarshal bigbuddy = Except.ok boundaries
              ∧ unmarshal lilbuddy = Except.ok points
              ∧ (buildDefinition boundaries.Features = none
                ∨ ∃ definition, buildDefinition boundaries.Features = some definition
                    ∧ aggregate contains sched boundaries points.Features definition
                        = none)) := by
  refine ⟨?_, ?_, ?_, ?_, ?_, ?_⟩
  · intro err h contains2 sched2 lilbuddy2
    simp [reportGenerator, h]
  · intro boundaries err h1 h2 contains2 sched2
    simp [reportGenerator, h1, h2]
  · intro boundaries points definition enriched h1 h2 hb ha
    have h3 : enrich contains sched boundaries points.Features = some enriched := by
      simp [enrich, hb, ha]
    constructor
    · intro err h4
      simp [reportGenerator, h1, h2, h3, h4]
    · intro result h4
      simp [reportGenerator, h1, h2, h3, h4]
  · intro out err h
    unfold reportGenerator at h
    cases h1 : unmarshal bigbuddy with
    | error e1 =>
      simp only [h1, Option.some.injEq, Prod.mk.injEq] at h
      obtain ⟨ho, he⟩ := h
      exact ⟨ho.symm, Or.inl (by rw [he])⟩
    | ok boundaries =>
      simp only [h1] at h
      cases h2 : unmarshal lilbuddy with
      | error e2 =>
        simp only [h2, Option.some.injEq, Prod.mk.injEq] at h
        obtain ⟨ho, he⟩ := h
        exact ⟨ho.symm, Or.inr (Or.inl ⟨boundaries, rfl, by rw [he]⟩)⟩
      | ok points =>
        simp only [h2] at h
        cases h3 : enrich contains sched boundaries points.Features with
        | none => simp [h3] at h
        | some enriched =>
          simp only [h3] at h
          cases h4 : marshal enriched with
          | error e4 =>
            simp only [h4, Option.some.injEq, Prod.mk.injEq] at h
            obtain ⟨ho, he⟩ := h
            unfold enrich at h3
            cases hb : buildDefinition boundaries.Features with
            | none => simp [hb] at h3
            | some definition =>
              simp only [hb, Option.some_bind] at h3
              exact ⟨ho.symm, Or.inr (Or.inr ⟨boundaries, points, definition, enriched,
                rfl, rfl, hb, h3, by rw [h4, he]⟩)⟩
          | ok result => simp [h4] at h
  · intro out h
    unfold reportGenerator at h
    cases h1 : unmarshal bigbuddy with
    | error e1 => simp [h1] at h
    | ok boundaries =>
      simp only [h1] at h
      cases h2 : unmarshal lilbuddy with
      | error e2 => simp [h2] at h
      | ok points =>
        simp only [h2] at h
        cases h3 : enrich contains sched boundaries points.Features with
        | none => simp [h3] at h
        | some enriched =>
          simp only [h3] at h
          cases h4 : marshal enriched with
          | error e4 => simp [h4] at h
          | ok result =>
            simp only [h4, Option.some.injEq, Prod.mk.injEq, and_true] at h
            unfold enrich at h3
            cases hb : buildDefinition boundaries.Features with
            | none => simp [hb] at h3
            | some definition =>
              simp only [hb, Option.some_bind] at h3
              exact ⟨boundaries, points, definition, enriched, rfl, rfl, hb, h3,
                by rw [h4, h]⟩
  · constructor
    · intro h
      unfold reportGenerator at h
      cases h1 : unmarshal bigbuddy with
      | error e1 => simp [h1] at h
      | ok boundaries =>
        simp only [h1] at h
        cases h2 : unmarshal lilbuddy with
        | error e2 => simp [h2] at h
        | ok points =>
          simp only [h2] at h
          refine ⟨boundaries, points, rfl, rfl, ?_⟩
          cases hb : buildDefinition boundaries.Features with
          | none => exact Or.inl rfl
          | some definition =>
            refine Or.inr ⟨definition, rfl, ?_⟩
            cases ha : aggregate contains sched boundaries points.Features definition with
            | none => rfl
            | some enriched =>
              have h3 : enrich contains sched boundaries points.Features = some enriched := by
                simp [enrich, hb, ha]
              simp only [h3] at h
              cases h4 : marshal enriched with
              | error e4 => simp [h4] at h
              | ok result => simp [h4] at h
    · rintro ⟨boundaries, points, h1, h2, hor⟩
      have h3 : enrich contains sched boundaries points.Features = none := by
        rcases hor with hb | ⟨definition, hb, ha⟩
        · simp [enrich, hb]
        · simp [enrich, hb, ha]
      simp [reportGenerator, h1, h2, h3]

/-- C14, amended, with the stand-in codec: the byte 9 is not a document, so the run on it
returns the decoding error and no output; the run on the documents 1 and 2 returns the
encoding of the collection as `aggregate` left it, where `count` is 2, and a nil error. -/
theorem reportGenerator_errors_witness :
    reportGenerator toyUnmarshal toyMarshal boxContains storedOrder [9] [2]
        = some ([], some "invalid character")
      ∧ reportGenerator toyUnmarshal toyMarshal boxContains storedOrder [1] [9]
        = some ([], some "invalid character")
      ∧ toyMarshal squareArea = Except.ok [0]
      ∧ reportGenerator toyUnmarshal toyMarshal boxContains storedOrder [1] [2]
        = some ([2], none) :=
  ⟨(reportGenerator_errors toyUnmarshal toyMarshal boxContains storedOrder [9] [2]).1
      "invalid character" rfl boxContains storedOrder [2],
    (reportGenerator_errors toyUnmarshal toyMarshal boxContains storedOrder [1] [9]).2.1
      squareArea "invalid character" rfl rfl boxContains storedOrder,
    rfl,
    ((reportGenerator_errors toyUnmarshal toyMarshal boxContains storedOrder [1] [2]).2.2.1
      squareArea ⟨[pointFeature 5 5, pointFeature 15 15, pointFeature 5 5]⟩
      [((0 : Int), [[rectPolygon 0 0 10 10]])]
      ⟨[areaFeature [[rectRing 0 0 10 10]] [("count", Value.int 2), ("total", Value.int 3)]]⟩
      rfl rfl (by decide) (by decide)).2 [2] rfl⟩

/-- C15: the else-branch of lines 190-196 is dead.  For every point and every part the
slice `sum` has at most one element, so `total` is 0 or 1 and no evaluation enters the
branch guarded by `total > 0` and not `total == 1`; the body of the loop is the cascade of
lines 186-202 on that `total`, and deleting the else-branch changes neither the body nor
the result of `aggregate`. -/
theorem dead_branch_unreachable (contains : GeoPolygon α → GeoPoint α → Bool)
    (polygons : List (GeoPolygon α)) (point : GeoPoint α) :
    (sumOf contains polygons point).length ≤ 1
      ∧ (totalSum (sumOf contains polygons point) = 0
          ∨ totalSum (sumOf contains polygons point) = 1)
      ∧ entersElseBranch contains polygons point = false
      ∧ (∀ nfeatures polycount m,
          partStep contains nfeatures point polycount polygons m
            = if totalSum (sumOf contains polygons point) > 0 then
                if totalSum (sumOf contains polygons point) = 1 then
                  setProp (initCount m) "count" (Value.int (intWrap (countOf m + 1)))
                else if polycount > 1 then
                  setProp (initCount m) "count" (Value.int (intWrap (countOf m + 1)))
                else setTotal nfeatures (initCount m)
              else setTotal nfeatures (initCount m))
      ∧ (∀ nfeatures polycount m,
          partStepLive contains nfeatures point polygons m
            = partStep contains nfeatures point polycount polygons m)
      ∧ (∀ sched c features d,
          aggregateLive contains sched c features d
            = aggregate contains sched c features d) := by
  have hsum := sumOf_cases contains polygons point
  have h1 : totalSum ([1] : List Int) = 1 := by decide
  refine ⟨?_, ?_, ?_, fun nfeatures polycount m => rfl,
    fun nfeatures polycount m =>
      partStepLive_eq contains nfeatures point polycount polygons m,
    fun sched c features d => aggregateLive_eq contains sched c features d⟩
  · rcases hsum with h | h <;> simp [h]
  · rcases hsum with h | h
    · left; rw [h]; rfl
    · right; rw [h]; exact h1
  · rcases hsum with h | h
    · simp [entersElseBranch, h, totalSum_empty]
    · simp [entersElseBranch, h, h1]

/-- C16: the closed form of `count`.  For an area with at least one part and a point list
that is not empty, after the run `count` is the Go `int` `c0 + k` in 64-bit arithmetic,
where `k` is the number of (point, part) pairs of the area with an odd crossing count and
`c0` is the initial `count` if it was a Go `int` and 0 otherwise; it is the integer
`c0 + k` itself whenever that sum fits in 64 bits. -/
theorem count_closed_form (contains : GeoPolygon α → GeoPoint α → Bool)
    (sched : Nat → List (Entry α) → List (Entry α)) (c : FeatureCollection α)
    (features : List (Option (Feature α))) (d : List (Entry α))
    (hs : MapRange sched) (hd : DistinctKeys d) (hc : AreasPresent c d)
    (hp : PointsPresent features) (pid : Int) (m : Props)
    (hm : propsAt c pid = some m) (hparts : groupOf d pid ≠ []) (hpts : features ≠ [])
    (hlo : -(2 ^ 63) ≤ countOf m) (hhi : countOf m < 2 ^ 63) :
    ∃ c1 m1, aggregate contains sched c features d = some c1
      ∧ propsAt c1 pid = some m1
      ∧ getProp m1 "count"
          = some (Value.int (intWrap (countOf m
              + (evaluations (features.filterMap pointOf) (groupOf d pid)).countP
                  (isMatch contains))))
      ∧ (countOf m + (evaluations (features.filterMap pointOf) (groupOf d pid)).countP
            (isMatch contains) < 2 ^ 63 →
          getProp m1 "count"
            = some (Value.int (countOf m
                + (evaluations (features.filterMap pointOf) (groupOf d pid)).countP
                    (isMatch contains)))) := by
  obtain ⟨c1, h1, h2⟩ := aggregate_propsAt contains sched c features d hs hd hc hp pid m hm
  have hne := evaluations_ne_nil (features.filterMap pointOf) (groupOf d pid)
    (points_ne_nil features hp hpts) hparts
  have hk := getProp_count_stepsProps contains features.length (groupOf d pid).length
    (evaluations (features.filterMap pointOf) (groupOf d pid)) m hne
  have hw := countOf_stepsProps_wrap contains features.length (groupOf d pid).length
    (evaluations (features.filterMap pointOf) (groupOf d pid)) m
  have hval : countOf (stepsProps contains features.length (groupOf d pid).length
        (evaluations (features.filterMap pointOf) (groupOf d pid)) m)
      = intWrap (countOf m
          + (evaluations (features.filterMap pointOf) (groupOf d pid)).countP
              (isMatch contains)) := by
    rw [hw]
    by_cases h0 : (evaluations (features.filterMap pointOf) (groupOf d pid)).countP
        (isMatch contains) = 0
    · simp only [h0, if_true, Nat.cast_zero, add_zero]
      exact (intWrap_eq _ hlo hhi).symm
    · simp only [h0, if_false]
  refine ⟨c1, _, h1, h2, by rw [hk, hval], fun hfit => ?_⟩
  rw [hk, hval, intWrap_eq _ (by omega) hfit]

/-- C16 at the square area, whose `count` starts unset, and the points `(5, 5)`,
`(15, 15)`, `(5, 5)`. -/
theorem count_closed_form_witness :
    (MapRange storedOrder
      ∧ DistinctKeys [((0 : Int), [[rectPolygon 0 0 10 10]])]
      ∧ AreasPresent squareArea [((0 : Int), [[rectPolygon 0 0 10 10]])]
      ∧ PointsPresent [pointFeature 5 5, pointFeature 15 15, pointFeature 5 5]
      ∧ propsAt squareArea 0 = some []
      ∧ groupOf [((0 : Int), [[rectPolygon 0 0 10 10]])] 0 ≠ []
      ∧ [pointFeature 5 5, pointFeature 15 15, pointFeature 5 5] ≠ []
      ∧ -(2 ^ 63) ≤ countOf [] ∧ countOf [] < 2 ^ 63)
      ∧ ∃ c1 m1, aggregate boxContains storedOrder squareArea
            [pointFeature 5 5, pointFeature 15 15, pointFeature 5 5]
            [((0 : Int), [[rectPolygon 0 0 10 10]])] = some c1
        ∧ propsAt c1 0 = some m1
        ∧ getProp m1 "count"
            = some (Value.int (intWrap (countOf []
                + (evaluations
                    ([pointFeature 5 5, pointFeature 15 15, pointFeature 5 5].filterMap
                      pointOf)
                    (groupOf [((0 : Int), [[rectPolygon 0 0 10 10]])] 0)).countP
                    (isMatch boxContains))))
        ∧ (countOf []
              + (evaluations
                  ([pointFeature 5 5, pointFeature 15 15, pointFeature 5 5].filterMap
                    pointOf)
                  (groupOf [((0 : Int), [[rectPolygon 0 0 10 10]])] 0)).countP
                  (isMatch boxContains) < 2 ^ 63 →
            getProp m1 "count"
              = some (Value.int (countOf []
                  + (evaluations
                      ([pointFeature 5 5, pointFeature 15 15, pointFeature 5 5].filterMap
                        pointOf)
                      (groupOf [((0 : Int), [[rectPolygon 0 0 10 10]])] 0)).countP
                      (isMatch boxContains)))) :=
  ⟨⟨mapRange_storedOrder, by unfold DistinctKeys; decide, by unfold AreasPresent; decide,
      by unfold PointsPresent; decide, by decide, by decide, by decide, by decide,
      by decide⟩,
    count_closed_form boxContains storedOrder squareArea
      [pointFeature 5 5, pointFeature 15 15, pointFeature 5 5]
      [((0 : Int), [[rectPolygon 0 0 10 10]])]
      mapRange_storedOrder (by unfold DistinctKeys; decide) (by unfold AreasPresent; decide)
      (by unfold PointsPresent; decide) 0 [] (by decide) (by decide) (by decide)
      (by decide) (by decide)⟩

/-- C17: the result does not depend on the order of the points.  For two lists of point
features that are permutations of each other, the two runs both complete or both panic;
when they complete, every area holds the same value under every key, `count` and `total`
included; and they complete when the areas and the points can be read. -/
theorem point_order_independent (contains : GeoPolygon α → GeoPoint α → Bool)
    (sched1 sched2 : Nat → List (Entry α) → List (Entry α)) (c : FeatureCollection α)
    (features1 features2 : List (Option (Feature α))) (d : List (Entry α))
    (hs1 : MapRange sched1) (hs2 : MapRange sched2) (hd : DistinctKeys d)
    (hperm : List.Perm features2 features1) :
    ((aggregate contains sched1 c features1 d).isSome
        = (aggregate contains sched2 c features2 d).isSome)
      ∧ (∀ r1 r2, aggregate contains sched1 c features1 d = some r1 →
          aggregate contains sched2 c features2 d = some r2 →
          r1.Features.length = r2.Features.length
            ∧ ∀ pid, (propsAt r1 pid).isSome = (propsAt r2 pid).isSome
                ∧ ∀ key, (propsAt r1 pid).bind (fun m => getProp m key)
                    = (propsAt r2 pid).bind (fun m => getProp m key))
      ∧ (AreasPresent c d → PointsPresent features1 →
          ∃ r1 r2, aggregate contains sched1 c features1 d = some r1
            ∧ aggregate contains sched2 c features2 d = some r2) := by
  have hnil : features1 = [] ↔ features2 = [] := by
    constructor
    · intro h
      subst h
      exact List.perm_nil.1 hperm
    · intro h
      subst h
      exact List.nil_perm.1 hperm
  have hpp : PointsPresent features1 ↔ PointsPresent features2 :=
    ⟨pointsPresent_perm features1 features2 hperm,
      pointsPresent_perm features2 features1 hperm.symm⟩
  have hlen : features2.length = features1.length := hperm.length_eq
  have i1 := aggregate_isSome_iff contains sched1 c features1 d hs1 hd
  have i2 := aggregate_isSome_iff contains sched2 c features2 d hs2 hd
  refine ⟨?_, ?_, ?_⟩
  · rw [Bool.eq_iff_iff, i1, i2, hpp, hnil]
  · intro r1 r2 h1 h2
    obtain ⟨hp1, hor⟩ := i1.1 (by rw [h1]; rfl)
    rcases hor with hempty | hc
    · have hempty2 := hnil.1 hempty
      subst hempty
      subst hempty2
      have e1 : r1 = c := (Option.some.inj h1).symm
      have e2 : r2 = c := (Option.some.inj h2).symm
      subst e1
      subst e2
      exact ⟨rfl, fun pid => ⟨rfl, fun key => rfl⟩⟩
    · obtain ⟨c1, k1, l1, s1⟩ := aggregate_spec contains sched1 c features1 d hs1 hd hc hp1
      obtain ⟨c2, k2, l2, s2⟩ := aggregate_spec contains sched2 c features2 d hs2 hd hc
        (hpp.1 hp1)
      rw [h1] at k1
      rw [h2] at k2
      cases Option.some.inj k1
      cases Option.some.inj k2
      refine ⟨by rw [l1, l2], fun pid => ?_⟩
      rw [propsAt_of_map c r1 _ pid (s1 pid), propsAt_of_map c r2 _ pid (s2 pid)]
      cases propsAt c pid with
      | none => exact ⟨rfl, fun key => rfl⟩
      | some m =>
        refine ⟨rfl, fun key => ?_⟩
        simp only [Option.map_some', Option.some_bind]
        rw [runProps_eq_stepsProps, runProps_eq_stepsProps, hlen]
        exact getProp_stepsProps_perm contains _ _ _ _
          (evaluations_perm _ _ (hperm.symm.filterMap pointOf) _) m key
  · intro hc hp1
    obtain ⟨c1, k1, _⟩ := aggregate_spec contains sched1 c features1 d hs1 hd hc hp1
    obtain ⟨c2, k2, _⟩ := aggregate_spec contains sched2 c features2 d hs2 hd hc (hpp.1 hp1)
    exact ⟨c1, c2, k1, k2⟩

/-- C17 at the square area, the points `(5, 5)`, `(15, 15)` and the same points in the
other order. -/
theorem point_order_independent_witness :
    (MapRange storedOrder ∧ MapRange reversedOrder
      ∧ DistinctKeys [((0 : Int), [[rectPolygon 0 0 10 10]])]
      ∧ List.Perm [pointFeature 15 15, pointFeature 5 5]
          [pointFeature 5 5, pointFeature 15 15])
      ∧ ((aggregate boxContains storedOrder squareArea
              [pointFeature 5 5, pointFeature 15 15]
              [((0 : Int), [[rectPolygon 0 0 10 10]])]).isSome
          = (aggregate boxContains reversedOrder squareArea
              [pointFeature 15 15, pointFeature 5 5]
              [((0 : Int), [[rectPolygon 0 0 10 10]])]).isSome)
        ∧ (∀ r1 r2, aggregate boxContains storedOrder squareArea
              [pointFeature 5 5, pointFeature 15 15]
              [((0 : Int), [[rectPolygon 0 0 10 10]])] = some r1 →
            aggregate boxContains reversedOrder squareArea
              [pointFeature 15 15, pointFeature 5 5]
              [((0 : Int), [[rectPolygon 0 0 10 10]])] = some r2 →
            r1.Features.length = r2.Features.length
              ∧ ∀ pid, (propsAt r1 pid).isSome = (propsAt r2 pid).isSome
                  ∧ ∀ key, (propsAt r1 pid).bind (fun m => getProp m key)
                      = (propsAt r2 pid).bind (fun m => getProp m key))
        ∧ (AreasPresent squareArea [((0 : Int), [[rectPolygon 0 0 10 10]])] →
            PointsPresent [pointFeature 5 5, pointFeature 15 15] →
            ∃ r1 r2, aggregate boxContains storedOrder squareArea
                [pointFeature 5 5, pointFeature 15 15]
                [((0 : Int), [[rectPolygon 0 0 10 10]])] = some r1
              ∧ aggregate boxContains reversedOrder squareArea
                [pointFeature 15 15, pointFeature 5 5]
                [((0 : Int), [[rectPolygon 0 0 10 10]])] = some r2) :=
  ⟨⟨mapRange_storedOrder, mapRange_reversedOrder, by unfold DistinctKeys; decide,
      List.Perm.swap _ _ _⟩,
    point_order_independent boxContains storedOrder reversedOrder squareArea
      [pointFeature 5 5, pointFeature 15 15] [pointFeature 15 15, pointFeature 5 5]
      [((0 : Int), [[rectPolygon 0 0 10 10]])] mapRange_storedOrder mapRange_reversedOrder
      (by unfold DistinctKeys; decide) (List.Perm.swap _ _ _)⟩

/-- C18: an area with zero parts is never touched, its feature is after the run what it
was before, so it receives neither a `count` nor a `total`; and when the point list is
not empty, every area with at least one part has after the run a `count` that is a Go
`int` and is >= 0.  The areas are those `aggregate` can receive: `reportGenerator`, its
only caller, decodes them from JSON, where no number is a Go `int`; and the number of
part evaluations of an area fits in 64 bits. -/
theorem untouched_or_counted (contains : GeoPolygon α → GeoPoint α → Bool)
    (sched : Nat → List (Entry α) → List (Entry α)) (c : FeatureCollection α)
    (features : List (Option (Feature α))) (d : List (Entry α))
    (hs : MapRange sched) (hd : DistinctKeys d) (hc : AreasPresent c d)
    (hp : PointsPresent features) (hjson : AreasFromJSON c.Features)
    (hfit : ∀ e ∈ d, ((features.length * e.2.length : Nat) : Int) < 2 ^ 63) :
    ∃ c1, aggregate contains sched c features d = some c1
      ∧ (∀ pid, groupOf d pid = [] →
          featureAt c1 pid = featureAt c pid
            ∧ ∀ key, (propsAt c1 pid).bind (fun m1 => getProp m1 key)
                = (propsAt c pid).bind (fun m => getProp m key))
      ∧ (∀ pid m, propsAt c pid = some m → groupOf d pid ≠ [] → features ≠ [] →
          ∃ n, (propsAt c1 pid).bind (fun m1 => getProp m1 "count") = some (Value.int n)
            ∧ 0 ≤ n
            ∧ n = (evaluations (features.filterMap pointOf) (groupOf d pid)).countP
                    (isMatch contains)) := by
  obtain ⟨c1, h1, _, h3⟩ := aggregate_spec contains sched c features d hs hd hc hp
  refine ⟨c1, h1, fun pid hnil => ?_, fun pid m hm hparts hpts => ?_⟩
  · have hfa : featureAt c1 pid = featureAt c pid := by
      rw [h3 pid, hnil]
      cases featureAt c pid with
      | none => rfl
      | some f => simp [mapProps_runProps_nil]
    exact ⟨hfa, fun key => by unfold propsAt; rw [hfa]⟩
  · obtain ⟨c2, k1, k2⟩ := aggregate_propsAt contains sched c features d hs hd hc hp pid m hm
    rw [h1] at k1
    cases Option.some.inj k1
    have hne := evaluations_ne_nil (features.filterMap pointOf) (groupOf d pid)
      (points_ne_nil features hp hpts) hparts
    have hk := getProp_count_stepsProps contains features.length (groupOf d pid).length
      (evaluations (features.filterMap pointOf) (groupOf d pid)) m hne
    have hw := countOf_stepsProps_wrap contains features.length (groupOf d pid).length
      (evaluations (features.filterMap pointOf) (groupOf d pid)) m
    have h0 : countOf m = 0 := countOf_jsonDecoded m (jsonDecoded_propsAt c hjson pid m hm)
    obtain ⟨e, he, hee⟩ := exists_entry_of_groupOf d pid hparts
    have hfit2 := hfit e he
    rw [hee] at hfit2
    have hle1 : (evaluations (features.filterMap pointOf) (groupOf d pid)).countP
        (isMatch contains) ≤ (evaluations (features.filterMap pointOf) (groupOf d pid)).length :=
      List.countP_le_length _
    have hle2 : (features.filterMap pointOf).length ≤ features.length :=
      List.length_filterMap_le _ _
    have hle3 : (evaluations (features.filterMap pointOf) (groupOf d pid)).length
        ≤ features.length * (groupOf d pid).length := by
      rw [evaluations_length]
      exact Nat.mul_le_mul_right _ hle2
    have hlt : (((evaluations (features.filterMap pointOf) (groupOf d pid)).countP
        (isMatch contains) : Nat) : Int) < 2 ^ 63 := by
      have : (((evaluations (features.filterMap pointOf) (groupOf d pid)).countP
          (isMatch contains) : Nat) : Int)
          ≤ ((features.length * (groupOf d pid).length : Nat) : Int) := by
        exact_mod_cast le_trans hle1 hle3
      omega
    have hval : countOf (stepsProps contains features.length (groupOf d pid).length
          (evaluations (features.filterMap pointOf) (groupOf d pid)) m)
        = ((evaluations (features.filterMap pointOf) (groupOf d pid)).countP
            (isMatch contains) : Nat) := by
      rw [hw, h0]
      by_cases hz : (evaluations (features.filterMap pointOf) (groupOf d pid)).countP
          (isMatch contains) = 0
      · simp [hz]
      · simp only [hz, if_false, zero_add]
        exact intWrap_eq _ (by omega) hlt
    refine ⟨_, by rw [k2]; exact hk, ?_, hval⟩
    rw [hval]
    omega

/-- C18 at the square area followed by an area with no part, both without properties, and
the point `(5, 5)`. -/
theorem untouched_or_counted_witness :
    (MapRange storedOrder
      ∧ DistinctKeys [((0 : Int), [[rectPolygon 0 0 10 10]]), ((1 : Int), [])]
      ∧ AreasPresent ⟨squareAndEmpty⟩
          [((0 : Int), [[rectPolygon 0 0 10 10]]), ((1 : Int), [])]
      ∧ PointsPresent [pointFeature 5 5]
      ∧ AreasFromJSON squareAndEmpty
      ∧ ∀ e ∈ [((0 : Int), [[rectPolygon 0 0 10 10]]), ((1 : Int), [])],
          ((([pointFeature 5 5] : List (Option (Feature Int))).length * e.2.length : Nat)
            : Int) < 2 ^ 63)
      ∧ ∃ c1, aggregate boxContains storedOrder ⟨squareAndEmpty⟩ [pointFeature 5 5]
            [((0 : Int), [[rectPolygon 0 0 10 10]]), ((1 : Int), [])] = some c1
        ∧ (∀ pid, groupOf [((0 : Int), [[rectPolygon 0 0 10 10]]), ((1 : Int), [])] pid = [] →
            featureAt c1 pid = featureAt ⟨squareAndEmpty⟩ pid
              ∧ ∀ key, (propsAt c1 pid).bind (fun m1 => getProp m1 key)
                  = (propsAt ⟨squareAndEmpty⟩ pid).bind (fun m => getProp m key))
        ∧ (∀ pid m, propsAt ⟨squareAndEmpty⟩ pid = some m →
            groupOf [((0 : Int), [[rectPolygon 0 0 10 10]]), ((1 : Int), [])] pid ≠ [] →
            [pointFeature 5 5] ≠ [] →
            ∃ n, (propsAt c1 pid).bind (fun m1 => getProp m1 "count") = some (Value.int n)
              ∧ 0 ≤ n
              ∧ n = (evaluations ([pointFeature 5 5].filterMap pointOf)
                      (groupOf [((0 : Int), [[rectPolygon 0 0 10 10]]), ((1 : Int), [])]
                        pid)).countP (isMatch boxContains)) :=
  ⟨⟨mapRange_storedOrder, by unfold DistinctKeys; decide, by unfold AreasPresent; decide,
      by unfold PointsPresent; decide, by unfold AreasFromJSON; decide, by decide⟩,
    untouched_or_counted boxContains storedOrder ⟨squareAndEmpty⟩ [pointFeature 5 5]
      [((0 : Int), [[rectPolygon 0 0 10 10]]), ((1 : Int), [])]
      mapRange_storedOrder (by unfold DistinctKeys; decide) (by unfold AreasPresent; decide)
      (by unfold PointsPresent; decide) (by unfold AreasFromJSON; decide) (by decide)⟩

/-- C19: bounding boxes over an ordered number type without NaN.  Starting from
`newBounds()`, after any sequence of `extend` calls the box contains every point that was
passed to `extend`; `extend`, and any sequence of `extend` calls, never shrinks the box;
`buildBounds`, when it returns, maps each area index to a box that contains every vertex
of every ring of that area, and it returns on well-formed area features; `overlaps` is
symmetric in its two arguments. -/
theorem bounding_boxes [LinearOrder κ] [OrderTop κ] [OrderBot κ] :
    (∀ (ps : List (point κ)) (p : point κ), p ∈ ps →
        (ps.foldl bounds.extend newBounds).min.x ≤ p.x
          ∧ p.x ≤ (ps.foldl bounds.extend newBounds).max.x
          ∧ (ps.foldl bounds.extend newBounds).min.y ≤ p.y
          ∧ p.y ≤ (ps.foldl bounds.extend newBounds).max.y)
      ∧ (∀ (b : bounds κ) (p : point κ),
          (b.extend p).min.x ≤ b.min.x ∧ (b.extend p).min.y ≤ b.min.y
            ∧ b.max.x ≤ (b.extend p).max.x ∧ b.max.y ≤ (b.extend p).max.y)
      ∧ (∀ (b : bounds κ) (ps : List (point κ)), b.within (ps.foldl bounds.extend b))
      ∧ (∀ (features : List (Option (Feature κ))) (bs : List (Int × bounds κ)),
          buildBounds features = some bs →
          bs.length = features.length
            ∧ ∀ (i : Nat) (f : Feature κ) (g : Geometry κ),
                features[i]? = some (some f) → f.Geometry = some g →
                ∃ b, bs[i]? = some ((i : Int), b)
                  ∧ ∀ mpg ∈ g.MultiPolygon, ∀ pg ∈ mpg, ∀ pt ∈ pg, ∀ x y,
                      pt[0]? = some x → pt[1]? = some y →
                      b.min.x ≤ x ∧ x ≤ b.max.x ∧ b.min.y ≤ y ∧ y ≤ b.max.y)
      ∧ (∀ (features : List (Option (Feature κ))), AreasWellFormed features →
          (buildBounds features).isSome = true)
      ∧ (∀ (a b : bounds κ), overlaps a b = overlaps b a) := by
  refine ⟨fun ps p hp => foldl_extend_covers ps newBounds p hp,
    fun b p => within_extend b p, fun b ps => foldl_extend_within ps b,
    fun features bs hb => ⟨buildBounds_length features bs hb, fun i f g hf hg => ?_⟩,
    fun features h => buildBounds_isSome features h, fun a b => overlaps_comm a b⟩
  obtain ⟨b, h1, h2⟩ := buildBounds_entry features bs hb i f g hf hg
  exact ⟨b, h1, fun mpg hmpg pg hpg pt hpt x y hx hy => h2 mpg hmpg pg hpg pt hpt x y hx hy⟩

/-- C19 at the triangle `(0, 0)`, `(0, 10)`, `(10, 10)` over the integers with the two
infinities: its box is `[0, 10] × [0, 10]`. -/
theorem bounding_boxes_witness :
    buildBounds extTriangle = some [((0 : Int), ⟨⟨ext 0, ext 0⟩, ⟨ext 10, ext 10⟩⟩)]
      ∧ ([((0 : Int), (⟨⟨ext 0, ext 0⟩, ⟨ext 10, ext 10⟩⟩ : bounds ExtInt))].length
            = extTriangle.length
          ∧ ∀ (i : Nat) (f : Feature ExtInt) (g : Geometry ExtInt),
              extTriangle[i]? = some (some f) → f.Geometry = some g →
              ∃ b, [((0 : Int), (⟨⟨ext 0, ext 0⟩, ⟨ext 10, ext 10⟩⟩ : bounds ExtInt))][i]?
                    = some ((i : Int), b)
                ∧ ∀ mpg ∈ g.MultiPolygon, ∀ pg ∈ mpg, ∀ pt ∈ pg, ∀ x y,
                    pt[0]? = some x → pt[1]? = some y →
                    b.min.x ≤ x ∧ x ≤ b.max.x ∧ b.min.y ≤ y ∧ y ≤ b.max.y) :=
  ⟨by decide,
    (@bounding_boxes ExtInt _ _ _).2.2.2.1 extTriangle
      [((0 : Int), ⟨⟨ext 0, ext 0⟩, ⟨ext 10, ext 10⟩⟩)] (by decide)⟩

end GeojsonAggregator
